import Mathlib

set_option linter.unusedVariables false

namespace SupaBootstrap

/-!
Shallow embedding of the supabootstrap installer + registry subsystem
(`src/core/registry.ts`, `src/core/installer.ts`, `src/core/config.ts`,
`src/utils/file-operations.ts`).

Modelling conventions:
* file-system paths are lists of segments (`Path`), with the project root as
  the empty prefix, so `path.relative(projectRoot, p) = p`;
* file contents are lists of lines;
* the ambient effects (file system, scaffolding CLI, config persistence) are
  an explicit `World` value threaded through the installer.
-/

deriving instance DecidableEq for Except

abbrev Path := List String

/-- The shape of a feature descriptor (`Feature` in `src/utils/types.ts`).
Each required manifest field is wrapped in `Option` so that a JSON object
missing the key is representable (`none` = the key is absent), which is what
`validateFeature`'s `field in feature` test observes. -/
structure Feature where
  name : Option String
  description : Option String
  version : Option String
  dependencies : Option (List String)
  category : Option String
deriving DecidableEq, Repr

/-- The dependency list as consumed after validation (`feature.dependencies`). -/
def Feature.deps (f : Feature) : List String := f.dependencies.getD []

/-- The `features` map of `features.json`: an association list in JSON key
order (JS object iteration order); keys are unique in a JSON object, and
lookup takes the first binding. -/
abbrev Registry := List (String × Feature)

/-- `registry.features[featureId]`. -/
def lookupFeature (reg : Registry) (id : String) : Option Feature :=
  (reg.find? (fun e => e.1 == id)).map (·.2)

/-- The distinct throw sites of `FeatureRegistryManager`, as structured values
carrying the data interpolated into the thrown message.  `fuelExhausted` is
the out-of-fuel marker of the embedding's bounded recursion; the lemmas below
show it is never produced when the bound exceeds the number of registry keys,
matching the termination of the JS traversal on the finite key set. -/
inductive RegistryError
  | missingVersion
  | missingField (featureId field : String)
  | unknownDependency (featureId dep : String)
  | circularDependency (featureId : String)
  | notFound (featureId : String)
  | fuelExhausted
deriving DecidableEq, Repr

/-- `validateFeature`: the required-field checks, in source order. -/
def validateFeature (featureId : String) (f : Feature) : Except RegistryError Unit :=
  if f.name = none then .error (.missingField featureId "name")
  else if f.description = none then .error (.missingField featureId "description")
  else if f.version = none then .error (.missingField featureId "version")
  else if f.dependencies = none then .error (.missingField featureId "dependencies")
  else if f.category = none then .error (.missingField featureId "category")
  else .ok ()

/-- The `for (const [featureId, feature] of Object.entries(...))` validation
loop of `validateRegistry`. -/
def validateFeatures : Registry → Except RegistryError Unit
  | [] => .ok ()
  | (id, f) :: rest =>
    match validateFeature id f with
    | .error e => .error e
    | .ok _ => validateFeatures rest

/-- The `for (const dependency of feature.dependencies)` loop inside the
`hasCycle` closure of `checkCircularDependencies`: an unknown dependency
throws; a dependency already on the recursion stack (reported by `visit`
returning `true`) throws a circular-dependency error naming the current
feature; otherwise the traversal state is threaded on. -/
def chkDepsF (reg : Registry)
    (visit : String → List String → List String → Except RegistryError (Bool × List String))
    (id : String) (stack : List String) :
    List String → List String → Except RegistryError (List String)
  | [], visited => .ok visited
  | d :: ds, visited =>
    if lookupFeature reg d = none then .error (.unknownDependency id d)
    else
      match visit d stack visited with
      | .error e => .error e
      | .ok (true, _) => .error (.circularDependency id)
      | .ok (false, v) => chkDepsF reg visit id stack ds v

/-- The `hasCycle` closure of `checkCircularDependencies`: a three-state DFS
in which the recursion stack is the in-progress set and `visited` the seen
set.  The boolean result is `true` exactly when the visited id was already on
the recursion stack.  The `Nat` argument bounds the recursion depth; it is an
artefact of the embedding (see `RegistryError.fuelExhausted`). -/
def chkVisit (reg : Registry) :
    Nat → String → List String → List String → Except RegistryError (Bool × List String)
  | 0, _, _, _ => .error .fuelExhausted
  | fuel + 1, id, stack, visited =>
    if id ∈ stack then .ok (true, visited)
    else if id ∈ visited then .ok (false, visited)
    else
      let visited' := id :: visited
      match lookupFeature reg id with
      | none => .ok (false, visited')
      | some f =>
        match chkDepsF reg (chkVisit reg fuel) id (id :: stack) f.deps visited' with
        | .error e => .error e
        | .ok v => .ok (false, v)

/-- The top-level `for (const featureId of Object.keys(features))` loop of
`checkCircularDependencies`. -/
def chkAll (reg : Registry) (fuel : Nat) :
    List String → List String → Except RegistryError Unit
  | [], _ => .ok ()
  | k :: ks, visited =>
    if k ∈ visited then chkAll reg fuel ks visited
    else
      match chkVisit reg fuel k [] visited with
      | .error e => .error e
      | .ok (_, v) => chkAll reg fuel ks v

/-- Recursion bound: one more than the number of keys, enough for the DFS
(which only recurses into ids it has not visited yet). -/
def regFuel (reg : Registry) : Nat := reg.length + 1

/-- `checkCircularDependencies`. -/
def checkCircularDependencies (reg : Registry) : Except RegistryError Unit :=
  chkAll reg (regFuel reg) (reg.map (·.1)) []

/-- The parsed `features.json` (`FeatureRegistry` in `src/utils/types.ts`),
with the top-level `version` optional so that `validateRegistry`'s
missing-version check is representable. -/
structure RegistryFile where
  version : Option String
  features : Registry
deriving DecidableEq, Repr

/-- `validateRegistry`: version check, per-feature field checks, then cycle
(and unknown-dependency) detection. -/
def validateRegistry (rf : RegistryFile) : Except RegistryError Unit :=
  if rf.version = none then .error .missingVersion
  else
    match validateFeatures rf.features with
    | .error e => .error e
    | .ok _ => checkCircularDependencies rf.features

/-- The mutable state of `resolveDependencies`: the `visited` set and the
`resolved` output list (in push order). -/
structure ResSt where
  visited : List String
  resolved : List String
deriving DecidableEq, Repr

/-- The `for (const dependency of currentFeature.dependencies)` loop of the
`resolve` closure. -/
def resDepsF (visit : String → ResSt → Option ResSt) :
    List String → ResSt → Option ResSt
  | [], st => some st
  | d :: ds, st =>
    match visit d st with
    | none => none
    | some st' => resDepsF visit ds st'

/-- The `resolve` closure of `resolveDependencies`: memoised post-order DFS.
An id is marked visited on entry; ids without a registry entry are skipped
silently; the feature itself is pushed after its dependencies, guarded by a
membership test on the output list. -/
def resolveVisit (reg : Registry) : Nat → String → ResSt → Option ResSt
  | 0, _, _ => none
  | fuel + 1, cur, st =>
    if cur ∈ st.visited then some st
    else
      let st₁ : ResSt := ⟨cur :: st.visited, st.resolved⟩
      match lookupFeature reg cur with
      | none => some st₁
      | some f =>
        match resDepsF (resolveVisit reg fuel) f.deps st₁ with
        | none => none
        | some st₂ =>
          some (if cur ∈ st₂.resolved then st₂
                else ⟨st₂.visited, st₂.resolved ++ [cur]⟩)

/-- `resolveDependencies(featureId)`: not-found check, then the DFS from
`featureId` over an empty state. -/
def resolveDependencies (reg : Registry) (featureId : String) :
    Except RegistryError (List String) :=
  match lookupFeature reg featureId with
  | none => .error (.notFound featureId)
  | some _ =>
    match resolveVisit reg (regFuel reg) featureId ⟨[], []⟩ with
    | none => .error .fuelExhausted
    | some st => .ok st.resolved

/-! ### The dependency graph of a registry, for specification purposes -/

/-- `a` declares a direct dependency on `b`. -/
def depEdge (reg : Registry) (a b : String) : Prop :=
  ∃ f, lookupFeature reg a = some f ∧ b ∈ f.deps

/-- `b` is in the transitive dependency closure of `a` (including `a` itself). -/
def Reaches (reg : Registry) : String → String → Prop :=
  Relation.ReflTransGen (depEdge reg)

/-- `a` lies on a dependency cycle. -/
def InCycle (reg : Registry) (a : String) : Prop :=
  Relation.TransGen (depEdge reg) a a

/-- The registry's dependency graph contains a cycle. -/
def HasCycle (reg : Registry) : Prop := ∃ a, InCycle reg a

/-- No dependency cycle is reachable from `a`. -/
def Safe (reg : Registry) (a : String) : Prop :=
  ¬ ∃ c, Reaches reg a c ∧ InCycle reg c

/-- Every dependency id declared by any descriptor is a key of the registry. -/
def DepsClosed (reg : Registry) : Prop :=
  ∀ e ∈ reg, ∀ d ∈ e.2.deps, (lookupFeature reg d).isSome

/-- A fully-populated descriptor with the given dependency list. -/
def mkFeature (ds : List String) : Feature :=
  ⟨some "n", some "d", some "1.0.0", some ds, some "core"⟩

/-- The three-feature example registry of the specification's scenario:
`{a: deps=[], b: deps=[a], c: deps=[b]}`. -/
def chainRegistry : Registry :=
  [("a", mkFeature []), ("b", mkFeature ["a"]), ("c", mkFeature ["b"])]

/-- A two-feature registry with a dependency cycle `a → b → a`. -/
def cycleRegistry : Registry :=
  [("a", mkFeature ["b"]), ("b", mkFeature ["a"])]

example : resolveDependencies chainRegistry "c" = .ok ["a", "b", "c"] := by decide

example : checkCircularDependencies cycleRegistry =
    .error (.circularDependency "b") := by decide

/-- Every feature looked up by `lookupFeature` satisfies `DepsClosed`'s bound:
the lookup form of dependency-closedness, used by the traversal lemmas. -/
def DepsKnown (reg : Registry) : Prop :=
  ∀ id f, lookupFeature reg id = some f → ∀ d ∈ f.deps, (lookupFeature reg d).isSome

/-! ### Basic lookup lemmas -/

lemma lookupFeature_mem {reg : Registry} {id : String} {f : Feature}
    (h : lookupFeature reg id = some f) : (id, f) ∈ reg := by
  unfold lookupFeature at h
  rcases he : reg.find? (fun e => e.1 == id) with _ | e
  · simp [he] at h
  · rw [he] at h
    simp only [Option.map_some', Option.some.injEq] at h
    have hm := List.mem_of_find?_eq_some he
    have hp := List.find?_some he
    simp only [beq_iff_eq] at hp
    have : e = (id, f) := by
      cases e; simp_all
    rwa [this] at hm

lemma lookupFeature_key {reg : Registry} {id : String} {f : Feature}
    (h : lookupFeature reg id = some f) : id ∈ reg.map (·.1) := by
  exact List.mem_map.mpr ⟨(id, f), lookupFeature_mem h, rfl⟩

lemma depsClosed_depsKnown {reg : Registry} (h : DepsClosed reg) : DepsKnown reg := by
  intro id f hf d hd
  exact h (id, f) (lookupFeature_mem hf) d hd

/-! ### Graph lemmas -/

lemma depEdge_deps {reg : Registry} {a b : String} {f : Feature}
    (hf : lookupFeature reg a = some f) (h : depEdge reg a b) : b ∈ f.deps := by
  obtain ⟨f', hf', hb⟩ := h
  rw [hf] at hf'
  cases hf'
  exact hb

/-- A feature whose dependencies are all safe is itself safe. -/
lemma safe_of_deps {reg : Registry} {id : String} {f : Feature}
    (hf : lookupFeature reg id = some f)
    (h : ∀ d ∈ f.deps, Safe reg d) : Safe reg id := by
  rintro ⟨c, hreach, hcyc⟩
  rcases Relation.ReflTransGen.cases_head hreach with heq | ⟨d, hed, hdc⟩
  · subst heq
    obtain ⟨d, hed, hdi⟩ := (Relation.TransGen.head'_iff).mp hcyc
    exact h d (depEdge_deps hf hed) ⟨id, hdi, hcyc⟩
  · exact h d (depEdge_deps hf hed) ⟨c, hdc, hcyc⟩

/-- A feature with no registry entry has no outgoing edges, hence is safe. -/
lemma safe_of_no_entry {reg : Registry} {id : String}
    (h : lookupFeature reg id = none) : Safe reg id := by
  rintro ⟨c, hreach, hcyc⟩
  rcases Relation.ReflTransGen.cases_head hreach with heq | ⟨d, hed, _⟩
  · subst heq
    obtain ⟨d, ⟨f, hf, _⟩, _⟩ := (Relation.TransGen.head'_iff).mp hcyc
    rw [h] at hf; cases hf
  · obtain ⟨f, hf, _⟩ := hed
    rw [h] at hf; cases hf

/-- A dependency-closed set of ids contains everything reachable from any of
its members. -/
lemma closed_reachable {reg : Registry} {l : List String}
    (hcl : ∀ x ∈ l, ∀ f, lookupFeature reg x = some f → ∀ d ∈ f.deps, d ∈ l)
    {a c : String} (ha : a ∈ l) (h : Reaches reg a c) : c ∈ l := by
  induction h with
  | refl => exact ha
  | tail _ hbc ih =>
    obtain ⟨f, hf, hc⟩ := hbc
    exact hcl _ ih f hf _ hc

/-! ### Counting unvisited keys, for fuel sufficiency -/

/-- The number of registry keys not yet visited. -/
def unvisitedCount (reg : Registry) (visited : List String) : Nat :=
  ((reg.map (·.1)).filter (fun k => decide (k ∉ visited))).length

lemma length_filter_mono {α} (l : List α) (p q : α → Bool)
    (h : ∀ a, p a = true → q a = true) :
    (l.filter p).length ≤ (l.filter q).length := by
  induction l with
  | nil => simp
  | cons a l ih =>
    by_cases hp : p a = true
    · rw [List.filter_cons_of_pos hp, List.filter_cons_of_pos (h a hp)]
      simpa using ih
    · rw [List.filter_cons_of_neg (by simpa using hp)]
      by_cases hq : q a = true
      · rw [List.filter_cons_of_pos hq]
        exact Nat.le_succ_of_le ih
      · rw [List.filter_cons_of_neg (by simpa using hq)]
        exact ih

lemma unvisitedCount_mono {reg : Registry} {v v' : List String}
    (h : ∀ x ∈ v, x ∈ v') : unvisitedCount reg v' ≤ unvisitedCount reg v := by
  apply length_filter_mono
  intro a ha
  simp only [decide_eq_true_eq] at ha ⊢
  intro hav
  exact ha (h a hav)

lemma length_filter_unvisited_lt {id : String} {visited : List String}
    (hnv : id ∉ visited) :
    ∀ {l : List String}, id ∈ l →
    (l.filter (fun k => decide (k ∉ id :: visited))).length <
      (l.filter (fun k => decide (k ∉ visited))).length := by
  intro l
  induction l with
  | nil => intro h; cases h
  | cons a l ih =>
    intro hid
    have hmono : ∀ k, decide (k ∉ id :: visited) = true → decide (k ∉ visited) = true := by
      intro k hk
      simp only [decide_eq_true_eq, List.mem_cons, not_or] at hk ⊢
      exact hk.2
    by_cases ha : a = id
    · subst ha
      have h1 : ¬ (decide (a ∉ a :: visited) = true) := by simp
      have h2 : decide (a ∉ visited) = true := by simpa using hnv
      simp only [List.filter_cons]
      rw [if_neg h1, if_pos h2]
      exact Nat.lt_succ_of_le (length_filter_mono l _ _ hmono)
    · have hid' : id ∈ l := by
        rcases List.mem_cons.mp hid with h | h
        · exact absurd h.symm ha
        · exact h
      by_cases hav : a ∈ visited
      · have h1 : ¬ (decide (a ∉ id :: visited) = true) := by
          simp only [decide_eq_true_eq, List.mem_cons, not_or, not_and, not_not]
          intro _; exact hav
        have h2 : ¬ (decide (a ∉ visited) = true) := by simpa using hav
        simp only [List.filter_cons]
        rw [if_neg h1, if_neg h2]
        exact ih hid'
      · have h1 : decide (a ∉ id :: visited) = true := by
          simp only [decide_eq_true_eq, List.mem_cons, not_or]
          exact ⟨ha, hav⟩
        have h2 : decide (a ∉ visited) = true := by simpa using hav
        simp only [List.filter_cons]
        rw [if_pos h1, if_pos h2]
        simpa using ih hid'

lemma unvisitedCount_lt {reg : Registry} {id : String} {visited : List String}
    (hid : id ∈ reg.map (·.1)) (hnv : id ∉ visited) :
    unvisitedCount reg (id :: visited) < unvisitedCount reg visited :=
  length_filter_unvisited_lt hnv hid

lemma unvisitedCount_le_length (reg : Registry) (visited : List String) :
    unvisitedCount reg visited ≤ reg.length := by
  calc unvisitedCount reg visited ≤ (reg.map (·.1)).length := List.length_filter_le _ _
  _ = reg.length := List.length_map _ _

/-! ### Monotonicity of the cycle-detection DFS -/

lemma chkDepsF_mono {reg : Registry} {visit}
    (H : ∀ d stack visited b v, visit d stack visited = .ok (b, v) → ∀ x ∈ visited, x ∈ v) :
    ∀ {ds : List String} {id stack visited v},
      chkDepsF reg visit id stack ds visited = .ok v → ∀ x ∈ visited, x ∈ v := by
  intro ds
  induction ds with
  | nil =>
    intro id stack visited v h
    simp only [chkDepsF] at h
    cases h
    exact fun x hx => hx
  | cons d ds ih =>
    intro id stack visited v h x hx
    simp only [chkDepsF] at h
    split at h
    · cases h
    · rcases hv : visit d stack visited with e | ⟨b, v₁⟩
      · rw [hv] at h; cases h
      · rw [hv] at h
        cases b
        · exact ih h x (H d stack visited false v₁ hv x hx)
        · cases h

lemma chkVisit_mono {reg : Registry} :
    ∀ {fuel : Nat} {id stack visited b v},
      chkVisit reg fuel id stack visited = .ok (b, v) → ∀ x ∈ visited, x ∈ v := by
  intro fuel
  induction fuel with
  | zero => intro id stack visited b v h; cases h
  | succ fuel ih =>
    intro id stack visited b v h x hx
    simp only [chkVisit] at h
    split at h
    · cases h; exact hx
    · split at h
      · cases h; exact hx
      · split at h
        · cases h
          exact List.mem_cons_of_mem _ hx
        · split at h
          · cases h
          · rename_i f hl v₁ hd
            cases h
            exact chkDepsF_mono (fun d s vv b v hv => ih hv) hd x
              (List.mem_cons_of_mem _ hx)

/-! ### Fuel sufficiency: the out-of-fuel marker is never hit -/

lemma chkDepsF_fuel {reg : Registry} {visit} {fuel : Nat}
    (Hmono : ∀ d stack visited b v, visit d stack visited = .ok (b, v) → ∀ x ∈ visited, x ∈ v)
    (Hfuel : ∀ d stack visited, unvisitedCount reg visited < fuel →
      visit d stack visited ≠ .error .fuelExhausted) :
    ∀ {ds : List String} {id stack visited},
      unvisitedCount reg visited < fuel →
      chkDepsF reg visit id stack ds visited ≠ .error .fuelExhausted := by
  intro ds
  induction ds with
  | nil => intro id stack visited _ h; cases h
  | cons d ds ih =>
    intro id stack visited hcount h
    simp only [chkDepsF] at h
    split at h
    · cases h
    · rcases hv : visit d stack visited with e | ⟨b, v₁⟩
      · rw [hv] at h
        cases h
        exact Hfuel d stack visited hcount hv
      · rw [hv] at h
        cases b
        · have hle : unvisitedCount reg v₁ ≤ unvisitedCount reg visited :=
            unvisitedCount_mono (Hmono d stack visited false v₁ hv)
          exact ih (Nat.lt_of_le_of_lt hle hcount) h
        · cases h

lemma chkVisit_fuel {reg : Registry} :
    ∀ {fuel : Nat} {id stack visited},
      unvisitedCount reg visited < fuel →
      chkVisit reg fuel id stack visited ≠ .error .fuelExhausted := by
  intro fuel
  induction fuel with
  | zero => intro id stack visited hc; cases hc
  | succ fuel ih =>
    intro id stack visited hcount h
    simp only [chkVisit] at h
    split at h
    · cases h
    · split at h
      · cases h
      · rename_i hstack hvis
        rcases hl : lookupFeature reg id with _ | f
        · rw [hl] at h
          dsimp only at h
          cases h
        · rw [hl] at h
          dsimp only at h
          have hkey : id ∈ reg.map (·.1) := lookupFeature_key hl
          have hlt : unvisitedCount reg (id :: visited) < fuel := by
            have h1 := @unvisitedCount_lt reg _ _ hkey hvis
            omega
          rcases hd : chkDepsF reg (chkVisit reg fuel) id (id :: stack) f.deps (id :: visited)
            with e | v₁
          · rw [hd] at h
            dsimp only at h
            cases h
            exact chkDepsF_fuel (fun d s vv b v hv => chkVisit_mono hv)
              (fun d s vv hc => ih hc) hlt hd
          · rw [hd] at h
            dsimp only at h
            cases h

/-! ### Soundness of the cycle-detection DFS -/

/-- A feature that the DFS has fully processed: no cycle is reachable from it
and all of its declared dependencies exist. -/
def Good (reg : Registry) (v : String) : Prop :=
  Safe reg v ∧ ∀ f, lookupFeature reg v = some f → ∀ d ∈ f.deps, (lookupFeature reg d).isSome

/-- DFS invariant: every visited feature not currently on the recursion stack
is fully processed. -/
def InvOk (reg : Registry) (stack visited : List String) : Prop :=
  ∀ v ∈ visited, v ∉ stack → Good reg v

lemma chkVisit_true {reg : Registry} :
    ∀ {fuel : Nat} {id stack visited v},
      chkVisit reg fuel id stack visited = .ok (true, v) → id ∈ stack := by
  intro fuel id stack visited v h
  cases fuel with
  | zero => cases h
  | succ fuel =>
    simp only [chkVisit] at h
    split at h
    · assumption
    · split at h
      · cases h
      · rcases hl : lookupFeature reg id with _ | f
        · rw [hl] at h; dsimp only at h; cases h
        · rw [hl] at h
          dsimp only at h
          rcases hd : chkDepsF reg (chkVisit reg fuel) id (id :: stack) f.deps (id :: visited)
            with e | v₁
          · rw [hd] at h; dsimp only at h; cases h
          · rw [hd] at h; dsimp only at h; cases h

lemma chkDepsF_sound {reg : Registry} {visit}
    (H : ∀ d stack visited b v, visit d stack visited = .ok (b, v) →
      InvOk reg stack visited →
      (∀ x ∈ visited, x ∈ v) ∧
      (b = false → d ∉ stack ∧ d ∈ v ∧ InvOk reg stack v)) :
    ∀ {ds : List String} {id stack visited v},
      chkDepsF reg visit id stack ds visited = .ok v →
      InvOk reg stack visited →
      (∀ x ∈ visited, x ∈ v) ∧ InvOk reg stack v ∧
      (∀ d ∈ ds, (lookupFeature reg d).isSome ∧ d ∉ stack ∧ Safe reg d) := by
  intro ds
  induction ds with
  | nil =>
    intro id stack visited v h hinv
    simp only [chkDepsF] at h
    cases h
    exact ⟨fun x hx => hx, hinv, by simp⟩
  | cons d ds ih =>
    intro id stack visited v h hinv
    simp only [chkDepsF] at h
    split at h
    · cases h
    · rename_i hdknown
      rcases hv : visit d stack visited with e | ⟨b, v₁⟩
      · rw [hv] at h; cases h
      · rw [hv] at h
        cases b
        · obtain ⟨hmono₁, hfalse⟩ := H d stack visited false v₁ hv hinv
          obtain ⟨hdns, hdin, hinv₁⟩ := hfalse rfl
          obtain ⟨hmono₂, hinv₂, hrest⟩ := ih h hinv₁
          refine ⟨fun x hx => hmono₂ x (hmono₁ x hx), hinv₂, ?_⟩
          intro d' hd'
          rcases List.mem_cons.mp hd' with rfl | hd'
          · refine ⟨Option.ne_none_iff_isSome.mp hdknown, hdns, ?_⟩
            exact (hinv₁ d' hdin hdns).1
          · exact hrest d' hd'
        · cases h

lemma chkVisit_sound {reg : Registry} :
    ∀ {fuel : Nat} {id stack visited b v},
      chkVisit reg fuel id stack visited = .ok (b, v) →
      InvOk reg stack visited →
      (∀ x ∈ visited, x ∈ v) ∧
      (b = false → id ∉ stack ∧ id ∈ v ∧ InvOk reg stack v) := by
  intro fuel
  induction fuel with
  | zero => intro id stack visited b v h _; cases h
  | succ fuel ih =>
    intro id stack visited b v h hinv
    simp only [chkVisit] at h
    split at h
    · cases h
      exact ⟨fun x hx => hx, by intro hf; cases hf⟩
    · split at h
      · rename_i hstack hvis
        cases h
        exact ⟨fun x hx => hx, fun _ => ⟨hstack, hvis, hinv⟩⟩
      · rename_i hstack hvis
        rcases hl : lookupFeature reg id with _ | f
        · rw [hl] at h
          dsimp only at h
          cases h
          refine ⟨fun x hx => List.mem_cons_of_mem _ hx, fun _ => ⟨hstack, List.mem_cons_self _ _, ?_⟩⟩
          intro x hx hxs
          rcases List.mem_cons.mp hx with rfl | hx
          · exact ⟨safe_of_no_entry hl, fun f hf => by rw [hl] at hf; cases hf⟩
          · exact hinv x hx hxs
        · rw [hl] at h
          dsimp only at h
          rcases hd : chkDepsF reg (chkVisit reg fuel) id (id :: stack) f.deps (id :: visited)
            with e | v₁
          · rw [hd] at h; dsimp only at h; cases h
          · rw [hd] at h
            dsimp only at h
            cases h
            have hinv₁ : InvOk reg (id :: stack) (id :: visited) := by
              intro x hx hxs
              rcases List.mem_cons.mp hx with rfl | hx
              · exact absurd (List.mem_cons_self _ _) hxs
              · exact hinv x hx (fun hs => hxs (List.mem_cons_of_mem _ hs))
            obtain ⟨hmono, hinv₂, hdeps⟩ :=
              chkDepsF_sound (fun d s vv b v hv hi => ih hv hi) hd hinv₁
            refine ⟨fun x hx => hmono x (List.mem_cons_of_mem _ hx), fun _ => ?_⟩
            refine ⟨hstack, hmono id (List.mem_cons_self _ _), ?_⟩
            intro x hx hxs
            by_cases hxid : x = id
            · subst hxid
              refine ⟨safe_of_deps hl (fun d hd' => (hdeps d hd').2.2), ?_⟩
              intro f' hf' d hd'
              rw [hl] at hf'
              cases hf'
              exact (hdeps d hd').1
            · have : x ∉ id :: stack := by
                intro hmem
                rcases List.mem_cons.mp hmem with rfl | hmem
                · exact hxid rfl
                · exact hxs hmem
              exact hinv₂ x hx this

lemma chkAll_sound {reg : Registry} {fuel : Nat} :
    ∀ {ks : List String} {visited},
      chkAll reg fuel ks visited = .ok () →
      InvOk reg [] visited →
      ∀ k ∈ ks, Good reg k := by
  intro ks
  induction ks with
  | nil => intro visited _ _ k hk; cases hk
  | cons k ks ih =>
    intro visited h hinv k' hk'
    simp only [chkAll] at h
    split at h
    · rename_i hkv
      rcases List.mem_cons.mp hk' with rfl | hk'
      · exact hinv k' hkv (by simp)
      · exact ih h hinv k' hk'
    · rcases hv : chkVisit reg fuel k [] visited with e | ⟨b, v⟩
      · rw [hv] at h; cases h
      · rw [hv] at h
        cases b
        · obtain ⟨hmono, hfalse⟩ := chkVisit_sound hv hinv
          obtain ⟨_, hkin, hinv'⟩ := hfalse rfl
          rcases List.mem_cons.mp hk' with rfl | hk'
          · exact hinv' k' hkin (by simp)
          · exact ih h hinv' k' hk'
        · exact absurd (chkVisit_true hv) (by simp)

lemma checkCirc_ok_good {reg : Registry}
    (h : checkCircularDependencies reg = .ok ()) :
    ∀ k ∈ reg.map (·.1), Good reg k :=
  chkAll_sound h (fun v hv _ => absurd hv (by simp))

lemma checkCirc_ok_noCycle {reg : Registry}
    (h : checkCircularDependencies reg = .ok ()) : ¬ HasCycle reg := by
  rintro ⟨a, hcyc⟩
  obtain ⟨d, ⟨f, hf, _⟩, _⟩ := (Relation.TransGen.head'_iff).mp hcyc
  exact (checkCirc_ok_good h a (lookupFeature_key hf)).1 ⟨a, Relation.ReflTransGen.refl, hcyc⟩

lemma checkCirc_ok_depsKnown {reg : Registry}
    (h : checkCircularDependencies reg = .ok ()) : DepsKnown reg := by
  intro id f hf d hd
  exact (checkCirc_ok_good h id (lookupFeature_key hf)).2 f hf d hd

/-! ### A circular-dependency error names a feature on a cycle -/

lemma chkDepsF_circ {reg : Registry} {visit}
    (Hvisit : ∀ d stack visited cid,
      (∀ s ∈ stack, Relation.TransGen (depEdge reg) s d) →
      visit d stack visited = .error (.circularDependency cid) → InCycle reg cid)
    (Htrue : ∀ d stack visited v, visit d stack visited = .ok (true, v) → d ∈ stack) :
    ∀ {ds : List String} {id stackP visited cid},
      (∀ d ∈ ds, depEdge reg id d) →
      (∀ s ∈ stackP, Relation.ReflTransGen (depEdge reg) s id) →
      chkDepsF reg visit id stackP ds visited = .error (.circularDependency cid) →
      InCycle reg cid := by
  intro ds
  induction ds with
  | nil => intro id stackP visited cid _ _ h; cases h
  | cons d ds ih =>
    intro id stackP visited cid hedges hpath h
    simp only [chkDepsF] at h
    split at h
    · cases h
    · have hed : depEdge reg id d := hedges d (List.mem_cons_self _ _)
      rcases hv : visit d stackP visited with e | ⟨b, v₁⟩
      · rw [hv] at h
        cases h
        refine Hvisit d stackP visited cid ?_ hv
        intro s hs
        exact Relation.TransGen.tail' (hpath s hs) hed
      · rw [hv] at h
        cases b
        · exact ih (fun d' hd' => hedges d' (List.mem_cons_of_mem _ hd')) hpath h
        · cases h
          exact Relation.TransGen.head' hed (hpath d (Htrue d stackP visited v₁ hv))

lemma chkVisit_circ {reg : Registry} :
    ∀ {fuel : Nat} {id stack visited cid},
      (∀ s ∈ stack, Relation.TransGen (depEdge reg) s id) →
      chkVisit reg fuel id stack visited = .error (.circularDependency cid) →
      InCycle reg cid := by
  intro fuel
  induction fuel with
  | zero => intro id stack visited cid _ h; cases h
  | succ fuel ih =>
    intro id stack visited cid hpath h
    simp only [chkVisit] at h
    split at h
    · cases h
    · split at h
      · cases h
      · rcases hl : lookupFeature reg id with _ | f
        · rw [hl] at h; dsimp only at h; cases h
        · rw [hl] at h
          dsimp only at h
          rcases hd : chkDepsF reg (chkVisit reg fuel) id (id :: stack) f.deps (id :: visited)
            with e | v₁
          · rw [hd] at h
            dsimp only at h
            cases h
            refine chkDepsF_circ (fun d s vv cid' hp hv => ih hp hv)
              (fun d s vv v hv => chkVisit_true hv)
              (fun d hd' => ⟨f, hl, hd'⟩) ?_ hd
            intro s hs
            rcases List.mem_cons.mp hs with rfl | hs
            · exact Relation.ReflTransGen.refl
            · exact (hpath s hs).to_reflTransGen
          · rw [hd] at h; dsimp only at h; cases h

/-! ### Classification: with known dependencies and enough fuel, the only
possible traversal error is a circular-dependency error -/

lemma chkDepsF_class {reg : Registry} {visit} {fuel : Nat}
    (Hmono : ∀ d stack visited b v, visit d stack visited = .ok (b, v) → ∀ x ∈ visited, x ∈ v)
    (Hclass : ∀ d stack visited e, unvisitedCount reg visited < fuel →
      visit d stack visited = .error e → ∃ cid, e = .circularDependency cid) :
    ∀ {ds : List String} {id stack visited e},
      (∀ d ∈ ds, (lookupFeature reg d).isSome) →
      unvisitedCount reg visited < fuel →
      chkDepsF reg visit id stack ds visited = .error e →
      ∃ cid, e = .circularDependency cid := by
  intro ds
  induction ds with
  | nil => intro id stack visited e _ _ h; cases h
  | cons d ds ih =>
    intro id stack visited e hknown hcount h
    simp only [chkDepsF] at h
    split at h
    · rename_i hnone
      exact absurd hnone (Option.ne_none_iff_isSome.mpr (hknown d (List.mem_cons_self _ _)))
    · rcases hv : visit d stack visited with e' | ⟨b, v₁⟩
      · rw [hv] at h
        cases h
        exact Hclass d stack visited e hcount hv
      · rw [hv] at h
        cases b
        · have hle : unvisitedCount reg v₁ ≤ unvisitedCount reg visited :=
            unvisitedCount_mono (Hmono d stack visited false v₁ hv)
          exact ih (fun d' hd' => hknown d' (List.mem_cons_of_mem _ hd'))
            (Nat.lt_of_le_of_lt hle hcount) h
        · cases h
          exact ⟨id, rfl⟩

lemma chkVisit_class {reg : Registry} (hdk : DepsKnown reg) :
    ∀ {fuel : Nat} {id stack visited e},
      unvisitedCount reg visited < fuel →
      chkVisit reg fuel id stack visited = .error e →
      ∃ cid, e = .circularDependency cid := by
  intro fuel
  induction fuel with
  | zero => intro id stack visited e hc h; cases hc
  | succ fuel ih =>
    intro id stack visited e hcount h
    simp only [chkVisit] at h
    split at h
    · cases h
    · split at h
      · cases h
      · rename_i hstack hvis
        rcases hl : lookupFeature reg id with _ | f
        · rw [hl] at h; dsimp only at h; cases h
        · rw [hl] at h
          dsimp only at h
          have hkey : id ∈ reg.map (·.1) := lookupFeature_key hl
          have hlt : unvisitedCount reg (id :: visited) < fuel := by
            have h1 := @unvisitedCount_lt reg _ _ hkey hvis
            omega
          rcases hd : chkDepsF reg (chkVisit reg fuel) id (id :: stack) f.deps (id :: visited)
            with e' | v₁
          · rw [hd] at h
            dsimp only at h
            cases h
            exact chkDepsF_class (fun d s vv b v hv => chkVisit_mono hv)
              (fun d s vv e'' hc hv => ih hc hv)
              (fun d hd' => hdk id f hl d hd') hlt hd
          · rw [hd] at h; dsimp only at h; cases h

lemma chkAll_class {reg : Registry} {fuel : Nat} (hdk : DepsKnown reg) :
    ∀ {ks : List String} {visited e},
      unvisitedCount reg visited < fuel →
      chkAll reg fuel ks visited = .error e →
      ∃ cid, e = .circularDependency cid ∧ InCycle reg cid := by
  intro ks
  induction ks with
  | nil => intro visited e _ h; cases h
  | cons k ks ih =>
    intro visited e hcount h
    simp only [chkAll] at h
    split at h
    · exact ih hcount h
    · rcases hv : chkVisit reg fuel k [] visited with e' | ⟨b, v⟩
      · rw [hv] at h
        cases h
        obtain ⟨cid, rfl⟩ := chkVisit_class hdk hcount hv
        exact ⟨cid, rfl, chkVisit_circ (by simp) hv⟩
      · rw [hv] at h
        have hle : unvisitedCount reg v ≤ unvisitedCount reg visited :=
          unvisitedCount_mono (chkVisit_mono hv)
        exact ih (Nat.lt_of_le_of_lt hle hcount) h

lemma checkCirc_err {reg : Registry} {e : RegistryError} (hdk : DepsKnown reg)
    (h : checkCircularDependencies reg = .error e) :
    ∃ cid, e = .circularDependency cid ∧ InCycle reg cid := by
  refine chkAll_class hdk ?_ h
  have := unvisitedCount_le_length reg []
  unfold regFuel
  omega

/-! ### Plumbing for `validateRegistry` -/

lemma exceptUnit_error {ε : Type} {x : Except ε Unit} (h : x ≠ .ok ()) :
    ∃ e, x = .error e := by
  cases x with
  | error e => exact ⟨e, rfl⟩
  | ok u => cases u; exact absurd rfl h

lemma validateFeature_ok_fields {id : String} {f : Feature}
    (h : validateFeature id f = .ok ()) :
    f.name ≠ none ∧ f.description ≠ none ∧ f.version ≠ none ∧
      f.dependencies ≠ none ∧ f.category ≠ none := by
  unfold validateFeature at h
  split at h
  · cases h
  · split at h
    · cases h
    · split at h
      · cases h
      · split at h
        · cases h
        · split at h
          · cases h
          · exact ⟨by assumption, by assumption, by assumption, by assumption, by assumption⟩

lemma validateFeatures_ok_mem :
    ∀ {l : Registry}, validateFeatures l = .ok () →
      ∀ e ∈ l, validateFeature e.1 e.2 = .ok () := by
  intro l
  induction l with
  | nil => intro _ e he; cases he
  | cons a l ih =>
    intro h e he
    obtain ⟨id, f⟩ := a
    simp only [validateFeatures] at h
    rcases hv : validateFeature id f with e' | u
    · rw [hv] at h; cases h
    · rw [hv] at h
      dsimp only at h
      rcases List.mem_cons.mp he with rfl | he2
      · cases u; exact hv
      · exact ih h e he2

lemma validateRegistry_ok {rf : RegistryFile} (h : validateRegistry rf = .ok ()) :
    rf.version ≠ none ∧ validateFeatures rf.features = .ok () ∧
      checkCircularDependencies rf.features = .ok () := by
  unfold validateRegistry at h
  split at h
  · cases h
  · rcases hv : validateFeatures rf.features with e | u
    · rw [hv] at h; cases h
    · rw [hv] at h
      cases u
      exact ⟨by assumption, rfl, h⟩

/-- Claim C3: a registry whose dependency graph contains a cycle never passes
`validateRegistry`, and — when every descriptor is complete and every declared
dependency id is a registry key — the reported error is a circular-dependency
error naming a feature that lies on a cycle; validation also fails whenever a
looked-up descriptor is missing a required field, and whenever a looked-up
descriptor declares a dependency id that is not a key of the registry. -/
theorem C3_registry_validation :
    (∀ rf : RegistryFile, HasCycle rf.features → ∃ e, validateRegistry rf = .error e) ∧
    (∀ rf : RegistryFile, rf.version ≠ none → validateFeatures rf.features = .ok () →
      DepsClosed rf.features → HasCycle rf.features →
      ∃ cid, validateRegistry rf = .error (.circularDependency cid) ∧
        InCycle rf.features cid) ∧
    (∀ (rf : RegistryFile) (id : String) (f : Feature),
      lookupFeature rf.features id = some f →
      (f.name = none ∨ f.description = none ∨ f.version = none ∨
        f.dependencies = none ∨ f.category = none) →
      ∃ e, validateRegistry rf = .error e) ∧
    (∀ (rf : RegistryFile) (id d : String) (f : Feature),
      lookupFeature rf.features id = some f → d ∈ f.deps →
      lookupFeature rf.features d = none →
      ∃ e, validateRegistry rf = .error e) := by
  refine ⟨?_, ?_, ?_, ?_⟩
  · intro rf hcyc
    refine exceptUnit_error (fun hok => ?_)
    exact checkCirc_ok_noCycle (validateRegistry_ok hok).2.2 hcyc
  · intro rf hver hfeat hdc hcyc
    have hdk : DepsKnown rf.features := depsClosed_depsKnown hdc
    have hval : validateRegistry rf = checkCircularDependencies rf.features := by
      unfold validateRegistry
      rw [if_neg hver, hfeat]
    rcases hc : checkCircularDependencies rf.features with e | u
    · obtain ⟨cid, rfl, hin⟩ := checkCirc_err hdk hc
      exact ⟨cid, by rw [hval, hc], hin⟩
    · cases u
      exact absurd hcyc (checkCirc_ok_noCycle hc)
  · intro rf id f hf hmiss
    refine exceptUnit_error (fun hok => ?_)
    have hva := validateFeatures_ok_mem (validateRegistry_ok hok).2.1 (id, f)
      (lookupFeature_mem hf)
    obtain ⟨h1, h2, h3, h4, h5⟩ := validateFeature_ok_fields hva
    rcases hmiss with h | h | h | h | h
    · exact h1 h
    · exact h2 h
    · exact h3 h
    · exact h4 h
    · exact h5 h
  · intro rf id d f hf hd hnone
    refine exceptUnit_error (fun hok => ?_)
    have hdk := checkCirc_ok_depsKnown (validateRegistry_ok hok).2.2
    have := hdk id f hf d hd
    rw [hnone] at this
    cases this

/-- Witness for C3 on the concrete cyclic registry `{a → b → a}`: all its
hypotheses hold there and validation reports a feature on the cycle. -/
theorem C3_registry_validation_witness :
    ∃ cid, validateRegistry ⟨some "1.0.0", cycleRegistry⟩ = .error (.circularDependency cid) ∧
      InCycle cycleRegistry cid :=
  C3_registry_validation.2.1 ⟨some "1.0.0", cycleRegistry⟩ (by decide) (by decide)
    (by unfold DepsClosed; decide)
    ⟨"a", by
      have e1 : depEdge cycleRegistry "a" "b" := ⟨mkFeature ["b"], by decide, by decide⟩
      have e2 : depEdge cycleRegistry "b" "a" := ⟨mkFeature ["a"], by decide, by decide⟩
      exact Relation.TransGen.head e1 (Relation.TransGen.single e2)⟩

/-! ### Soundness of `resolveDependencies` -/

lemma resDepsF_mono {visit : String → ResSt → Option ResSt}
    (H : ∀ d st st', visit d st = some st' → ∀ x ∈ st.visited, x ∈ st'.visited) :
    ∀ {ds : List String} {st st' : ResSt},
      resDepsF visit ds st = some st' → ∀ x ∈ st.visited, x ∈ st'.visited := by
  intro ds
  induction ds with
  | nil => intro st st' h; cases h; exact fun x hx => hx
  | cons d ds ih =>
    intro st st' h x hx
    simp only [resDepsF] at h
    rcases hv : visit d st with _ | stM
    · rw [hv] at h; cases h
    · rw [hv] at h
      exact ih h x (H d st stM hv x hx)

lemma resolveVisit_mono {reg : Registry} :
    ∀ {fuel : Nat} {cur : String} {st st' : ResSt},
      resolveVisit reg fuel cur st = some st' → ∀ x ∈ st.visited, x ∈ st'.visited := by
  intro fuel
  induction fuel with
  | zero => intro cur st st' h; cases h
  | succ fuel ih =>
    intro cur st st' h x hx
    simp only [resolveVisit] at h
    split at h
    · cases h; exact hx
    · rcases hl : lookupFeature reg cur with _ | f
      · rw [hl] at h
        dsimp only at h
        cases h
        exact List.mem_cons_of_mem _ hx
      · rw [hl] at h
        dsimp only at h
        rcases hd : resDepsF (resolveVisit reg fuel) f.deps ⟨cur :: st.visited, st.resolved⟩
          with _ | st₂
        · rw [hd] at h; cases h
        · rw [hd] at h
          cases h
          have hm := resDepsF_mono (fun d s s' hv => ih hv) hd x
            (List.mem_cons_of_mem _ hx)
          split <;> exact hm

lemma resDepsF_fuel {reg : Registry} {visit : String → ResSt → Option ResSt} {fuel : Nat}
    (Hmono : ∀ d st st', visit d st = some st' → ∀ x ∈ st.visited, x ∈ st'.visited)
    (Hfuel : ∀ d st, unvisitedCount reg st.visited < fuel → visit d st ≠ none) :
    ∀ {ds : List String} {st : ResSt},
      unvisitedCount reg st.visited < fuel → resDepsF visit ds st ≠ none := by
  intro ds
  induction ds with
  | nil => intro st _ h; cases h
  | cons d ds ih =>
    intro st hcount h
    simp only [resDepsF] at h
    rcases hv : visit d st with _ | stM
    · exact Hfuel d st hcount hv
    · rw [hv] at h
      have hle : unvisitedCount reg stM.visited ≤ unvisitedCount reg st.visited :=
        unvisitedCount_mono (Hmono d st stM hv)
      exact ih (Nat.lt_of_le_of_lt hle hcount) h

lemma resolveVisit_fuel {reg : Registry} :
    ∀ {fuel : Nat} {cur : String} {st : ResSt},
      unvisitedCount reg st.visited < fuel → resolveVisit reg fuel cur st ≠ none := by
  intro fuel
  induction fuel with
  | zero => intro cur st hc; cases hc
  | succ fuel ih =>
    intro cur st hcount h
    simp only [resolveVisit] at h
    split at h
    · cases h
    · rename_i hvis
      rcases hl : lookupFeature reg cur with _ | f
      · rw [hl] at h; dsimp only at h; cases h
      · rw [hl] at h
        dsimp only at h
        have hkey : cur ∈ reg.map (·.1) := lookupFeature_key hl
        have hlt : unvisitedCount reg (cur :: st.visited) < fuel := by
          have h1 := @unvisitedCount_lt reg _ _ hkey hvis
          omega
        rcases hd : resDepsF (resolveVisit reg fuel) f.deps ⟨cur :: st.visited, st.resolved⟩
          with _ | st₂
        · exact resDepsF_fuel (fun d s s' hv => resolveVisit_mono hv)
            (fun d s hc => ih hc) hlt hd
        · rw [hd] at h; cases h

/-- Invariants of the resolver state: the output list is duplicate-free, a
subset of the visited set, topologically sorted (no earlier element depends on
a later one), and dependency-closed. -/
structure ResInv (reg : Registry) (st : ResSt) : Prop where
  nodup : st.resolved.Nodup
  sub : ∀ x ∈ st.resolved, x ∈ st.visited
  pw : st.resolved.Pairwise (fun a b => ¬ depEdge reg a b)
  closed : ∀ x ∈ st.resolved, ∀ f, lookupFeature reg x = some f → ∀ d ∈ f.deps, d ∈ st.resolved

/-- Postcondition of one `resolve(cur)` call, relative to the ghost call
stack `stack` (the chain of in-progress ancestors). -/
structure ResPost (reg : Registry) (stack : List String) (cur : String)
    (st st' : ResSt) : Prop where
  inv : ResInv reg st'
  vmono : ∀ x ∈ st.visited, x ∈ st'.visited
  rext : ∃ t, st'.resolved = st.resolved ++ t
  grey : ∀ x ∈ st'.visited, x ∉ st'.resolved → x ∈ stack
  curIn : cur ∈ st'.resolved
  mem : ∀ x, x ∈ st'.resolved ↔ (x ∈ st.resolved ∨ Reaches reg cur x)
  fresh : ∀ x ∈ st'.resolved, x ∉ st.resolved → x ∉ st.visited
  lastCur : cur ∉ st.visited → ∃ t, st'.resolved = t ++ [cur]

/-- Postcondition of the dependency loop over `ds`. -/
structure DepsPost (reg : Registry) (stack : List String) (ds : List String)
    (st st' : ResSt) : Prop where
  inv : ResInv reg st'
  vmono : ∀ x ∈ st.visited, x ∈ st'.visited
  rext : ∃ t, st'.resolved = st.resolved ++ t
  grey : ∀ x ∈ st'.visited, x ∉ st'.resolved → x ∈ stack
  dsIn : ∀ d ∈ ds, d ∈ st'.resolved
  mem : ∀ x, x ∈ st'.resolved ↔ (x ∈ st.resolved ∨ ∃ d ∈ ds, Reaches reg d x)
  fresh : ∀ x ∈ st'.resolved, x ∉ st.resolved → x ∉ st.visited

lemma resDepsF_sound {reg : Registry} {visit : String → ResSt → Option ResSt}
    (H : ∀ d stack st st', visit d st = some st' →
      (lookupFeature reg d).isSome → ResInv reg st →
      (∀ x ∈ st.visited, x ∉ st.resolved → x ∈ stack) →
      (∀ s ∈ stack, Relation.TransGen (depEdge reg) s d) →
      ResPost reg stack d st st') :
    ∀ {ds : List String} {par : String} {stack : List String} {st st' : ResSt},
      resDepsF visit ds st = some st' →
      (∀ d ∈ ds, depEdge reg par d) →
      (∀ d ∈ ds, (lookupFeature reg d).isSome) →
      (∀ s ∈ stack, Relation.ReflTransGen (depEdge reg) s par) →
      ResInv reg st →
      (∀ x ∈ st.visited, x ∉ st.resolved → x ∈ stack) →
      DepsPost reg stack ds st st' := by
  intro ds
  induction ds with
  | nil =>
    intro par stack st st' h _ _ _ hinv hgrey
    cases h
    exact ⟨hinv, fun x hx => hx, ⟨[], by simp⟩, hgrey, by simp, by simp,
      fun x hmem hx => absurd hmem hx⟩
  | cons d ds ih =>
    intro par stack st st' h hedges hknown hpath hinv hgrey
    simp only [resDepsF] at h
    rcases hv : visit d st with _ | stM
    · rw [hv] at h; cases h
    · rw [hv] at h
      have hed : depEdge reg par d := hedges d (List.mem_cons_self _ _)
      have hpost : ResPost reg stack d st stM :=
        H d stack st stM hv (hknown d (List.mem_cons_self _ _)) hinv hgrey
          (fun s hs => Relation.TransGen.tail' (hpath s hs) hed)
      have hrec : DepsPost reg stack ds stM st' :=
        ih h (fun d' hd' => hedges d' (List.mem_cons_of_mem _ hd'))
          (fun d' hd' => hknown d' (List.mem_cons_of_mem _ hd'))
          hpath hpost.inv hpost.grey
      obtain ⟨t₁, ht₁⟩ := hpost.rext
      obtain ⟨t₂, ht₂⟩ := hrec.rext
      refine ⟨hrec.inv, fun x hx => hrec.vmono x (hpost.vmono x hx),
        ⟨t₁ ++ t₂, by rw [ht₂, ht₁, List.append_assoc]⟩, hrec.grey, ?_, ?_, ?_⟩
      · intro d' hd'
        rcases List.mem_cons.mp hd' with rfl | hd'
        · rw [ht₂]
          exact List.mem_append_left _ hpost.curIn
        · exact hrec.dsIn d' hd'
      · intro x
        rw [hrec.mem x, hpost.mem x]
        constructor
        · rintro ((hx | hx) | ⟨d', hd', hx⟩)
          · exact Or.inl hx
          · exact Or.inr ⟨d, List.mem_cons_self _ _, hx⟩
          · exact Or.inr ⟨d', List.mem_cons_of_mem _ hd', hx⟩
        · rintro (hx | ⟨d', hd', hx⟩)
          · exact Or.inl (Or.inl hx)
          · rcases List.mem_cons.mp hd' with rfl | hd'
            · exact Or.inl (Or.inr hx)
            · exact Or.inr ⟨d', hd', hx⟩
      · intro x hx hxnr
        by_cases hxm : x ∈ stM.resolved
        · exact hpost.fresh x hxm hxnr
        · intro hxv
          exact hrec.fresh x hx hxm (hpost.vmono x hxv)

lemma resolveVisit_sound {reg : Registry} (hdk : DepsKnown reg) (hnc : ¬ HasCycle reg) :
    ∀ {fuel : Nat} {cur : String} {stack : List String} {st st' : ResSt},
      resolveVisit reg fuel cur st = some st' →
      (lookupFeature reg cur).isSome →
      ResInv reg st →
      (∀ x ∈ st.visited, x ∉ st.resolved → x ∈ stack) →
      (∀ s ∈ stack, Relation.TransGen (depEdge reg) s cur) →
      ResPost reg stack cur st st' := by
  intro fuel
  induction fuel with
  | zero => intro cur stack st st' h; cases h
  | succ fuel ih =>
    intro cur stack st st' h hcur hinv hgrey hpath
    simp only [resolveVisit] at h
    split at h
    · rename_i hvis
      cases h
      have hcr : cur ∈ st.resolved := by
        by_contra hnr
        have hcs : cur ∈ stack := hgrey cur hvis hnr
        exact hnc ⟨cur, hpath cur hcs⟩
      refine ⟨hinv, fun x hx => hx, ⟨[], by simp⟩, hgrey, hcr, ?_,
        fun x hmem hx => absurd hmem hx, fun hnv => absurd hvis hnv⟩
      intro x
      constructor
      · intro hx; exact Or.inl hx
      · rintro (hx | hx)
        · exact hx
        · exact closed_reachable hinv.closed hcr hx
    · rename_i hvis
      rcases hl : lookupFeature reg cur with _ | f
      · rw [hl] at hcur; cases hcur
      · rw [hl] at h
        dsimp only at h
        rcases hd : resDepsF (resolveVisit reg fuel) f.deps ⟨cur :: st.visited, st.resolved⟩
          with _ | st₂
        · rw [hd] at h; cases h
        · rw [hd] at h
          dsimp only at h
          have hinv₁ : ResInv reg (⟨cur :: st.visited, st.resolved⟩ : ResSt) :=
            ⟨hinv.nodup, fun x hx => List.mem_cons_of_mem _ (hinv.sub x hx),
              hinv.pw, hinv.closed⟩
          have hgrey₁ : ∀ x ∈ (⟨cur :: st.visited, st.resolved⟩ : ResSt).visited,
              x ∉ (⟨cur :: st.visited, st.resolved⟩ : ResSt).resolved → x ∈ cur :: stack := by
            intro x hx hxr
            rcases List.mem_cons.mp hx with rfl | hx
            · exact List.mem_cons_self _ _
            · exact List.mem_cons_of_mem _ (hgrey x hx hxr)
          have hedges : ∀ d ∈ f.deps, depEdge reg cur d := fun d hd' => ⟨f, hl, hd'⟩
          have hpath₁ : ∀ s ∈ cur :: stack, Relation.ReflTransGen (depEdge reg) s cur := by
            intro s hs
            rcases List.mem_cons.mp hs with rfl | hs
            · exact Relation.ReflTransGen.refl
            · exact (hpath s hs).to_reflTransGen
          have hdpost : DepsPost reg (cur :: stack) f.deps
              ⟨cur :: st.visited, st.resolved⟩ st₂ :=
            resDepsF_sound (fun d sk s s' hv hk hi hg hp => ih hv hk hi hg hp) hd
              hedges (fun d hd' => hdk cur f hl d hd') hpath₁ hinv₁ hgrey₁
          have hcurnr : cur ∉ st₂.resolved := by
            rw [hdpost.mem cur]
            rintro (hx | ⟨d, hd', hx⟩)
            · exact hvis (hinv.sub cur hx)
            · exact hnc ⟨cur, Relation.TransGen.head' (hedges d hd') hx⟩
          rw [if_neg hcurnr] at h
          cases h
          obtain ⟨t₂, ht₂⟩ := hdpost.rext
          have hcurv : cur ∈ st₂.visited :=
            hdpost.vmono cur (List.mem_cons_self _ _)
          refine ⟨?_, ?_, ?_, ?_, ?_, ?_, ?_, ?_⟩
          · -- ResInv of the pushed state
            refine ⟨?_, ?_, ?_, ?_⟩
            · rw [List.nodup_append]
              exact ⟨hdpost.inv.nodup, List.nodup_singleton _,
                fun a ha hb => by
                  rw [List.mem_singleton] at hb
                  subst hb
                  exact hcurnr ha⟩
            · intro x hx
              rcases List.mem_append.mp hx with hx | hx
              · exact hdpost.inv.sub x hx
              · rw [List.mem_singleton] at hx
                subst hx
                exact hcurv
            · rw [List.pairwise_append]
              refine ⟨hdpost.inv.pw, List.pairwise_singleton _ _, ?_⟩
              intro a ha b hb hab
              rw [List.mem_singleton] at hb
              subst hb
              obtain ⟨f', hf', hmem⟩ := hab
              exact hcurnr (hdpost.inv.closed a ha f' hf' _ hmem)
            · intro x hx f' hf' d hd'
              rcases List.mem_append.mp hx with hx | hx
              · exact List.mem_append_left _ (hdpost.inv.closed x hx f' hf' d hd')
              · rw [List.mem_singleton] at hx
                subst hx
                rw [hl] at hf'
                cases hf'
                exact List.mem_append_left _ (hdpost.dsIn d hd')
          · intro x hx
            exact hdpost.vmono x (List.mem_cons_of_mem _ hx)
          · exact ⟨t₂ ++ [cur], by rw [ht₂, List.append_assoc]⟩
          · intro x hx hxr
            have hx2 : x ∉ st₂.resolved := fun hm => hxr (List.mem_append_left _ hm)
            have := hdpost.grey x hx hx2
            rcases List.mem_cons.mp this with rfl | hs
            · exact absurd (List.mem_append_right _ (List.mem_singleton_self _)) hxr
            · exact hs
          · exact List.mem_append_right _ (List.mem_singleton_self _)
          · intro x
            rw [List.mem_append, List.mem_singleton, hdpost.mem x]
            constructor
            · rintro ((hx | ⟨d, hd', hx⟩) | rfl)
              · exact Or.inl hx
              · exact Or.inr (Relation.ReflTransGen.head (hedges d hd') hx)
              · exact Or.inr Relation.ReflTransGen.refl
            · rintro (hx | hx)
              · exact Or.inl (Or.inl hx)
              · rcases Relation.ReflTransGen.cases_head hx with rfl | ⟨d, hed, hdx⟩
                · exact Or.inr rfl
                · exact Or.inl (Or.inr ⟨d, depEdge_deps hl hed, hdx⟩)
          · intro x hx hxnr
            rcases List.mem_append.mp hx with hx | hx
            · intro hxv
              exact hdpost.fresh x hx hxnr (List.mem_cons_of_mem _ hxv)
            · rw [List.mem_singleton] at hx
              subst hx
              exact hvis
          · intro _
            exact ⟨st₂.resolved, rfl⟩

/-- Claim C1: over a validated (hence acyclic, dependency-closed) registry,
`resolveDependencies(id)` succeeds for every known id and returns exactly the
transitive dependency closure of `id`, duplicate-free, with no element
depending on a later one (dependencies first), ending in `id` itself; the
specification's concrete scenario evaluates as stated; and an unknown id
fails with a not-found error. -/
theorem C1_resolve_dependencies :
    (∀ (rf : RegistryFile) (id : String) (f : Feature),
      validateRegistry rf = .ok () → lookupFeature rf.features id = some f →
      ∃ l, resolveDependencies rf.features id = .ok l ∧
        l.Nodup ∧ l.getLast? = some id ∧
        (∀ x, x ∈ l ↔ Reaches rf.features id x) ∧
        l.Pairwise (fun a b => ¬ depEdge rf.features a b)) ∧
    (∀ (reg : Registry) (id : String), lookupFeature reg id = none →
      resolveDependencies reg id = .error (.notFound id)) ∧
    resolveDependencies chainRegistry "c" = .ok ["a", "b", "c"] := by
  refine ⟨?_, ?_, by decide⟩
  · intro rf id f hok hf
    have hcirc := (validateRegistry_ok hok).2.2
    have hdk : DepsKnown rf.features := checkCirc_ok_depsKnown hcirc
    have hnc : ¬ HasCycle rf.features := checkCirc_ok_noCycle hcirc
    rcases hres : resolveVisit rf.features (regFuel rf.features) id ⟨[], []⟩ with _ | st'
    · exfalso
      refine resolveVisit_fuel ?_ hres
      show unvisitedCount rf.features [] < regFuel rf.features
      have := unvisitedCount_le_length rf.features []
      unfold regFuel
      omega
    · have hpost : ResPost rf.features [] id ⟨[], []⟩ st' :=
        resolveVisit_sound hdk hnc hres (by rw [hf]; rfl)
          ⟨List.nodup_nil, fun x hx => absurd hx (List.not_mem_nil x),
            List.Pairwise.nil, fun x hx => absurd hx (List.not_mem_nil x)⟩
          (fun x hx => absurd hx (List.not_mem_nil x))
          (fun s hs => absurd hs (List.not_mem_nil s))
      refine ⟨st'.resolved, ?_, hpost.inv.nodup, ?_, ?_, hpost.inv.pw⟩
      · unfold resolveDependencies
        rw [hf]
        dsimp only
        rw [hres]
      · obtain ⟨t, ht⟩ := hpost.lastCur (List.not_mem_nil id)
        rw [ht, List.getLast?_concat]
      · intro x
        rw [hpost.mem x]
        simp only [List.not_mem_nil, false_or]
  · intro reg id h
    unfold resolveDependencies
    rw [h]

/-- Witness for C1 on the specification's scenario registry
`{a: deps=[], b: deps=[a], c: deps=[b]}`. -/
theorem C1_resolve_dependencies_witness :
    ∃ l, resolveDependencies chainRegistry "c" = .ok l ∧
      l.Nodup ∧ l.getLast? = some "c" ∧
      (∀ x, x ∈ l ↔ Reaches chainRegistry "c" x) ∧
      l.Pairwise (fun a b => ¬ depEdge chainRegistry a b) :=
  C1_resolve_dependencies.1 ⟨some "1.0.0", chainRegistry⟩ "c" (mkFeature ["b"])
    (by decide) (by decide)

/-!
### The installer model

`FeatureInstaller` (`src/core/installer.ts`) is embedded as pure functions
over an explicit `World`: the file system (files as path ↦ lines, directories
as a path list), the scaffold tool's state (a counter yielding fresh migration
identifiers, plus an event log recording every scaffold request), and failure
injection for the operations the source wraps in try/catch (`failPaths` makes
writes/copies to those targets throw; `saveConfigFails` makes config
persistence throw).

The project layout is fixed at the source's defaults: the project root is the
empty path, `sourceDir` is `./supabase` (so `ConfigManager.getSupabasePath`
and `supabaseCLI.getSupabasePath` coincide at `["supabase"]`), and feature
templates live under `features/<id>` (`FeatureRegistryManager.getFeaturePath`).
-/

/-- A scaffold request issued to the external CLI. -/
inductive Event
  | scaffoldMigration (name : String)
  | scaffoldFunction (name : String)
deriving DecidableEq, Repr

/-- The ambient state threaded through the installer. -/
structure World where
  files : List (Path × List String)
  dirs : List Path
  failPaths : List Path
  migCounter : Nat
  saveConfigFails : Bool
  now : String
  events : List Event
deriving DecidableEq, Repr

def pathToString (p : Path) : String := String.intercalate "/" p

/-- Read a file's content (`FileOperations.readFile`, minus the error wrapper:
`none` = the file does not exist). -/
def World.getFile (w : World) (p : Path) : Option (List String) :=
  (w.files.find? (fun e => e.1 == p)).map (·.2)

/-- `FileOperations.fileExists`. -/
def World.fileExists (w : World) (p : Path) : Bool := (w.getFile p).isSome

/-- `FileOperations.directoryExists`. -/
def World.dirExists (w : World) (p : Path) : Bool := w.dirs.contains p

/-- Write or replace a file in place, creating the parent directory
(`fs.writeFileSync` with `createDirs`; `mkdirSync recursive` is modelled by
registering the immediate parent directory). -/
def World.setFile (w : World) (p : Path) (c : List String) : World :=
  if w.files.any (fun e => e.1 == p) then
    { w with files := w.files.map (fun e => if e.1 == p then (p, c) else e) }
  else
    { w with files := w.files ++ [(p, c)],
             dirs := if w.dirs.contains p.dropLast then w.dirs else w.dirs ++ [p.dropLast] }

/-- `FileOperations.writeFile`: throws when the target is failure-injected. -/
def World.writeFile (w : World) (p : Path) (c : List String) : Except String World :=
  if p ∈ w.failPaths then .error ("Failed to write file: " ++ pathToString p)
  else .ok (w.setFile p c)

/-- `FileOperations.copyFile` (no `prefix` option — the installer never passes
one): refuses an existing destination unless `overwrite`, then copies, with
`copyFileSync` failures injected via `failPaths` and a missing source. -/
def World.copyFile (w : World) (src dest : Path) (overwrite : Bool) : Except String World :=
  if (w.fileExists dest || w.dirExists dest) && !overwrite then
    .error ("File already exists: " ++ pathToString dest)
  else if dest ∈ w.failPaths then .error ("Failed to copy file: " ++ pathToString dest)
  else
    match w.getFile src with
    | none => .error ("Failed to copy file: " ++ pathToString src)
    | some c => .ok (w.setFile dest c)

/-- `FileOperations.getFilesInDirectory` (recursive): all file paths strictly
below `root`, in listing order. -/
def World.filesUnder (w : World) (root : Path) : List Path :=
  (w.files.filter (fun e => root.isPrefixOf e.1 && decide (root.length < e.1.length))).map (·.1)

/-- The immediate child directories of `root`
(`fs.readdirSync(..., withFileTypes).filter(isDirectory)`). -/
def World.childDirs (w : World) (root : Path) : List String :=
  w.dirs.filterMap (fun d =>
    if root.isPrefixOf d && decide (d.length = root.length + 1) then (d.drop root.length).head?
    else none)

/-- `InstalledFeature` (`src/utils/types.ts`). -/
structure InstalledFeature where
  version : String
  installedAt : String
  files : List Path
deriving DecidableEq, Repr

/-- The parts of `SupaBootstrapConfig` the installer reads and writes
(`sourceDir` is fixed at its default, see the module comment). -/
structure Config where
  filePrefix : Option String
  installedFeatures : List (String × InstalledFeature)
deriving DecidableEq, Repr

/-- `config.installedFeatures[featureId]`. -/
def lookupRecord (cfg : Config) (id : String) : Option InstalledFeature :=
  (cfg.installedFeatures.find? (fun e => e.1 == id)).map (·.2)

/-- JS object assignment `config.installedFeatures[featureId] = record`. -/
def setRecord (l : List (String × InstalledFeature)) (k : String) (v : InstalledFeature) :
    List (String × InstalledFeature) :=
  if l.any (fun e => e.1 == k) then l.map (fun e => if e.1 == k then (k, v) else e)
  else l ++ [(k, v)]

/-- Index of the last `'.'` in a character list (`path.extname`'s search). -/
def lastDotAux : List Char → Nat → Option Nat → Option Nat
  | [], _, acc => acc
  | c :: cs, i, acc => lastDotAux cs (i + 1) (if c = '.' then some i else acc)

/-- Split a filename into base and extension, following `path.basename` /
`path.extname` on a single segment: the extension starts at the last dot,
except that a dot in position 0 (a dotfile) yields no extension. -/
def extSplit (s : String) : String × String :=
  match lastDotAux s.data 0 none with
  | none => (s, "")
  | some 0 => (s, "")
  | some i => (⟨s.data.take i⟩, ⟨s.data.drop i⟩)

/-- `ConfigManager.applyFilePrefix` applied to a single path segment: with no
configured prefix the name is returned unchanged; otherwise the prefix is
prepended to the base name and the extension re-appended. -/
def applyFilePrefixStr (cfg : Config) (s : String) : String :=
  match cfg.filePrefix with
  | none => s
  | some pre => pre ++ (extSplit s).1 ++ (extSplit s).2

/-- `applyFilePrefix` on a relative path: `path.dirname` (all but the last
segment) is untouched and the last segment gets the prefix. -/
def applyFilePrefixPath (cfg : Config) : Path → Path
  | [] => []
  | x :: xs => (x :: xs).dropLast ++ [applyFilePrefixStr cfg ((x :: xs).getLast (by simp))]

def supabaseDir : Path := ["supabase"]
def schemasDir : Path := ["supabase", "schemas"]
def migrationsDir : Path := ["supabase", "migrations"]
def functionsDir : Path := ["supabase", "functions"]

/-- Modelled from the spec: `supabaseCLI.getSeedPath` is not part of the
sources (only its call site in `installSeeds` is); §4.2/§6 of the spec
describe "one shared seed artifact per project", placed in the Supabase
directory. -/
def seedPath : Path := ["supabase", "seed.sql"]

/-- `FeatureRegistryManager.getFeaturePath`. -/
def featureDirOf (featureId : String) : Path := ["features", featureId]

/-- `FeatureInstaller.getTargetPath`: Supabase directory + artifact kind +
prefixed relative name. -/
def getTargetPath (cfg : Config) (ty : String) (rel : Path) : Path :=
  supabaseDir ++ [ty] ++ applyFilePrefixPath cfg rel

/-- The `action` annotation of a `ConflictingFile`. -/
inductive ResAction
  | overwrite
  | skip
deriving DecidableEq, Repr

/-- `ConflictingFile` (`src/utils/types.ts`); the source's `exists` field is
named `existsOnDisk` here. `action` is optional: an entry may carry no
resolution. -/
structure ConflictingFile where
  path : Path
  existsOnDisk : Bool
  action : Option ResAction
deriving DecidableEq, Repr

/-- The resolution the installer sees for a target path: the `action` of the
first matching entry, if any (`conflictResolutions.find(c => c.path === p)`).
All three source call sites test only `found && found.action === ...`, which
this value determines. -/
def resolutionFor (res : List ConflictingFile) (p : Path) : Option ResAction :=
  (res.find? (fun c => c.path == p)).bind (·.action)

/-- The installer's per-invocation mutable state: the world plus the
`installedFiles` / `skippedFiles` / `errors` accumulators. -/
structure InstallSt where
  w : World
  installed : List Path
  skipped : List Path
  errors : List String
deriving DecidableEq, Repr

/-- `InstallationResult` (`src/utils/types.ts`). -/
structure InstallationResult where
  success : Bool
  installedFiles : List Path
  skippedFiles : List Path
  errors : List String
deriving DecidableEq, Repr

def lastSeg (p : Path) : String := p.getLast?.getD ""

/-- `String.endsWith`, via character lists (the core implementation does not
reduce in the kernel). -/
def strEndsWith (s suffix : String) : Bool := suffix.data.isSuffixOf s.data

/-- `path.basename(file, ".sql")`. -/
def stripSqlExt (s : String) : String := if strEndsWith s ".sql" then s.dropRight 4 else s

/-! #### Schema stage -/

def schemaTargetOf (cfg : Config) (root : Path) (f : Path) : Path :=
  getTargetPath cfg "schemas" (f.drop root.length)

/-- The schema-file loop of `installSchemas`.  Note there is no per-item
try/catch in the source: a copy failure propagates (the `Except.error` carries
the state at the moment of the throw). -/
def schemasLoop (cfg : Config) (root : Path) (res : List ConflictingFile) :
    List Path → InstallSt → Except (String × InstallSt) InstallSt
  | [], st => .ok st
  | f :: fs, st =>
    let target := schemaTargetOf cfg root f
    if resolutionFor res target = some .skip then
      schemasLoop cfg root res fs { st with skipped := st.skipped ++ [target] }
    else
      match st.w.copyFile f target true with
      | .error m => .error (m, st)
      | .ok w' =>
        schemasLoop cfg root res fs { st with w := w', installed := st.installed ++ [target] }

/-- `FeatureInstaller.installSchemas`. -/
def installSchemas (cfg : Config) (featurePath : Path) (res : List ConflictingFile)
    (st : InstallSt) : Except (String × InstallSt) InstallSt :=
  let root := featurePath ++ ["schemas"]
  if st.w.dirExists root then schemasLoop cfg root res (st.w.filesUnder root) st
  else .ok st

/-! #### Migration stage -/

/-- The run of `'0'` standing for the scaffold tool's sortable identifier. -/
def migIdSeg (n : Nat) : List Char := List.replicate n '0'

/-- Modelled from the spec: the filename produced by
`supabaseCLI.createMigration` (§4.4: "a monotonically sortable, collision-free
identifier"); the identifier is the counter, rendered as a run of zeros so
that sortedness and collision-freedom are by construction. -/
def migFileName (n : Nat) (base : String) : String :=
  ⟨migIdSeg n ++ '_' :: (base ++ ".sql").data⟩

/-- Modelled from the spec: `supabaseCLI.createMigration` creates a fresh,
canonically named (empty) migration artifact and returns its filename. -/
def World.scaffoldMigration (w : World) (name : String) : String × World :=
  let fname := migFileName w.migCounter name
  let w₁ := { w with migCounter := w.migCounter + 1,
                     events := w.events ++ [Event.scaffoldMigration name] }
  (fname, w₁.setFile (migrationsDir ++ [fname]) [])

/-- The migration-file loop of `installMigrations`: the whole item is inside
try/catch, so scaffold/write failures become stage-item errors. -/
def migLoop (cfg : Config) : List Path → InstallSt → InstallSt
  | [], st => st
  | f :: fs, st =>
    match st.w.getFile f with
    | none =>
      migLoop cfg fs { st with errors := st.errors ++
        ["Failed to install migration from " ++ pathToString f ++ ": read failed"] }
    | some content =>
      let name := applyFilePrefixStr cfg (stripSqlExt (lastSeg f))
      let sc := st.w.scaffoldMigration name
      let newPath := migrationsDir ++ [sc.1]
      match sc.2.writeFile newPath content with
      | .error m =>
        migLoop cfg fs { st with w := sc.2, errors := st.errors ++
          ["Failed to install migration from " ++ pathToString f ++ ": " ++ m] }
      | .ok w₂ =>
        migLoop cfg fs { st with w := w₂, installed := st.installed ++ [newPath] }

/-- `FeatureInstaller.installMigrations`. -/
def installMigrations (cfg : Config) (featurePath : Path) (st : InstallSt) : InstallSt :=
  let root := featurePath ++ ["migrations"]
  if st.w.dirExists root then
    migLoop cfg ((st.w.filesUnder root).filter (fun f => strEndsWith (lastSeg f) ".sql")) st
  else st

/-! #### Function stage -/

/-- Modelled from the spec: `supabaseCLI.createFunction` (§4.4) creates the
function directory with conventional boilerplate. -/
def World.scaffoldFunction (w : World) (name : String) : World :=
  let dir := functionsDir ++ [name]
  let w₁ := { w with events := w.events ++ [Event.scaffoldFunction name],
                     dirs := if w.dirs.contains dir then w.dirs else w.dirs ++ [dir] }
  w₁.setFile (dir ++ ["index.ts"]) ["// boilerplate"]

/-- The per-function copy loop (copy every template file into the target). -/
def fnCopyLoop (src target : Path) :
    List Path → InstallSt → Except (String × InstallSt) InstallSt
  | [], st => .ok st
  | f :: fs, st =>
    let tf := target ++ f.drop src.length
    match st.w.copyFile f tf true with
    | .error m => .error (m, st)
    | .ok w' => fnCopyLoop src target fs { st with w := w', installed := st.installed ++ [tf] }

/-- The per-function-directory loop of `installFunctions`: skip on an explicit
`skip` resolution; skip silently when the target exists without an `overwrite`
resolution; scaffold first only when the target is absent and this is not an
overwrite; then copy all template files.  Each directory is one try/catch
item. -/
def fnLoop (cfg : Config) (featurePath : Path) (res : List ConflictingFile) :
    List String → InstallSt → InstallSt
  | [], st => st
  | name :: rest, st =>
    let pname := applyFilePrefixStr cfg name
    let src := featurePath ++ ["functions", name]
    let target := functionsDir ++ [pname]
    if resolutionFor res target = some .skip then
      fnLoop cfg featurePath res rest { st with skipped := st.skipped ++ [target] }
    else if st.w.dirExists target ∧ resolutionFor res target ≠ some .overwrite then
      fnLoop cfg featurePath res rest { st with skipped := st.skipped ++ [target] }
    else
      let isOver := resolutionFor res target = some ResAction.overwrite
      let w₁ := if ¬ (st.w.dirExists target = true) ∧ ¬ isOver
                then st.w.scaffoldFunction pname else st.w
      match fnCopyLoop src target (w₁.filesUnder src) { st with w := w₁ } with
      | .ok st₂ => fnLoop cfg featurePath res rest st₂
      | .error (m, st₂) =>
        fnLoop cfg featurePath res rest
          { st₂ with errors := st₂.errors ++
            ["Failed to install function " ++ name ++ ": " ++ m] }

/-- `FeatureInstaller.installFunctions`. -/
def installFunctions (cfg : Config) (featurePath : Path) (res : List ConflictingFile)
    (st : InstallSt) : InstallSt :=
  let root := featurePath ++ ["functions"]
  if st.w.dirExists root then fnLoop cfg featurePath res (st.w.childDirs root) st
  else st

/-! #### Seed stage -/

def beginMarker (featureId : String) : String := "-- BEGIN: " ++ featureId ++ " seeds"
def endMarker (featureId : String) : String := "-- END: " ++ featureId ++ " seeds"

/-- The seed-template read loop: each file contributes a `-- From:` line, its
content, and a separating blank line (the source's trailing-newline
normalisation); read failures are collected per file. -/
def seedLoop (w : World) : List Path → List String × List String → List String × List String
  | [], acc => acc
  | f :: fs, acc =>
    match w.getFile f with
    | none => seedLoop w fs (acc.1, acc.2 ++ ["Failed to read seed file " ++ pathToString f])
    | some content =>
      seedLoop w fs (acc.1 ++ (("-- From: " ++ lastSeg f) :: content) ++ [""], acc.2)

/-- `FeatureInstaller.installSeeds`.  The source's substring test
`existingSeedContent.includes(beginMarker)` is modelled as line membership
(the installer itself only ever writes the marker as a full line). -/
def installSeeds (featureId : String) (featurePath : Path) (st : InstallSt) : InstallSt :=
  let root := featurePath ++ ["seed"]
  if st.w.dirExists root then
    let seedFiles := (st.w.filesUnder root).filter (fun f => strEndsWith (lastSeg f) ".sql")
    if seedFiles.isEmpty then st
    else
      let existing := (st.w.getFile seedPath).getD []
      if beginMarker featureId ∈ existing then st
      else
        let body := seedLoop st.w seedFiles ([], [])
        let block := [""] ++ [beginMarker featureId] ++ body.1 ++ [endMarker featureId]
        let st₁ := { st with errors := st.errors ++ body.2 }
        match st₁.w.writeFile seedPath (existing ++ block) with
        | .error m => { st₁ with errors := st₁.errors ++ ["Failed to write seed file: " ++ m] }
        | .ok w' => { st₁ with w := w', installed := st₁.installed ++ [seedPath] }
  else st

/-! #### Persist stage and the orchestrator -/

/-- `FeatureInstaller.updateInstalledFeatures`: replace this feature's record
wholesale (version from the registry descriptor, `installedAt` from the clock,
`files` from this run), then save; a save failure throws. -/
def updateInstalledFeatures (reg : Registry) (cfg : Config) (w : World)
    (featureId : String) (installed : List Path) : Except String Config :=
  match lookupFeature reg featureId with
  | none => .ok cfg
  | some f =>
    let newRecords := setRecord cfg.installedFeatures featureId
      ⟨f.version.getD "", w.now, installed⟩
    let cfg' := { cfg with installedFeatures := newRecords }
    if w.saveConfigFails then .error "Failed to save configuration" else .ok cfg'

/-- The result of the outer catch in `installFeature`: `success=false`, with
the accumulators as they stood when the exception was thrown and the message
appended to `errors`. -/
def failResult (st : InstallSt) (msg : String) : InstallationResult :=
  ⟨false, st.installed, st.skipped, st.errors ++ [msg]⟩

/-- `FeatureInstaller.installFeature`: unknown feature throws before the
try block; then schema → migration → function → seed → persist, with the
outer catch turning an uncaught throw (schema copy failure, config save
failure) into a failed result.  Returns the outcome together with the final
world and (persisted) config. -/
def installFeature (reg : Registry) (cfg : Config) (w : World) (featureId : String)
    (res : List ConflictingFile) :
    Except RegistryError (InstallationResult × World × Config) :=
  match lookupFeature reg featureId with
  | none => .error (.notFound featureId)
  | some _ =>
    let fp := featureDirOf featureId
    let st0 : InstallSt := ⟨w, [], [], []⟩
    match installSchemas cfg fp res st0 with
    | .error (m, st) => .ok (failResult st m, st.w, cfg)
    | .ok st1 =>
      let st2 := installMigrations cfg fp st1
      let st3 := installFunctions cfg fp res st2
      let st4 := installSeeds featureId fp st3
      match updateInstalledFeatures reg cfg st4.w featureId st4.installed with
      | .error m => .ok (failResult st4 m, st4.w, cfg)
      | .ok cfg' =>
        .ok (⟨st4.errors.isEmpty, st4.installed, st4.skipped, st4.errors⟩, st4.w, cfg')

/-! #### Observers for concrete runs -/

def outcomeOf (x : Except RegistryError (InstallationResult × World × Config)) :
    Option InstallationResult :=
  x.toOption.map (·.1)

def worldOf (x : Except RegistryError (InstallationResult × World × Config)) :
    Option World :=
  x.toOption.map (·.2.1)

def configOf (x : Except RegistryError (InstallationResult × World × Config)) :
    Option Config :=
  x.toOption.map (·.2.2)

/-! ### Association-list lemmas shared by the file store and the config store -/

lemma find?_map_replace {κ α : Type} [BEq κ] [LawfulBEq κ] {k : κ} {v : α} :
    ∀ {l : List (κ × α)}, l.any (fun e => e.1 == k) = true →
      (l.map (fun e => if e.1 == k then (k, v) else e)).find? (fun e => e.1 == k) =
        some (k, v) := by
  intro l
  induction l with
  | nil => intro h; cases h
  | cons e rest ih =>
    intro h
    cases he : (e.1 == k) with
    | true =>
      simp only [List.map_cons]
      rw [if_pos he]
      simp [List.find?_cons]
    | false =>
      simp only [List.any_cons, he, Bool.false_or] at h
      simp only [List.map_cons]
      rw [if_neg (by simp [he] : ¬ ((e.1 == k) = true))]
      simp only [List.find?_cons, he]
      exact ih h

lemma find?_map_replace_other {κ α : Type} [BEq κ] [LawfulBEq κ] {k k' : κ} {v : α}
    (hkk : (k == k') = false) :
    ∀ (l : List (κ × α)),
      (l.map (fun e => if e.1 == k then (k, v) else e)).find? (fun e => e.1 == k') =
        l.find? (fun e => e.1 == k') := by
  intro l
  induction l with
  | nil => rfl
  | cons e rest ih =>
    cases he : (e.1 == k) with
    | true =>
      have hek : e.1 = k := by simpa using he
      simp only [List.map_cons]
      rw [if_pos he]
      simp only [List.find?_cons, hkk, hek]
      exact ih
    | false =>
      simp only [List.map_cons]
      rw [if_neg (by simp [he] : ¬ ((e.1 == k) = true))]
      simp only [List.find?_cons]
      cases h : (e.1 == k') with
      | true => rfl
      | false => exact ih

lemma find?_append_single_other {κ α : Type} [BEq κ] [LawfulBEq κ] {k k' : κ} {v : α}
    (hkk : (k == k') = false) :
    ∀ (l : List (κ × α)),
      (l ++ [(k, v)]).find? (fun e => e.1 == k') = l.find? (fun e => e.1 == k') := by
  intro l
  induction l with
  | nil => simp [List.find?, hkk]
  | cons e rest ih =>
    rw [List.cons_append]
    simp only [List.find?_cons]
    cases h : (e.1 == k') with
    | true => rfl
    | false => exact ih

lemma find?_append_single_self {κ α : Type} [BEq κ] [LawfulBEq κ] {k : κ} {v : α} :
    ∀ {l : List (κ × α)}, l.any (fun e => e.1 == k) = false →
      (l ++ [(k, v)]).find? (fun e => e.1 == k) = some (k, v) := by
  intro l
  induction l with
  | nil => intro _; simp [List.find?]
  | cons e rest ih =>
    intro h
    simp only [List.any_cons, Bool.or_eq_false_iff] at h
    rw [List.cons_append]
    simp only [List.find?_cons, h.1]
    exact ih h.2


/-! ### Lemmas about the world model -/

@[simp] lemma setFile_failPaths (w : World) (p : Path) (c : List String) :
    (w.setFile p c).failPaths = w.failPaths := by
  unfold World.setFile; split <;> rfl

@[simp] lemma setFile_migCounter (w : World) (p : Path) (c : List String) :
    (w.setFile p c).migCounter = w.migCounter := by
  unfold World.setFile; split <;> rfl

@[simp] lemma setFile_saveConfigFails (w : World) (p : Path) (c : List String) :
    (w.setFile p c).saveConfigFails = w.saveConfigFails := by
  unfold World.setFile; split <;> rfl

@[simp] lemma setFile_now (w : World) (p : Path) (c : List String) :
    (w.setFile p c).now = w.now := by
  unfold World.setFile; split <;> rfl

@[simp] lemma setFile_events (w : World) (p : Path) (c : List String) :
    (w.setFile p c).events = w.events := by
  unfold World.setFile; split <;> rfl

lemma getFile_setFile_self {w : World} {p : Path} {c : List String} :
    (w.setFile p c).getFile p = some c := by
  unfold World.setFile World.getFile
  split
  · rename_i hany
    dsimp only
    rw [find?_map_replace hany]
    rfl
  · rename_i hany
    dsimp only
    have hany' : (w.files.any fun e => e.1 == p) = false := by
      cases h : (w.files.any fun e => e.1 == p) with
      | true => exact absurd h hany
      | false => rfl
    rw [find?_append_single_self hany']
    rfl

lemma getFile_setFile_other {w : World} {p q : Path} {c : List String} (h : q ≠ p) :
    (w.setFile p c).getFile q = w.getFile q := by
  have hpq : (p == q) = false := by
    simp only [beq_eq_false_iff_ne, ne_eq]
    exact fun he => h he.symm
  unfold World.setFile World.getFile
  split
  · dsimp only
    rw [find?_map_replace_other hpq]
  · dsimp only
    rw [find?_append_single_other hpq]

lemma map_fst_filter_stable {α : Type} (P : Path → Bool) {k : Path} {v : α} :
    ∀ (l : List (Path × α)),
      ((l.map (fun e => if e.1 == k then (k, v) else e)).filter (fun e => P e.1)).map (·.1) =
        (l.filter (fun e => P e.1)).map (·.1) := by
  intro l
  induction l with
  | nil => rfl
  | cons e rest ih =>
    cases he : (e.1 == k) with
    | true =>
      have hek : e.1 = k := by simpa using he
      simp only [List.map_cons]
      rw [if_pos he]
      simp only [List.filter_cons]
      cases hP : P e.1 with
      | true =>
        have hPk : P (k, v).1 = true := by
          show P k = true
          rw [← hek]
          exact hP
        rw [if_pos hPk, if_pos rfl]
        simp only [List.map_cons]
        rw [ih, hek]
      | false =>
        have hPk : ¬ (P (k, v).1 = true) := by
          show ¬ (P k = true)
          rw [← hek]
          simp [hP]
        rw [if_neg hPk, if_neg (by simp : ¬ (false = true))]
        exact ih
    | false =>
      simp only [List.map_cons]
      rw [if_neg (by simp [he] : ¬ ((e.1 == k) = true))]
      simp only [List.filter_cons]
      cases hP : P e.1 with
      | true =>
        rw [if_pos rfl, if_pos rfl]
        simp only [List.map_cons]
        rw [ih]
      | false =>
        rw [if_neg (by simp : ¬ (false = true)), if_neg (by simp : ¬ (false = true))]
        exact ih

lemma filesUnder_setFile (w : World) (p : Path) (c : List String) (root : Path) :
    (w.setFile p c).filesUnder root =
      if w.files.any (fun e => e.1 == p) then w.filesUnder root
      else if root.isPrefixOf p && decide (root.length < p.length)
        then w.filesUnder root ++ [p]
        else w.filesUnder root := by
  cases hany : (w.files.any fun e => e.1 == p) with
  | true =>
    rw [if_pos rfl]
    unfold World.setFile World.filesUnder
    rw [if_pos hany]
    dsimp only
    exact map_fst_filter_stable
      (fun q => root.isPrefixOf q && decide (root.length < q.length)) w.files
  | false =>
    rw [if_neg (by simp : ¬ (false = true))]
    unfold World.setFile World.filesUnder
    rw [if_neg (by simp [hany])]
    dsimp only
    rw [List.filter_append, List.map_append]
    cases hc : (root.isPrefixOf p && decide (root.length < p.length)) with
    | true => simp [List.filter_cons, hc]
    | false => simp [List.filter_cons, hc]

/-- A world write never removes a file listing entry for an unrelated root:
when the written path is not strictly under `root`, the listing is unchanged. -/
lemma filesUnder_setFile_out {w : World} {p : Path} {c : List String} {root : Path}
    (h : (root.isPrefixOf p && decide (root.length < p.length)) = false) :
    (w.setFile p c).filesUnder root = w.filesUnder root := by
  rw [filesUnder_setFile]
  split
  · rfl
  · rw [h]
    simp

lemma contains_iff_mem {α : Type} [BEq α] [LawfulBEq α] {l : List α} {a : α} :
    l.contains a = true ↔ a ∈ l := List.elem_iff

lemma dirExists_setFile_mono {w : World} {p : Path} {c : List String} {q : Path}
    (h : w.dirExists q = true) : (w.setFile p c).dirExists q = true := by
  unfold World.setFile World.dirExists at *
  split
  · exact h
  · dsimp only
    split
    · exact h
    · rw [contains_iff_mem] at h ⊢
      exact List.mem_append_left _ h

lemma dirExists_setFile_other {w : World} {p : Path} {c : List String} {q : Path}
    (h : q ≠ p.dropLast) : (w.setFile p c).dirExists q = w.dirExists q := by
  unfold World.setFile World.dirExists
  split
  · rfl
  · dsimp only
    split
    · rfl
    · cases hq : w.dirs.contains q with
      | true =>
        rw [contains_iff_mem] at hq
        rw [(contains_iff_mem).mpr (List.mem_append_left _ hq)]
      | false =>
        cases hq2 : (w.dirs ++ [p.dropLast]).contains q with
        | true =>
          rw [contains_iff_mem] at hq2
          rcases List.mem_append.mp hq2 with hm | hm
          · have hc := (contains_iff_mem).mpr hm
            rw [hq] at hc
            cases hc
          · rw [List.mem_singleton] at hm
            exact absurd hm h
        | false => rfl

lemma childDirs_setFile_out {w : World} {p : Path} {c : List String} {root : Path}
    (h : (root.isPrefixOf p.dropLast && decide (p.dropLast.length = root.length + 1)) = false) :
    (w.setFile p c).childDirs root = w.childDirs root := by
  unfold World.setFile World.childDirs
  split
  · rfl
  · dsimp only
    split
    · rfl
    · rw [List.filterMap_append]
      simp only [List.filterMap_cons, List.filterMap_nil]
      rw [h]
      simp

lemma ne_of_head_ne {a b : Path} {sa sb : String} (ha : a.head? = some sa)
    (hb : b.head? = some sb) (hne : sa ≠ sb) : a ≠ b := by
  intro h
  rw [h, hb] at ha
  cases ha
  exact hne rfl

lemma head_ne_not_isPrefixOf {a b : Path} {sa sb : String} (ha : a.head? = some sa)
    (hb : b.head? = some sb) (hne : sa ≠ sb) : a.isPrefixOf b = false := by
  cases hp : a.isPrefixOf b with
  | false => rfl
  | true =>
    exfalso
    have hpre : a <+: b := by
      rw [← List.isPrefixOf_iff_prefix]
      exact hp
    obtain ⟨t, ht⟩ := hpre
    cases a with
    | nil => cases ha
    | cons x xs =>
      cases b with
      | nil => cases hb
      | cons y ys =>
        cases ha
        cases hb
        cases ht
        exact hne rfl

lemma head?_cons_dropLast {x : String} {l : List String} (h : l ≠ []) :
    ((x :: l).dropLast).head? = some x := by
  cases l with
  | nil => exact absurd rfl h
  | cons y ys => rfl

lemma writeFile_eq_ok {w : World} {p : Path} {c : List String} (hfail : p ∉ w.failPaths) :
    w.writeFile p c = .ok (w.setFile p c) := by
  unfold World.writeFile
  rw [if_neg hfail]

lemma copyFile_eq_ok {w : World} {src dest : Path} {c : List String}
    (hfail : dest ∉ w.failPaths) (hsrc : w.getFile src = some c) :
    w.copyFile src dest true = .ok (w.setFile dest c) := by
  unfold World.copyFile
  rw [if_neg (by simp), if_neg hfail, hsrc]

lemma copyFile_ok_inv {w : World} {src dest : Path} {b : Bool} {w' : World}
    (h : w.copyFile src dest b = .ok w') :
    ∃ c, w.getFile src = some c ∧ w' = w.setFile dest c := by
  unfold World.copyFile at h
  split at h
  · cases h
  · split at h
    · cases h
    · rcases hs : w.getFile src with _ | c
      · rw [hs] at h; cases h
      · rw [hs] at h
        cases h
        exact ⟨c, rfl, rfl⟩

/-- The parts of a world that no installer write to a `supabase/…` target can
change: failure injection, the scaffold clock, the persistence flags, and
everything the installer reads from the feature-template tree (`features/…`
file contents are covered separately per stage; listings, directory existence
and child-directory listings are covered here). -/
structure WriteFrame (w w' : World) : Prop where
  fails : w'.failPaths = w.failPaths
  migLe : w.migCounter ≤ w'.migCounter
  save : w'.saveConfigFails = w.saveConfigFails
  nowEq : w'.now = w.now
  eventsExt : ∃ evs, w'.events = w.events ++ evs
  fu : ∀ r, r.head? = some "features" → w'.filesUnder r = w.filesUnder r
  de : ∀ q, q.head? = some "features" → w'.dirExists q = w.dirExists q
  cd : ∀ r, r.head? = some "features" → w'.childDirs r = w.childDirs r

lemma WriteFrame.refl (w : World) : WriteFrame w w :=
  ⟨rfl, Nat.le_refl _, rfl, rfl, ⟨[], by simp⟩, fun _ _ => rfl, fun _ _ => rfl, fun _ _ => rfl⟩

lemma WriteFrame.trans {w w₁ w₂ : World} (h1 : WriteFrame w w₁) (h2 : WriteFrame w₁ w₂) :
    WriteFrame w w₂ := by
  obtain ⟨e1, he1⟩ := h1.eventsExt
  obtain ⟨e2, he2⟩ := h2.eventsExt
  exact ⟨h2.fails.trans h1.fails, Nat.le_trans h1.migLe h2.migLe, h2.save.trans h1.save,
    h2.nowEq.trans h1.nowEq, ⟨e1 ++ e2, by rw [he2, he1, List.append_assoc]⟩,
    fun r hr => (h2.fu r hr).trans (h1.fu r hr),
    fun q hq => (h2.de q hq).trans (h1.de q hq),
    fun r hr => (h2.cd r hr).trans (h1.cd r hr)⟩

lemma writeFrame_setFile {w : World} {p : Path} {c : List String}
    (hp : p.head? = some "supabase") (hl : 2 ≤ p.length) :
    WriteFrame w (w.setFile p c) := by
  obtain ⟨x, l, rfl⟩ : ∃ x l, p = x :: l := by
    cases p with
    | nil => cases hp
    | cons x l => exact ⟨x, l, rfl⟩
  cases hp
  have hlne : l ≠ [] := by
    intro h
    subst h
    simp at hl
  have hdrop : (("supabase" :: l).dropLast).head? = some "supabase" :=
    head?_cons_dropLast hlne
  refine ⟨by simp, by simp, by simp, by simp, ⟨[], by simp⟩, ?_, ?_, ?_⟩
  · intro r hr
    refine filesUnder_setFile_out ?_
    rw [head_ne_not_isPrefixOf hr
      (show (("supabase" : String) :: l).head? = some "supabase" from rfl) (by decide)]
    rfl
  · intro q hq
    exact dirExists_setFile_other (ne_of_head_ne hq hdrop (by decide))
  · intro r hr
    refine childDirs_setFile_out ?_
    rw [head_ne_not_isPrefixOf hr hdrop (by decide)]
    rfl

lemma writeFrame_scaffoldMigration {w : World} {name : String} :
    WriteFrame w (w.scaffoldMigration name).2 := by
  unfold World.scaffoldMigration
  dsimp only
  refine WriteFrame.trans ?_ (writeFrame_setFile rfl (by simp [migrationsDir]))
  exact ⟨rfl, Nat.le_succ _, rfl, rfl, ⟨[Event.scaffoldMigration name], rfl⟩,
    fun _ _ => rfl, fun _ _ => rfl, fun _ _ => rfl⟩

lemma writeFrame_scaffoldFunction {w : World} {name : String} :
    WriteFrame w (w.scaffoldFunction name) := by
  unfold World.scaffoldFunction
  dsimp only
  have hdir : (functionsDir ++ [name]).head? = some "supabase" := rfl
  refine WriteFrame.trans ?_
    (writeFrame_setFile rfl (by simp [functionsDir]))
  refine ⟨rfl, Nat.le_refl _, rfl, rfl, ⟨[Event.scaffoldFunction name], rfl⟩,
    fun _ _ => rfl, ?_, ?_⟩
  · intro q hq
    unfold World.dirExists
    dsimp only
    split
    · rfl
    · cases hc : w.dirs.contains q with
      | true =>
        rw [(contains_iff_mem).mpr (List.mem_append_left _ ((contains_iff_mem).mp hc))]
      | false =>
        cases hc2 : (w.dirs ++ [functionsDir ++ [name]]).contains q with
        | true =>
          exfalso
          rcases List.mem_append.mp ((contains_iff_mem).mp hc2) with hm | hm
          · have hcm := (contains_iff_mem).mpr hm
            rw [hc] at hcm
            cases hcm
          · rw [List.mem_singleton] at hm
            exact ne_of_head_ne hq hdir (by decide) hm
        | false => rfl
  · intro r hr
    unfold World.childDirs
    dsimp only
    split
    · rfl
    · rw [List.filterMap_append]
      simp only [List.filterMap_cons, List.filterMap_nil]
      rw [head_ne_not_isPrefixOf hr hdir (by decide)]
      simp

/-! ### Characterisation of the schema stage -/

/-- The targets the schema stage records as skipped. -/
def schemaSkips (cfg : Config) (root : Path) (res : List ConflictingFile)
    (fs : List Path) : List Path :=
  (fs.filter (fun f =>
    decide (resolutionFor res (schemaTargetOf cfg root f) = some ResAction.skip))).map
    (schemaTargetOf cfg root)

/-- The targets the schema stage copies (everything not resolved `skip`). -/
def schemaWrites (cfg : Config) (root : Path) (res : List ConflictingFile)
    (fs : List Path) : List Path :=
  (fs.filter (fun f =>
    decide (¬ resolutionFor res (schemaTargetOf cfg root f) = some ResAction.skip))).map
    (schemaTargetOf cfg root)

lemma schemaTargetOf_head (cfg : Config) (root f : Path) :
    (schemaTargetOf cfg root f).head? = some "supabase" := rfl

lemma schemaTargetOf_len (cfg : Config) (root f : Path) :
    2 ≤ (schemaTargetOf cfg root f).length := by
  show 2 ≤ (supabaseDir ++ ["schemas"] ++ applyFilePrefixPath cfg (f.drop root.length)).length
  simp [supabaseDir]

lemma mem_filesUnder {w : World} {root f : Path} (h : f ∈ w.filesUnder root) :
    root <+: f ∧ root.length < f.length ∧ (w.getFile f).isSome := by
  unfold World.filesUnder at h
  rw [List.mem_map] at h
  obtain ⟨e, he, rfl⟩ := h
  rw [List.mem_filter] at he
  obtain ⟨hmem, hcond⟩ := he
  rw [Bool.and_eq_true] at hcond
  refine ⟨?_, by simpa using hcond.2, ?_⟩
  · rw [← List.isPrefixOf_iff_prefix]
    exact hcond.1
  · rcases hf : w.files.find? (fun x => x.1 == e.1) with _ | x
    · exfalso
      have := List.find?_eq_none.mp hf e hmem
      simp at this
    · simp [World.getFile, hf]

lemma schemasLoop_ok {cfg : Config} {root : Path} {res : List ConflictingFile} :
    ∀ {fs : List Path} {s : InstallSt},
      s.w.failPaths = [] →
      (∀ f ∈ fs, f.head? = some "features" ∧ (s.w.getFile f).isSome) →
      ∃ st', schemasLoop cfg root res fs s = .ok st' ∧
        WriteFrame s.w st'.w ∧
        st'.w.events = s.w.events ∧
        st'.w.migCounter = s.w.migCounter ∧
        st'.errors = s.errors ∧
        st'.skipped = s.skipped ++ schemaSkips cfg root res fs ∧
        st'.installed = s.installed ++ schemaWrites cfg root res fs ∧
        (∀ p, p ∉ schemaWrites cfg root res fs → st'.w.getFile p = s.w.getFile p) ∧
        ((schemaWrites cfg root res fs).Nodup →
          ∀ f ∈ fs, ¬ (resolutionFor res (schemaTargetOf cfg root f) = some ResAction.skip) →
          st'.w.getFile (schemaTargetOf cfg root f) = s.w.getFile f) := by
  intro fs
  induction fs with
  | nil =>
    intro s hfail hsrc
    refine ⟨s, rfl, WriteFrame.refl _, rfl, rfl, rfl, by simp [schemaSkips],
      by simp [schemaWrites], fun p _ => rfl, ?_⟩
    intro _ f hf
    cases hf
  | cons f fs ih =>
    intro st hfail hsrc
    obtain ⟨hfh, hfs⟩ := hsrc f (List.mem_cons_self _ _)
    obtain ⟨c, hc⟩ := Option.isSome_iff_exists.mp hfs
    have hne_tgt : ∀ g : Path, g.head? = some "features" → g ≠ schemaTargetOf cfg root f :=
      fun g hg => ne_of_head_ne hg (schemaTargetOf_head cfg root f) (by decide)
    by_cases hres : resolutionFor res (schemaTargetOf cfg root f) = some ResAction.skip
    · have hstep : schemasLoop cfg root res (f :: fs) st =
          schemasLoop cfg root res fs
            { st with skipped := st.skipped ++ [schemaTargetOf cfg root f] } := by
        simp only [schemasLoop]
        rw [if_pos hres]
      obtain ⟨st', hrun, hframe, hev, hmig, herr, hskip, hinst, hfr, hcontent⟩ :=
        ih (s := { st with skipped := st.skipped ++ [schemaTargetOf cfg root f] })
          hfail (fun g hg => hsrc g (List.mem_cons_of_mem _ hg))
      refine ⟨st', by rw [hstep]; exact hrun, hframe, hev, hmig, herr, ?_, ?_, ?_, ?_⟩
      · rw [hskip]
        dsimp only
        rw [List.append_assoc]
        congr 1
        simp [schemaSkips, List.filter_cons, hres]
      · rw [hinst]
        dsimp only
        congr 1
        simp [schemaWrites, List.filter_cons, hres]
      · intro p hp
        refine hfr p ?_
        intro hmem
        refine hp ?_
        simpa [schemaWrites, List.filter_cons, hres] using hmem
      · intro hnd f' hf' hskip'
        have hwr : schemaWrites cfg root res (f :: fs) = schemaWrites cfg root res fs := by
          simp [schemaWrites, List.filter_cons, hres]
        rcases List.mem_cons.mp hf' with rfl | hf'
        · exact absurd hres hskip'
        · exact hcontent (by rwa [hwr] at hnd) f' hf' hskip'
    · have hcopy : st.w.copyFile f (schemaTargetOf cfg root f) true =
          .ok (st.w.setFile (schemaTargetOf cfg root f) c) :=
        copyFile_eq_ok (by rw [hfail]; exact List.not_mem_nil _) hc
      have hstep : schemasLoop cfg root res (f :: fs) st =
          schemasLoop cfg root res fs
            { st with w := st.w.setFile (schemaTargetOf cfg root f) c,
                      installed := st.installed ++ [schemaTargetOf cfg root f] } := by
        simp only [schemasLoop]
        rw [if_neg hres, hcopy]
      have hsrc1 : ∀ g ∈ fs, g.head? = some "features" ∧
          (((st.w.setFile (schemaTargetOf cfg root f) c)).getFile g).isSome := by
        intro g hg
        obtain ⟨hgh, hgs⟩ := hsrc g (List.mem_cons_of_mem _ hg)
        exact ⟨hgh, by rwa [getFile_setFile_other (hne_tgt g hgh)]⟩
      obtain ⟨st', hrun, hframe, hev, hmig, herr, hskip, hinst, hfr, hcontent⟩ :=
        ih (s := { st with w := st.w.setFile (schemaTargetOf cfg root f) c, installed := st.installed ++ [schemaTargetOf cfg root f] })
          (by simpa using hfail) hsrc1
      have hsetframe : WriteFrame st.w (st.w.setFile (schemaTargetOf cfg root f) c) :=
        writeFrame_setFile (schemaTargetOf_head cfg root f) (schemaTargetOf_len cfg root f)
      have hwcons : schemaWrites cfg root res (f :: fs) =
          schemaTargetOf cfg root f :: schemaWrites cfg root res fs := by
        simp [schemaWrites, List.filter_cons, hres]
      refine ⟨st', by rw [hstep]; exact hrun, WriteFrame.trans hsetframe hframe,
        by rw [hev]; simp, by rw [hmig]; simp, herr, ?_, ?_, ?_, ?_⟩
      · rw [hskip]
        dsimp only
        congr 1
        simp [schemaSkips, List.filter_cons, hres]
      · rw [hinst]
        dsimp only
        rw [List.append_assoc, hwcons]
        rfl
      · intro p hp
        rw [hwcons] at hp
        have hp1 : p ∉ schemaWrites cfg root res fs :=
          fun hmem => hp (List.mem_cons_of_mem _ hmem)
        rw [hfr p hp1]
        dsimp only
        refine getFile_setFile_other ?_
        intro hpe
        exact hp (hpe ▸ List.mem_cons_self _ _)
      · intro hnd f' hf' hskip'
        rw [hwcons] at hnd
        have hndtail := (List.nodup_cons.mp hnd).2
        have hhead : schemaTargetOf cfg root f ∉ schemaWrites cfg root res fs :=
          (List.nodup_cons.mp hnd).1
        rcases List.mem_cons.mp hf' with rfl | hf'
        · rw [hfr _ hhead]
          dsimp only
          rw [getFile_setFile_self, hc]
        · rw [hcontent hndtail f' hf' hskip']
          dsimp only
          refine getFile_setFile_other ?_
          exact hne_tgt f' (hsrc f' (List.mem_cons_of_mem _ hf')).1

/-! ### Characterisation of the function-stage copy loop -/

lemma head?_append_left {α : Type} {l m : List α} {a : α} (h : l.head? = some a) :
    (l ++ m).head? = some a := by
  cases l with
  | nil => cases h
  | cons x xs => exact h

lemma filesUnder_head {w : World} {root f : Path} {a : String}
    (hroot : root.head? = some a) (h : f ∈ w.filesUnder root) : f.head? = some a := by
  obtain ⟨hpre, _, _⟩ := mem_filesUnder h
  obtain ⟨t, rfl⟩ := hpre
  exact head?_append_left hroot

lemma events_scaffoldFunction (w : World) (n : String) :
    (w.scaffoldFunction n).events = w.events ++ [Event.scaffoldFunction n] := by
  unfold World.scaffoldFunction
  simp

lemma failPaths_scaffoldFunction (w : World) (n : String) :
    (w.scaffoldFunction n).failPaths = w.failPaths := by
  unfold World.scaffoldFunction
  simp

lemma getFile_scaffoldFunction_other {w : World} {n : String} {q : Path}
    (h : q.head? = some "features") :
    (w.scaffoldFunction n).getFile q = w.getFile q := by
  unfold World.scaffoldFunction
  dsimp only
  exact getFile_setFile_other (ne_of_head_ne h rfl (by decide))

/-- The target paths the per-function copy loop produces for a list of
template files. -/
def fnTargets (src target : Path) (fs : List Path) : List Path :=
  fs.map (fun f => target ++ f.drop src.length)

lemma fnCopyLoop_ok {src target : Path} (htgt : target.head? = some "supabase")
    (hlen : 2 ≤ target.length) :
    ∀ {fs : List Path} {s : InstallSt},
      s.w.failPaths = [] →
      (∀ f ∈ fs, f.head? = some "features" ∧ (s.w.getFile f).isSome) →
      ∃ st', fnCopyLoop src target fs s = .ok st' ∧
        WriteFrame s.w st'.w ∧
        st'.w.events = s.w.events ∧
        st'.w.migCounter = s.w.migCounter ∧
        st'.errors = s.errors ∧
        st'.skipped = s.skipped ∧
        st'.installed = s.installed ++ fnTargets src target fs ∧
        (∀ p, p ∉ fnTargets src target fs → st'.w.getFile p = s.w.getFile p) ∧
        ((fnTargets src target fs).Nodup →
          ∀ f ∈ fs, st'.w.getFile (target ++ f.drop src.length) = s.w.getFile f) := by
  intro fs
  induction fs with
  | nil =>
    intro s hfail hsrc
    refine ⟨s, rfl, WriteFrame.refl _, rfl, rfl, rfl, rfl, by simp [fnTargets],
      fun p _ => rfl, ?_⟩
    intro _ f hf
    cases hf
  | cons f fs ih =>
    intro st hfail hsrc
    obtain ⟨hfh, hfs⟩ := hsrc f (List.mem_cons_self _ _)
    obtain ⟨c, hc⟩ := Option.isSome_iff_exists.mp hfs
    have htf : (target ++ f.drop src.length).head? = some "supabase" := head?_append_left htgt
    have htfl : 2 ≤ (target ++ f.drop src.length).length := by
      rw [List.length_append]
      omega
    have hne_tgt : ∀ g : Path, g.head? = some "features" → g ≠ target ++ f.drop src.length :=
      fun g hg => ne_of_head_ne hg htf (by decide)
    have hcopy : st.w.copyFile f (target ++ f.drop src.length) true =
        .ok (st.w.setFile (target ++ f.drop src.length) c) :=
      copyFile_eq_ok (by rw [hfail]; exact List.not_mem_nil _) hc
    have hstep : fnCopyLoop src target (f :: fs) st =
        fnCopyLoop src target fs
          { st with w := st.w.setFile (target ++ f.drop src.length) c,
                    installed := st.installed ++ [target ++ f.drop src.length] } := by
      simp only [fnCopyLoop]
      rw [hcopy]
    have hsrc1 : ∀ g ∈ fs, g.head? = some "features" ∧
        ((st.w.setFile (target ++ f.drop src.length) c).getFile g).isSome := by
      intro g hg
      obtain ⟨hgh, hgs⟩ := hsrc g (List.mem_cons_of_mem _ hg)
      exact ⟨hgh, by rwa [getFile_setFile_other (hne_tgt g hgh)]⟩
    obtain ⟨st', hrun, hframe, hev, hmig, herr, hskip, hinst, hfr, hcontent⟩ :=
      ih (s := { st with w := st.w.setFile (target ++ f.drop src.length) c, installed := st.installed ++ [target ++ f.drop src.length] })
        (by simpa using hfail) hsrc1
    have hsetframe : WriteFrame st.w (st.w.setFile (target ++ f.drop src.length) c) :=
      writeFrame_setFile htf htfl
    have hwcons : fnTargets src target (f :: fs) =
        (target ++ f.drop src.length) :: fnTargets src target fs := rfl
    refine ⟨st', by rw [hstep]; exact hrun, WriteFrame.trans hsetframe hframe,
      by rw [hev]; simp, by rw [hmig]; simp, herr, hskip, ?_, ?_, ?_⟩
    · rw [hinst]
      dsimp only
      rw [List.append_assoc, hwcons]
      rfl
    · intro p hp
      rw [hwcons] at hp
      have hp1 : p ∉ fnTargets src target fs :=
        fun hmem => hp (List.mem_cons_of_mem _ hmem)
      rw [hfr p hp1]
      dsimp only
      refine getFile_setFile_other ?_
      intro hpe
      exact hp (hpe ▸ List.mem_cons_self _ _)
    · intro hnd f' hf'
      rw [hwcons] at hnd
      have hndtail := (List.nodup_cons.mp hnd).2
      have hhead : target ++ f.drop src.length ∉ fnTargets src target fs :=
        (List.nodup_cons.mp hnd).1
      rcases List.mem_cons.mp hf' with rfl | hf'
      · rw [hfr _ hhead]
        dsimp only
        rw [getFile_setFile_self, hc]
      · rw [hcontent hndtail f' hf']
        dsimp only
        refine getFile_setFile_other ?_
        exact hne_tgt f' (hsrc f' (List.mem_cons_of_mem _ hf')).1

/-! ### Per-stage effect bounds: which paths each later stage may touch -/

lemma ne_of_tail_head_ne {a b : Path} {sa sb : String} (ha : a.tail.head? = some sa)
    (hb : b.tail.head? = some sb) (hne : sa ≠ sb) : a ≠ b := by
  intro h
  rw [h, hb] at ha
  cases ha
  exact hne rfl

lemma tail_head_append {l m : List String} {s : String} (h : l.tail.head? = some s) :
    (l ++ m).tail.head? = some s := by
  cases l with
  | nil => cases h
  | cons x xs =>
    cases xs with
    | nil => cases h
    | cons y ys => exact h

lemma ne_of_tail_head_target {q p : Path} {t : String} (h : q.tail.head? ≠ some t)
    (hp : p.tail.head? = some t) : q ≠ p := fun e => h (by rw [e, hp])

lemma tail_head_some_len {l : List String} {x : String} (h : l.tail.head? = some x) :
    2 ≤ l.length := by
  cases l with
  | nil => cases h
  | cons a as =>
    cases as with
    | nil => cases h
    | cons b bs => simp

/-- A path that a stage writing `supabase/<tag>/…` artifacts (or the
`supabase/<tag>` file itself) can never touch. -/
def Untouched (tag : String) (q : Path) : Prop :=
  q.head? ≠ some "supabase" ∨ q.tail.head? ≠ some tag

lemma untouched_ne {tag : String} {q p : Path} (h : Untouched tag q)
    (hp1 : p.head? = some "supabase") (hp2 : p.tail.head? = some tag) : q ≠ p := by
  intro e
  rcases h with h | h
  · exact h (by rw [e, hp1])
  · exact h (by rw [e, hp2])

lemma untouched_of_tail {tag : String} {q : Path} {t : String}
    (hq : q.tail.head? = some t) (hne : t ≠ tag) : Untouched tag q :=
  Or.inr (by rw [hq]; exact fun e => hne (by cases e; rfl))

lemma untouched_of_head {tag : String} {q : Path} {t : String}
    (hq : q.head? = some t) (hne : t ≠ "supabase") : Untouched tag q :=
  Or.inl (by rw [hq]; exact fun e => hne (by cases e; rfl))

lemma writeFile_ok_inv {w : World} {p : Path} {c : List String} {w' : World}
    (h : w.writeFile p c = .ok w') : w' = w.setFile p c := by
  unfold World.writeFile at h
  split at h
  · cases h
  · cases h
    rfl

lemma getFile_scaffoldMigration_other {w : World} {n : String} {q : Path}
    (h : Untouched "migrations" q) :
    (w.scaffoldMigration n).2.getFile q = w.getFile q := by
  unfold World.scaffoldMigration
  dsimp only
  exact getFile_setFile_other (untouched_ne h rfl rfl)

lemma getFile_scaffoldFunction_tail {w : World} {n : String} {q : Path}
    (h : Untouched "functions" q) :
    (w.scaffoldFunction n).getFile q = w.getFile q := by
  unfold World.scaffoldFunction
  dsimp only
  exact getFile_setFile_other (untouched_ne h rfl rfl)

/-- The migration stage never touches `skippedFiles`, only appends
migrations-rooted paths to `installedFiles`, only appends to `errors`, and
never changes a file under `supabase/schemas`. -/
lemma migLoop_effects {cfg : Config} :
    ∀ {fs : List Path} {s : InstallSt},
      (migLoop cfg fs s).skipped = s.skipped ∧
      (∃ ai, (migLoop cfg fs s).installed = s.installed ++ ai ∧
        ∀ p ∈ ai, p.tail.head? = some "migrations") ∧
      (∃ ae, (migLoop cfg fs s).errors = s.errors ++ ae) ∧
      WriteFrame s.w (migLoop cfg fs s).w ∧
      (∀ q, Untouched "migrations" q → (migLoop cfg fs s).w.getFile q = s.w.getFile q) := by
  intro fs
  induction fs with
  | nil =>
    intro s
    exact ⟨rfl, ⟨[], (List.append_nil _).symm, by simp⟩, ⟨[], (List.append_nil _).symm⟩,
      WriteFrame.refl _, fun q hq => rfl⟩
  | cons f fs ih =>
    intro s
    rcases hg : s.w.getFile f with _ | content
    · have hstep : migLoop cfg (f :: fs) s = migLoop cfg fs
          { s with errors := s.errors ++ ["Failed to install migration from " ++ pathToString f ++ ": read failed"] } := by
        simp only [migLoop]
        rw [hg]
      rw [hstep]
      obtain ⟨h1, ⟨ai, h2, h3⟩, ⟨ae, h4⟩, hwf, h5⟩ :=
        @ih { s with errors := s.errors ++ ["Failed to install migration from " ++ pathToString f ++ ": read failed"] }
      refine ⟨h1, ⟨ai, by rw [h2], h3⟩,
        ⟨["Failed to install migration from " ++ pathToString f ++ ": read failed"] ++ ae,
          by rw [h4]; simp⟩, hwf, fun q hq => h5 q hq⟩
    · rcases hw : (s.w.scaffoldMigration (applyFilePrefixStr cfg (stripSqlExt (lastSeg f)))).2.writeFile
          (migrationsDir ++ [(s.w.scaffoldMigration (applyFilePrefixStr cfg (stripSqlExt (lastSeg f)))).1])
          content with m | w₂
      · have hstep : migLoop cfg (f :: fs) s = migLoop cfg fs
            { s with w := (s.w.scaffoldMigration (applyFilePrefixStr cfg (stripSqlExt (lastSeg f)))).2,
                     errors := s.errors ++ ["Failed to install migration from " ++ pathToString f ++ ": " ++ m] } := by
          simp only [migLoop]
          rw [hg]
          dsimp only
          rw [hw]
        rw [hstep]
        obtain ⟨h1, ⟨ai, h2, h3⟩, ⟨ae, h4⟩, hwf, h5⟩ :=
          @ih { s with w := (s.w.scaffoldMigration (applyFilePrefixStr cfg (stripSqlExt (lastSeg f)))).2,
                       errors := s.errors ++ ["Failed to install migration from " ++ pathToString f ++ ": " ++ m] }
        refine ⟨h1, ⟨ai, by rw [h2], h3⟩,
          ⟨["Failed to install migration from " ++ pathToString f ++ ": " ++ m] ++ ae,
            by rw [h4]; simp⟩, WriteFrame.trans writeFrame_scaffoldMigration hwf, ?_⟩
        intro q hq
        rw [h5 q hq]
        exact getFile_scaffoldMigration_other hq
      · have hstep : migLoop cfg (f :: fs) s = migLoop cfg fs
            { s with w := w₂,
                     installed := s.installed ++ [migrationsDir ++ [(s.w.scaffoldMigration (applyFilePrefixStr cfg (stripSqlExt (lastSeg f)))).1]] } := by
          simp only [migLoop]
          rw [hg]
          dsimp only
          rw [hw]
        rw [hstep]
        obtain ⟨h1, ⟨ai, h2, h3⟩, ⟨ae, h4⟩, hwf, h5⟩ :=
          @ih { s with w := w₂,
                       installed := s.installed ++ [migrationsDir ++ [(s.w.scaffoldMigration (applyFilePrefixStr cfg (stripSqlExt (lastSeg f)))).1]] }
        have hw2 : WriteFrame s.w w₂ := by
          rw [writeFile_ok_inv hw]
          exact WriteFrame.trans writeFrame_scaffoldMigration
            (writeFrame_setFile rfl (by simp [migrationsDir]))
        refine ⟨h1,
          ⟨(migrationsDir ++
              [(s.w.scaffoldMigration (applyFilePrefixStr cfg (stripSqlExt (lastSeg f)))).1]) :: ai,
            ?_, ?_⟩, ⟨ae, by rw [h4]⟩, WriteFrame.trans hw2 hwf, ?_⟩
        · rw [h2]
          simp
        · intro p hp
          rcases List.mem_cons.mp hp with rfl | hp
          · rfl
          · exact h3 p hp
        · intro q hq
          rw [h5 q hq]
          dsimp only
          rw [writeFile_ok_inv hw]
          rw [getFile_setFile_other (untouched_ne hq (show (migrationsDir ++ [(s.w.scaffoldMigration (applyFilePrefixStr cfg (stripSqlExt (lastSeg f)))).1] : Path).head? = some "supabase" from rfl) (show (migrationsDir ++ [(s.w.scaffoldMigration (applyFilePrefixStr cfg (stripSqlExt (lastSeg f)))).1] : Path).tail.head? = some "migrations" from rfl))]
          exact getFile_scaffoldMigration_other hq

/-- `installMigrations` obeys the same bounds. -/
lemma installMigrations_effects {cfg : Config} {fp : Path} {s : InstallSt} :
    (installMigrations cfg fp s).skipped = s.skipped ∧
    (∃ ai, (installMigrations cfg fp s).installed = s.installed ++ ai ∧
      ∀ p ∈ ai, p.tail.head? = some "migrations") ∧
    (∃ ae, (installMigrations cfg fp s).errors = s.errors ++ ae) ∧
    WriteFrame s.w (installMigrations cfg fp s).w ∧
    (∀ q, Untouched "migrations" q →
      (installMigrations cfg fp s).w.getFile q = s.w.getFile q) := by
  by_cases hd : s.w.dirExists (fp ++ ["migrations"]) = true
  · have hstep : installMigrations cfg fp s = migLoop cfg
        ((s.w.filesUnder (fp ++ ["migrations"])).filter (fun f => strEndsWith (lastSeg f) ".sql")) s := by
      simp only [installMigrations]
      rw [if_pos hd]
    rw [hstep]
    exact migLoop_effects
  · have hstep : installMigrations cfg fp s = s := by
      simp only [installMigrations]
      rw [if_neg hd]
    rw [hstep]
    exact ⟨rfl, ⟨[], (List.append_nil _).symm, by simp⟩, ⟨[], (List.append_nil _).symm⟩,
      WriteFrame.refl _, fun q hq => rfl⟩

/-- The state an interrupted or completed copy loop hands back to `fnLoop`. -/
def stOf : Except (String × InstallSt) InstallSt → InstallSt
  | .ok s => s
  | .error e => e.2

/-- The per-function copy loop (whether it completes or throws midway) never
touches `skippedFiles` or `errors`, appends only functions-rooted paths to
`installedFiles`, and never changes a file under `supabase/schemas`. -/
lemma fnCopyLoop_effects {src target : Path} (htl : target.tail.head? = some "functions")
    (htg : target.head? = some "supabase") :
    ∀ {fs : List Path} {s : InstallSt},
      (stOf (fnCopyLoop src target fs s)).skipped = s.skipped ∧
      (stOf (fnCopyLoop src target fs s)).errors = s.errors ∧
      (∃ ai, (stOf (fnCopyLoop src target fs s)).installed = s.installed ++ ai ∧
        ∀ p ∈ ai, p.tail.head? = some "functions") ∧
      WriteFrame s.w (stOf (fnCopyLoop src target fs s)).w ∧
      (∀ q, Untouched "functions" q →
        (stOf (fnCopyLoop src target fs s)).w.getFile q = s.w.getFile q) := by
  intro fs
  induction fs with
  | nil =>
    intro s
    exact ⟨rfl, rfl, ⟨[], (List.append_nil _).symm, by simp⟩, WriteFrame.refl _,
      fun q hq => rfl⟩
  | cons f fs ih =>
    intro s
    rcases hcp : s.w.copyFile f (target ++ f.drop src.length) true with m | w'
    · have hstep : fnCopyLoop src target (f :: fs) s = .error (m, s) := by
        simp only [fnCopyLoop]
        rw [hcp]
      rw [hstep]
      exact ⟨rfl, rfl, ⟨[], (List.append_nil _).symm, by simp⟩, WriteFrame.refl _,
        fun q hq => rfl⟩
    · obtain ⟨c, hcs, rfl⟩ := copyFile_ok_inv hcp
      have hstep : fnCopyLoop src target (f :: fs) s =
          fnCopyLoop src target fs
            { s with w := s.w.setFile (target ++ f.drop src.length) c,
                     installed := s.installed ++ [target ++ f.drop src.length] } := by
        simp only [fnCopyLoop]
        rw [hcp]
      rw [hstep]
      obtain ⟨h1, h2, ⟨ai, h3, h4⟩, hwf, h5⟩ :=
        @ih { s with w := s.w.setFile (target ++ f.drop src.length) c, installed := s.installed ++ [target ++ f.drop src.length] }
      have hlen2 : 2 ≤ (target ++ f.drop src.length).length := by
        rw [List.length_append]
        have := tail_head_some_len htl
        omega
      refine ⟨h1, h2, ⟨(target ++ f.drop src.length) :: ai, ?_, ?_⟩,
        WriteFrame.trans (writeFrame_setFile (head?_append_left htg) hlen2) hwf, ?_⟩
      · rw [h3]
        simp
      · intro p hp
        rcases List.mem_cons.mp hp with rfl | hp
        · exact tail_head_append htl
        · exact h4 p hp
      · intro q hq
        rw [h5 q hq]
        dsimp only
        exact getFile_setFile_other (untouched_ne hq (head?_append_left htg) (tail_head_append htl))

/-- The function stage appends only functions-rooted paths to `skippedFiles`
and `installedFiles`, only appends to `errors`, and never changes a file under
`supabase/schemas`. -/
lemma fnLoop_effects {cfg : Config} {fp : Path} {res : List ConflictingFile} :
    ∀ {names : List String} {s : InstallSt},
      (∃ a, (fnLoop cfg fp res names s).skipped = s.skipped ++ a ∧
        ∀ p ∈ a, p.tail.head? = some "functions") ∧
      (∃ ai, (fnLoop cfg fp res names s).installed = s.installed ++ ai ∧
        ∀ p ∈ ai, p.tail.head? = some "functions") ∧
      (∃ ae, (fnLoop cfg fp res names s).errors = s.errors ++ ae) ∧
      WriteFrame s.w (fnLoop cfg fp res names s).w ∧
      (∀ q, Untouched "functions" q →
        (fnLoop cfg fp res names s).w.getFile q = s.w.getFile q) := by
  intro names
  induction names with
  | nil =>
    intro s
    exact ⟨⟨[], (List.append_nil _).symm, by simp⟩, ⟨[], (List.append_nil _).symm, by simp⟩,
      ⟨[], (List.append_nil _).symm⟩, WriteFrame.refl _, fun q hq => rfl⟩
  | cons name rest ih =>
    intro s
    have htgt : (functionsDir ++ [applyFilePrefixStr cfg name] : Path).tail.head? =
        some "functions" := rfl
    by_cases h1 : resolutionFor res (functionsDir ++ [applyFilePrefixStr cfg name]) =
        some ResAction.skip
    · have hstep : fnLoop cfg fp res (name :: rest) s = fnLoop cfg fp res rest
          { s with skipped := s.skipped ++ [functionsDir ++ [applyFilePrefixStr cfg name]] } := by
        simp only [fnLoop]
        rw [if_pos h1]
      rw [hstep]
      obtain ⟨⟨a, h2, h3⟩, ⟨ai, h4, h5⟩, ⟨ae, h6⟩, hwf, h7⟩ :=
        @ih { s with skipped := s.skipped ++ [functionsDir ++ [applyFilePrefixStr cfg name]] }
      refine ⟨⟨(functionsDir ++ [applyFilePrefixStr cfg name]) :: a, by rw [h2]; simp, ?_⟩,
        ⟨ai, by rw [h4], h5⟩, ⟨ae, by rw [h6]⟩, hwf, fun q hq => h7 q hq⟩
      intro p hp
      rcases List.mem_cons.mp hp with rfl | hp
      · exact htgt
      · exact h3 p hp
    · by_cases h2 : (s.w.dirExists (functionsDir ++ [applyFilePrefixStr cfg name]) = true ∧
          resolutionFor res (functionsDir ++ [applyFilePrefixStr cfg name]) ≠
            some ResAction.overwrite)
      · have hstep : fnLoop cfg fp res (name :: rest) s = fnLoop cfg fp res rest
            { s with skipped := s.skipped ++ [functionsDir ++ [applyFilePrefixStr cfg name]] } := by
          simp only [fnLoop]
          rw [if_neg h1, if_pos h2]
        rw [hstep]
        obtain ⟨⟨a, h3, h4⟩, ⟨ai, h5, h6⟩, ⟨ae, h7⟩, hwf, h8⟩ :=
          @ih { s with skipped := s.skipped ++ [functionsDir ++ [applyFilePrefixStr cfg name]] }
        refine ⟨⟨(functionsDir ++ [applyFilePrefixStr cfg name]) :: a, by rw [h3]; simp, ?_⟩,
          ⟨ai, by rw [h5], h6⟩, ⟨ae, by rw [h7]⟩, hwf, fun q hq => h8 q hq⟩
        intro p hp
        rcases List.mem_cons.mp hp with rfl | hp
        · exact htgt
        · exact h4 p hp
      · by_cases h3 : (¬ s.w.dirExists (functionsDir ++ [applyFilePrefixStr cfg name]) = true ∧
            ¬ resolutionFor res (functionsDir ++ [applyFilePrefixStr cfg name]) =
              some ResAction.overwrite)
        · have hfr1 : ∀ q, Untouched "functions" q →
              (s.w.scaffoldFunction (applyFilePrefixStr cfg name)).getFile q = s.w.getFile q :=
            fun q hq => getFile_scaffoldFunction_tail hq
          obtain ⟨hc1, hc2, ⟨ci, hc3, hc4⟩, hcwf, hc5⟩ :=
            @fnCopyLoop_effects (fp ++ ["functions", name])
              (functionsDir ++ [applyFilePrefixStr cfg name]) rfl rfl
              ((s.w.scaffoldFunction (applyFilePrefixStr cfg name)).filesUnder
                (fp ++ ["functions", name]))
              { s with w := s.w.scaffoldFunction (applyFilePrefixStr cfg name) }
          rcases hcl : fnCopyLoop (fp ++ ["functions", name])
              (functionsDir ++ [applyFilePrefixStr cfg name])
              ((s.w.scaffoldFunction (applyFilePrefixStr cfg name)).filesUnder
                (fp ++ ["functions", name]))
              { s with w := s.w.scaffoldFunction (applyFilePrefixStr cfg name) }
              with ⟨m, st₂⟩ | st₂
          · rw [hcl] at hc1 hc2 hc3 hcwf hc5
            simp only [stOf] at hc1 hc2 hc3 hcwf hc5
            have hstep : fnLoop cfg fp res (name :: rest) s = fnLoop cfg fp res rest
                { st₂ with errors := st₂.errors ++ ["Failed to install function " ++ name ++ ": " ++ m] } := by
              simp only [fnLoop]
              rw [if_neg h1, if_neg h2]
              rw [if_pos h3, hcl]
            rw [hstep]
            obtain ⟨⟨a, h4, h5⟩, ⟨ai, h6, h7⟩, ⟨ae, h8⟩, hwf, h9⟩ :=
              @ih { st₂ with errors := st₂.errors ++ ["Failed to install function " ++ name ++ ": " ++ m] }
            refine ⟨⟨a, ?_, h5⟩, ⟨ci ++ ai, ?_, ?_⟩, ?_,
              WriteFrame.trans writeFrame_scaffoldFunction (WriteFrame.trans hcwf hwf), ?_⟩
            · rw [h4]
              dsimp only
              rw [hc1]
            · rw [h6]
              dsimp only
              rw [hc3]
              simp
            · intro p hp
              rcases List.mem_append.mp hp with hp | hp
              · exact hc4 p hp
              · exact h7 p hp
            · refine ⟨["Failed to install function " ++ name ++ ": " ++ m] ++ ae, ?_⟩
              rw [h8]
              dsimp only
              rw [hc2]
              simp
            · intro q hq
              rw [h9 q hq]
              dsimp only
              rw [hc5 q hq]
              exact hfr1 q hq
          · rw [hcl] at hc1 hc2 hc3 hcwf hc5
            simp only [stOf] at hc1 hc2 hc3 hcwf hc5
            have hstep : fnLoop cfg fp res (name :: rest) s = fnLoop cfg fp res rest st₂ := by
              simp only [fnLoop]
              rw [if_neg h1, if_neg h2]
              rw [if_pos h3, hcl]
            rw [hstep]
            obtain ⟨⟨a, h4, h5⟩, ⟨ai, h6, h7⟩, ⟨ae, h8⟩, hwf, h9⟩ := @ih st₂
            refine ⟨⟨a, by rw [h4, hc1], h5⟩, ⟨ci ++ ai, ?_, ?_⟩,
              ⟨ae, by rw [h8, hc2]⟩,
              WriteFrame.trans writeFrame_scaffoldFunction (WriteFrame.trans hcwf hwf), ?_⟩
            · rw [h6, hc3]
              simp
            · intro p hp
              rcases List.mem_append.mp hp with hp | hp
              · exact hc4 p hp
              · exact h7 p hp
            · intro q hq
              rw [h9 q hq, hc5 q hq]
              exact hfr1 q hq
        · obtain ⟨hc1, hc2, ⟨ci, hc3, hc4⟩, hcwf, hc5⟩ :=
            @fnCopyLoop_effects (fp ++ ["functions", name])
              (functionsDir ++ [applyFilePrefixStr cfg name]) rfl rfl
              (s.w.filesUnder (fp ++ ["functions", name])) { s with w := s.w }
          rcases hcl : fnCopyLoop (fp ++ ["functions", name])
              (functionsDir ++ [applyFilePrefixStr cfg name])
              (s.w.filesUnder (fp ++ ["functions", name])) { s with w := s.w }
              with ⟨m, st₂⟩ | st₂
          · rw [hcl] at hc1 hc2 hc3 hcwf hc5
            simp only [stOf] at hc1 hc2 hc3 hcwf hc5
            have hstep : fnLoop cfg fp res (name :: rest) s = fnLoop cfg fp res rest
                { st₂ with errors := st₂.errors ++ ["Failed to install function " ++ name ++ ": " ++ m] } := by
              simp only [fnLoop]
              rw [if_neg h1, if_neg h2]
              rw [if_neg h3, hcl]
            rw [hstep]
            obtain ⟨⟨a, h4, h5⟩, ⟨ai, h6, h7⟩, ⟨ae, h8⟩, hwf, h9⟩ :=
              @ih { st₂ with errors := st₂.errors ++ ["Failed to install function " ++ name ++ ": " ++ m] }
            refine ⟨⟨a, ?_, h5⟩, ⟨ci ++ ai, ?_, ?_⟩, ?_,
              WriteFrame.trans hcwf hwf, ?_⟩
            · rw [h4]
              dsimp only
              rw [hc1]
            · rw [h6]
              dsimp only
              rw [hc3]
              simp
            · intro p hp
              rcases List.mem_append.mp hp with hp | hp
              · exact hc4 p hp
              · exact h7 p hp
            · refine ⟨["Failed to install function " ++ name ++ ": " ++ m] ++ ae, ?_⟩
              rw [h8]
              dsimp only
              rw [hc2]
              simp
            · intro q hq
              rw [h9 q hq]
              dsimp only
              exact hc5 q hq
          · rw [hcl] at hc1 hc2 hc3 hcwf hc5
            simp only [stOf] at hc1 hc2 hc3 hcwf hc5
            have hstep : fnLoop cfg fp res (name :: rest) s = fnLoop cfg fp res rest st₂ := by
              simp only [fnLoop]
              rw [if_neg h1, if_neg h2]
              rw [if_neg h3, hcl]
            rw [hstep]
            obtain ⟨⟨a, h4, h5⟩, ⟨ai, h6, h7⟩, ⟨ae, h8⟩, hwf, h9⟩ := @ih st₂
            refine ⟨⟨a, by rw [h4, hc1], h5⟩, ⟨ci ++ ai, ?_, ?_⟩,
              ⟨ae, by rw [h8, hc2]⟩, WriteFrame.trans hcwf hwf, ?_⟩
            · rw [h6, hc3]
              simp
            · intro p hp
              rcases List.mem_append.mp hp with hp | hp
              · exact hc4 p hp
              · exact h7 p hp
            · intro q hq
              rw [h9 q hq]
              exact hc5 q hq

/-- `installFunctions` obeys the same bounds. -/
lemma installFunctions_effects {cfg : Config} {fp : Path} {res : List ConflictingFile}
    {s : InstallSt} :
    (∃ a, (installFunctions cfg fp res s).skipped = s.skipped ++ a ∧
      ∀ p ∈ a, p.tail.head? = some "functions") ∧
    (∃ ai, (installFunctions cfg fp res s).installed = s.installed ++ ai ∧
      ∀ p ∈ ai, p.tail.head? = some "functions") ∧
    (∃ ae, (installFunctions cfg fp res s).errors = s.errors ++ ae) ∧
    WriteFrame s.w (installFunctions cfg fp res s).w ∧
    (∀ q, Untouched "functions" q →
      (installFunctions cfg fp res s).w.getFile q = s.w.getFile q) := by
  by_cases hd : s.w.dirExists (fp ++ ["functions"]) = true
  · have hstep : installFunctions cfg fp res s =
        fnLoop cfg fp res (s.w.childDirs (fp ++ ["functions"])) s := by
      simp only [installFunctions]
      rw [if_pos hd]
    rw [hstep]
    exact fnLoop_effects
  · have hstep : installFunctions cfg fp res s = s := by
      simp only [installFunctions]
      rw [if_neg hd]
    rw [hstep]
    exact ⟨⟨[], (List.append_nil _).symm, by simp⟩, ⟨[], (List.append_nil _).symm, by simp⟩,
      ⟨[], (List.append_nil _).symm⟩, WriteFrame.refl _, fun q hq => rfl⟩

/-- The seed stage never touches `skippedFiles`, may append only the shared
seed artifact to `installedFiles`, only appends to `errors`, and never changes
a file under `supabase/schemas`. -/
lemma installSeeds_effects {featureId : String} {fp : Path} {s : InstallSt} :
    (installSeeds featureId fp s).skipped = s.skipped ∧
    (∃ ai, (installSeeds featureId fp s).installed = s.installed ++ ai ∧
      ∀ p ∈ ai, p.tail.head? = some "seed.sql") ∧
    (∃ ae, (installSeeds featureId fp s).errors = s.errors ++ ae) ∧
    WriteFrame s.w (installSeeds featureId fp s).w ∧
    (∀ q, Untouched "seed.sql" q →
      (installSeeds featureId fp s).w.getFile q = s.w.getFile q) := by
  have htriv : (s : InstallSt).skipped = s.skipped ∧
      (∃ ai, (s : InstallSt).installed = s.installed ++ ai ∧
        ∀ p ∈ ai, p.tail.head? = some "seed.sql") ∧
      (∃ ae, (s : InstallSt).errors = s.errors ++ ae) ∧
      WriteFrame s.w s.w ∧
      (∀ q, Untouched "seed.sql" q → s.w.getFile q = s.w.getFile q) :=
    ⟨rfl, ⟨[], (List.append_nil _).symm, by simp⟩, ⟨[], (List.append_nil _).symm⟩,
      WriteFrame.refl _, fun q hq => rfl⟩
  by_cases hd : s.w.dirExists (fp ++ ["seed"]) = true
  · by_cases he : ((s.w.filesUnder (fp ++ ["seed"])).filter
        (fun f => strEndsWith (lastSeg f) ".sql")).isEmpty = true
    · have hstep : installSeeds featureId fp s = s := by
        simp only [installSeeds]
        rw [if_pos hd, if_pos he]
      rw [hstep]
      exact htriv
    · by_cases hm : beginMarker featureId ∈ (s.w.getFile seedPath).getD []
      · have hstep : installSeeds featureId fp s = s := by
          simp only [installSeeds]
          rw [if_pos hd, if_neg (by simp [he]), if_pos hm]
        rw [hstep]
        exact htriv
      · rcases hw : s.w.writeFile seedPath
            (((s.w.getFile seedPath).getD []) ++
              ([""] ++ [beginMarker featureId] ++
                (seedLoop s.w ((s.w.filesUnder (fp ++ ["seed"])).filter
                  (fun f => strEndsWith (lastSeg f) ".sql")) ([], [])).1 ++
                [endMarker featureId])) with m | w₂
        · have hstep : installSeeds featureId fp s =
              { s with errors := (s.errors ++ (seedLoop s.w ((s.w.filesUnder (fp ++ ["seed"])).filter (fun f => strEndsWith (lastSeg f) ".sql")) ([], [])).2) ++ ["Failed to write seed file: " ++ m] } := by
            simp only [installSeeds]
            rw [if_pos hd, if_neg (by simp [he]), if_neg hm]
            rw [hw]
          rw [hstep]
          refine ⟨rfl, ⟨[], (List.append_nil _).symm, by simp⟩, ?_, WriteFrame.refl _,
            fun q hq => rfl⟩
          exact ⟨(seedLoop s.w ((s.w.filesUnder (fp ++ ["seed"])).filter
              (fun f => strEndsWith (lastSeg f) ".sql")) ([], [])).2 ++
            ["Failed to write seed file: " ++ m], by simp⟩
        · have hstep : installSeeds featureId fp s =
              { s with w := w₂,
                       errors := s.errors ++ (seedLoop s.w ((s.w.filesUnder (fp ++ ["seed"])).filter (fun f => strEndsWith (lastSeg f) ".sql")) ([], [])).2,
                       installed := s.installed ++ [seedPath] } := by
            simp only [installSeeds]
            rw [if_pos hd, if_neg (by simp [he]), if_neg hm]
            rw [hw]
          rw [hstep]
          refine ⟨rfl, ⟨[seedPath], rfl, by decide⟩,
            ⟨(seedLoop s.w ((s.w.filesUnder (fp ++ ["seed"])).filter
              (fun f => strEndsWith (lastSeg f) ".sql")) ([], [])).2, rfl⟩, ?_, ?_⟩
          · show WriteFrame s.w w₂
            rw [writeFile_ok_inv hw]
            exact writeFrame_setFile rfl (by decide)
          · intro q hq
            dsimp only
            rw [writeFile_ok_inv hw]
            exact getFile_setFile_other (untouched_ne hq (show (seedPath : Path).head? = some "supabase" from rfl) (show (seedPath : Path).tail.head? = some "seed.sql" from rfl))
  · have hstep : installSeeds featureId fp s = s := by
      simp only [installSeeds]
      rw [if_neg hd]
    rw [hstep]
    exact htriv

/-! ### Fresh migration artifacts and seed idempotence: supporting lemmas -/

lemma fst_scaffoldMigration (w : World) (n : String) :
    (w.scaffoldMigration n).1 = migFileName w.migCounter n := rfl

lemma migCounter_scaffoldMigration (w : World) (n : String) :
    (w.scaffoldMigration n).2.migCounter = w.migCounter + 1 := by
  unfold World.scaffoldMigration
  simp

lemma failPaths_scaffoldMigration (w : World) (n : String) :
    (w.scaffoldMigration n).2.failPaths = w.failPaths := by
  unfold World.scaffoldMigration
  simp

lemma getFile_scaffoldMigration_ne {w : World} {n : String} {q : Path}
    (h : q ≠ migrationsDir ++ [migFileName w.migCounter n]) :
    (w.scaffoldMigration n).2.getFile q = w.getFile q := by
  unfold World.scaffoldMigration
  dsimp only
  exact getFile_setFile_other h

/-- The artifact paths the migration loop produces from counter `c` on. -/
def migArtifacts (cfg : Config) : Nat → List Path → List Path
  | _, [] => []
  | c, f :: fs =>
    (migrationsDir ++ [migFileName c (applyFilePrefixStr cfg (stripSqlExt (lastSeg f)))]) ::
      migArtifacts cfg (c + 1) fs

lemma migArtifacts_shape {cfg : Config} :
    ∀ (fs : List Path) (c : Nat) {q : Path}, q ∈ migArtifacts cfg c fs →
      ∃ n b, c ≤ n ∧ n < c + fs.length ∧ q = migrationsDir ++ [migFileName n b] := by
  intro fs
  induction fs with
  | nil =>
    intro c q hq
    cases hq
  | cons f fs ih =>
    intro c q hq
    rcases List.mem_cons.mp hq with rfl | hq
    · exact ⟨c, applyFilePrefixStr cfg (stripSqlExt (lastSeg f)), Nat.le_refl _,
        by simp, rfl⟩
    · obtain ⟨n, b, h1, h2, h3⟩ := ih (c + 1) hq
      exact ⟨n, b, by omega, by simp only [List.length_cons]; omega, h3⟩

lemma migArtifacts_tail {cfg : Config} {fs : List Path} {c : Nat} {q : Path}
    (hq : q ∈ migArtifacts cfg c fs) : q.tail.head? = some "migrations" := by
  obtain ⟨n, b, _, _, rfl⟩ := migArtifacts_shape fs c hq
  rfl

lemma migIdSeg_append_inj : ∀ {n m : Nat} {r r' : List Char},
    migIdSeg n ++ '_' :: r = migIdSeg m ++ '_' :: r' → n = m := by
  intro n
  induction n with
  | zero =>
    intro m r r' h
    cases m with
    | zero => rfl
    | succ k =>
      exfalso
      have h2 : ('_' : Char) :: r = '0' :: (migIdSeg k ++ '_' :: r') := by
        simpa [migIdSeg, List.replicate_succ] using h
      injection h2 with h3 _
      exact absurd h3 (by decide)
  | succ k ih =>
    intro m r r' h
    cases m with
    | zero =>
      exfalso
      have h2 : ('0' : Char) :: (migIdSeg k ++ '_' :: r) = '_' :: r' := by
        simpa [migIdSeg, List.replicate_succ] using h
      injection h2 with h3 _
      exact absurd h3 (by decide)
    | succ j =>
      have h2 : ('0' : Char) :: (migIdSeg k ++ '_' :: r) =
          '0' :: (migIdSeg j ++ '_' :: r') := by
        simpa [migIdSeg, List.replicate_succ] using h
      injection h2 with _ h3
      exact congrArg Nat.succ (ih h3)

lemma migFileName_inj_counter {n m : Nat} {b b' : String}
    (h : migFileName n b = migFileName m b') : n = m := by
  have hd : migIdSeg n ++ '_' :: (b ++ ".sql").data =
      migIdSeg m ++ '_' :: (b' ++ ".sql").data := congrArg String.data h
  exact migIdSeg_append_inj hd

lemma migArtifact_path_inj {n m : Nat} {b b' : String}
    (h : migrationsDir ++ [migFileName n b] = migrationsDir ++ [migFileName m b']) :
    n = m := by
  have h2 := List.append_cancel_left h
  injection h2 with h3 _
  exact migFileName_inj_counter h3

/-! #### Marker-line inequalities -/

lemma ne_of_data_take_ne {a b : String} (n : Nat) (h : a.data.take n ≠ b.data.take n) :
    a ≠ b := fun e => h (by rw [e])

lemma beginMarker_take (featureId : String) :
    (beginMarker featureId).data.take 4 = ['-', '-', ' ', 'B'] := by
  show ((("-- BEGIN: " ++ featureId) ++ " seeds")).data.take 4 = _
  rw [String.data_append, String.data_append, List.append_assoc,
    List.take_append_of_le_length (by decide)]
  decide

lemma endMarker_take (featureId : String) :
    (endMarker featureId).data.take 4 = ['-', '-', ' ', 'E'] := by
  show ((("-- END: " ++ featureId) ++ " seeds")).data.take 4 = _
  rw [String.data_append, String.data_append, List.append_assoc,
    List.take_append_of_le_length (by decide)]
  decide

lemma fromLine_take (t : String) :
    (("-- From: " ++ t)).data.take 4 = ['-', '-', ' ', 'F'] := by
  rw [String.data_append, List.take_append_of_le_length (by decide)]
  decide

lemma beginMarker_ne_empty (featureId : String) : beginMarker featureId ≠ "" :=
  ne_of_data_take_ne 4 (by rw [beginMarker_take]; decide)

lemma beginMarker_ne_endMarker (f g : String) : beginMarker f ≠ endMarker g :=
  ne_of_data_take_ne 4 (by rw [beginMarker_take, endMarker_take]; decide)

lemma beginMarker_ne_fromLine (f t : String) : beginMarker f ≠ "-- From: " ++ t :=
  ne_of_data_take_ne 4 (by rw [beginMarker_take, fromLine_take]; decide)

/-! #### The seed body: where its lines come from -/

lemma seedLoop_lines {w : World} :
    ∀ (fs : List Path) (acc : List String × List String) {x : String},
      x ∈ (seedLoop w fs acc).1 →
      x ∈ acc.1 ∨ x = "" ∨ (∃ f, x = "-- From: " ++ lastSeg f) ∨
        (∃ f ∈ fs, x ∈ (w.getFile f).getD []) := by
  intro fs
  induction fs with
  | nil =>
    intro acc x hx
    exact Or.inl hx
  | cons f fs ih =>
    intro acc x hx
    rcases hg : w.getFile f with _ | content
    · rw [seedLoop, hg] at hx
      rcases ih _ hx with h | h | h | ⟨g, hg2, hg3⟩
      · exact Or.inl h
      · exact Or.inr (Or.inl h)
      · exact Or.inr (Or.inr (Or.inl h))
      · exact Or.inr (Or.inr (Or.inr ⟨g, List.mem_cons_of_mem _ hg2, hg3⟩))
    · rw [seedLoop, hg] at hx
      rcases ih _ hx with h | h | h | ⟨g, hg2, hg3⟩
      · dsimp only at h
        rcases List.mem_append.mp h with h | h
        · rcases List.mem_append.mp h with h | h
          · exact Or.inl h
          · rcases List.mem_cons.mp h with rfl | h
            · exact Or.inr (Or.inr (Or.inl ⟨f, rfl⟩))
            · refine Or.inr (Or.inr (Or.inr ⟨f, List.mem_cons_self _ _, ?_⟩))
              rw [hg]
              exact h
        · rw [List.mem_singleton] at h
          exact Or.inr (Or.inl h)
      · exact Or.inr (Or.inl h)
      · exact Or.inr (Or.inr (Or.inl h))
      · exact Or.inr (Or.inr (Or.inr ⟨g, List.mem_cons_of_mem _ hg2, hg3⟩))

lemma seedLoop_congr {w w' : World} :
    ∀ (fs : List Path) (acc : List String × List String),
      (∀ f ∈ fs, w'.getFile f = w.getFile f) →
      seedLoop w' fs acc = seedLoop w fs acc := by
  intro fs
  induction fs with
  | nil => intro acc h; rfl
  | cons f fs ih =>
    intro acc h
    have hf := h f (List.mem_cons_self _ _)
    rw [seedLoop, seedLoop, hf]
    rcases w.getFile f with _ | content
    · exact ih _ (fun g hg => h g (List.mem_cons_of_mem _ hg))
    · exact ih _ (fun g hg => h g (List.mem_cons_of_mem _ hg))

/-! #### The two relevant behaviours of the seed stage -/

/-- If the shared artifact already holds the feature's begin marker, the seed
stage changes nothing at all. -/
lemma installSeeds_marker_noop {featureId : String} {fp : Path} {s : InstallSt}
    (hm : beginMarker featureId ∈ (s.w.getFile seedPath).getD []) :
    installSeeds featureId fp s = s := by
  by_cases hd : s.w.dirExists (fp ++ ["seed"]) = true
  · by_cases he : ((s.w.filesUnder (fp ++ ["seed"])).filter
        (fun f => strEndsWith (lastSeg f) ".sql")).isEmpty = true
    · simp only [installSeeds]
      rw [if_pos hd, if_pos he]
    · simp only [installSeeds]
      rw [if_pos hd, if_neg (by simp [he]), if_pos hm]
  · simp only [installSeeds]
    rw [if_neg hd]

/-- When the marker is absent, failure injection is off, and the feature has
seed templates, the seed stage appends the marker block once. -/
lemma installSeeds_write {featureId : String} {fp : Path} {s : InstallSt}
    (hfail : s.w.failPaths = [])
    (hd : s.w.dirExists (fp ++ ["seed"]) = true)
    (hne : ((s.w.filesUnder (fp ++ ["seed"])).filter
      (fun f => strEndsWith (lastSeg f) ".sql")).isEmpty = false)
    (hm : beginMarker featureId ∉ (s.w.getFile seedPath).getD []) :
    (installSeeds featureId fp s).w.getFile seedPath =
      some (((s.w.getFile seedPath).getD []) ++
        ([""] ++ [beginMarker featureId] ++
          (seedLoop s.w ((s.w.filesUnder (fp ++ ["seed"])).filter
            (fun f => strEndsWith (lastSeg f) ".sql")) ([], [])).1 ++
          [endMarker featureId])) := by
  have hw : s.w.writeFile seedPath
      (((s.w.getFile seedPath).getD []) ++
        ([""] ++ [beginMarker featureId] ++
          (seedLoop s.w ((s.w.filesUnder (fp ++ ["seed"])).filter
            (fun f => strEndsWith (lastSeg f) ".sql")) ([], [])).1 ++
          [endMarker featureId])) =
      .ok (s.w.setFile seedPath
        (((s.w.getFile seedPath).getD []) ++
          ([""] ++ [beginMarker featureId] ++
            (seedLoop s.w ((s.w.filesUnder (fp ++ ["seed"])).filter
              (fun f => strEndsWith (lastSeg f) ".sql")) ([], [])).1 ++
            [endMarker featureId]))) :=
    writeFile_eq_ok (by rw [hfail]; exact List.not_mem_nil _)
  have hstep : installSeeds featureId fp s =
      { s with w := s.w.setFile seedPath (((s.w.getFile seedPath).getD []) ++ ([""] ++ [beginMarker featureId] ++ (seedLoop s.w ((s.w.filesUnder (fp ++ ["seed"])).filter (fun f => strEndsWith (lastSeg f) ".sql")) ([], [])).1 ++ [endMarker featureId])),
               errors := s.errors ++ (seedLoop s.w ((s.w.filesUnder (fp ++ ["seed"])).filter (fun f => strEndsWith (lastSeg f) ".sql")) ([], [])).2,
               installed := s.installed ++ [seedPath] } := by
    simp only [installSeeds]
    rw [if_pos hd, if_neg (by simp [hne]), if_neg hm]
    rw [hw]
  rw [hstep]
  exact getFile_setFile_self

/-! #### Schema-stage write targets, head and tail -/

lemma schemaWrites_head {cfg : Config} {root : Path} {res : List ConflictingFile}
    {fs : List Path} {p : Path} (hp : p ∈ schemaWrites cfg root res fs) :
    p.head? = some "supabase" := by
  simp only [schemaWrites, List.mem_map] at hp
  obtain ⟨g, _, rfl⟩ := hp
  rfl

lemma schemaWrites_tail {cfg : Config} {root : Path} {res : List ConflictingFile}
    {fs : List Path} {p : Path} (hp : p ∈ schemaWrites cfg root res fs) :
    p.tail.head? = some "schemas" := by
  simp only [schemaWrites, List.mem_map] at hp
  obtain ⟨g, _, rfl⟩ := hp
  rfl

lemma schemaSkips_tail {cfg : Config} {root : Path} {res : List ConflictingFile}
    {fs : List Path} {p : Path} (hp : p ∈ schemaSkips cfg root res fs) :
    p.tail.head? = some "schemas" := by
  simp only [schemaSkips, List.mem_map] at hp
  obtain ⟨g, _, rfl⟩ := hp
  rfl

/-- The migration templates the migration stage reads. -/
def migTemplates (w : World) (fp : Path) : List Path :=
  (w.filesUnder (fp ++ ["migrations"])).filter (fun f => strEndsWith (lastSeg f) ".sql")

/-- The seed templates the seed stage reads. -/
def seedTemplates (w : World) (fp : Path) : List Path :=
  (w.filesUnder (fp ++ ["seed"])).filter (fun f => strEndsWith (lastSeg f) ".sql")

/-- Precise characterisation of the migration loop under no failure
injection: the counter advances once per template, each template gets the
freshly numbered artifact, and every path that is not a fresh artifact
(counter at or above the starting value) is untouched. -/
lemma migLoop_ok {cfg : Config} :
    ∀ {fs : List Path} {s : InstallSt},
      s.w.failPaths = [] →
      (∀ f ∈ fs, f.head? = some "features" ∧ (s.w.getFile f).isSome) →
      (migLoop cfg fs s).w.migCounter = s.w.migCounter + fs.length ∧
      (migLoop cfg fs s).installed = s.installed ++ migArtifacts cfg s.w.migCounter fs ∧
      (migLoop cfg fs s).errors = s.errors ∧
      (∀ p, (∀ n b, s.w.migCounter ≤ n → p ≠ migrationsDir ++ [migFileName n b]) →
        (migLoop cfg fs s).w.getFile p = s.w.getFile p) := by
  intro fs
  induction fs with
  | nil =>
    intro s hfail hsrc
    exact ⟨rfl, (List.append_nil _).symm, rfl, fun p hp => rfl⟩
  | cons f fs ih =>
    intro s hfail hsrc
    obtain ⟨hfh, hfs⟩ := hsrc f (List.mem_cons_self _ _)
    obtain ⟨c, hc⟩ := Option.isSome_iff_exists.mp hfs
    rw [hc] at hfs
    have hsc2fail : (s.w.scaffoldMigration (applyFilePrefixStr cfg (stripSqlExt (lastSeg f)))).2.failPaths = [] := by
      rw [failPaths_scaffoldMigration]
      exact hfail
    have hw : (s.w.scaffoldMigration (applyFilePrefixStr cfg (stripSqlExt (lastSeg f)))).2.writeFile
        (migrationsDir ++ [(s.w.scaffoldMigration (applyFilePrefixStr cfg (stripSqlExt (lastSeg f)))).1]) c =
        .ok ((s.w.scaffoldMigration (applyFilePrefixStr cfg (stripSqlExt (lastSeg f)))).2.setFile
          (migrationsDir ++ [(s.w.scaffoldMigration (applyFilePrefixStr cfg (stripSqlExt (lastSeg f)))).1]) c) :=
      writeFile_eq_ok (by rw [hsc2fail]; exact List.not_mem_nil _)
    have hstep : migLoop cfg (f :: fs) s = migLoop cfg fs
        { s with w := (s.w.scaffoldMigration (applyFilePrefixStr cfg (stripSqlExt (lastSeg f)))).2.setFile (migrationsDir ++ [(s.w.scaffoldMigration (applyFilePrefixStr cfg (stripSqlExt (lastSeg f)))).1]) c,
                 installed := s.installed ++ [migrationsDir ++ [(s.w.scaffoldMigration (applyFilePrefixStr cfg (stripSqlExt (lastSeg f)))).1]] } := by
      simp only [migLoop]
      rw [hc]
      dsimp only
      rw [hw]
    have hartifact : migrationsDir ++
        [(s.w.scaffoldMigration (applyFilePrefixStr cfg (stripSqlExt (lastSeg f)))).1] =
        migrationsDir ++ [migFileName s.w.migCounter (applyFilePrefixStr cfg (stripSqlExt (lastSeg f)))] := by
      rw [fst_scaffoldMigration]
    have hcount : ((s.w.scaffoldMigration (applyFilePrefixStr cfg (stripSqlExt (lastSeg f)))).2.setFile
        (migrationsDir ++ [(s.w.scaffoldMigration (applyFilePrefixStr cfg (stripSqlExt (lastSeg f)))).1]) c).migCounter =
        s.w.migCounter + 1 := by
      rw [setFile_migCounter, migCounter_scaffoldMigration]
    have hgetg : ∀ g : Path, g.head? = some "features" →
        ((s.w.scaffoldMigration (applyFilePrefixStr cfg (stripSqlExt (lastSeg f)))).2.setFile
          (migrationsDir ++ [(s.w.scaffoldMigration (applyFilePrefixStr cfg (stripSqlExt (lastSeg f)))).1]) c).getFile g =
          s.w.getFile g := by
      intro g hg
      rw [getFile_setFile_other (untouched_ne (untouched_of_head hg (by decide))
        (by rw [hartifact]; rfl) (by rw [hartifact]; rfl))]
      exact getFile_scaffoldMigration_other (untouched_of_head hg (by decide))
    obtain ⟨ih1, ih2, ih3, ih4⟩ :=
      @ih { s with w := (s.w.scaffoldMigration (applyFilePrefixStr cfg (stripSqlExt (lastSeg f)))).2.setFile (migrationsDir ++ [(s.w.scaffoldMigration (applyFilePrefixStr cfg (stripSqlExt (lastSeg f)))).1]) c, installed := s.installed ++ [migrationsDir ++ [(s.w.scaffoldMigration (applyFilePrefixStr cfg (stripSqlExt (lastSeg f)))).1]] }
        (by dsimp only; rw [setFile_failPaths]; exact hsc2fail)
        (by
          intro g hg
          obtain ⟨hgh, hgs⟩ := hsrc g (List.mem_cons_of_mem _ hg)
          exact ⟨hgh, by dsimp only; rw [hgetg g hgh]; exact hgs⟩)
    have hSw : ({ s with w := (s.w.scaffoldMigration (applyFilePrefixStr cfg (stripSqlExt (lastSeg f)))).2.setFile (migrationsDir ++ [(s.w.scaffoldMigration (applyFilePrefixStr cfg (stripSqlExt (lastSeg f)))).1]) c, installed := s.installed ++ [migrationsDir ++ [(s.w.scaffoldMigration (applyFilePrefixStr cfg (stripSqlExt (lastSeg f)))).1]] } : InstallSt).w.migCounter = s.w.migCounter + 1 := hcount
    have hSi : ({ s with w := (s.w.scaffoldMigration (applyFilePrefixStr cfg (stripSqlExt (lastSeg f)))).2.setFile (migrationsDir ++ [(s.w.scaffoldMigration (applyFilePrefixStr cfg (stripSqlExt (lastSeg f)))).1]) c, installed := s.installed ++ [migrationsDir ++ [(s.w.scaffoldMigration (applyFilePrefixStr cfg (stripSqlExt (lastSeg f)))).1]] } : InstallSt).installed = s.installed ++ [migrationsDir ++ [(s.w.scaffoldMigration (applyFilePrefixStr cfg (stripSqlExt (lastSeg f)))).1]] := rfl
    rw [hstep]
    refine ⟨?_, ?_, ih3, ?_⟩
    · rw [ih1, hSw, List.length_cons]
      omega
    · rw [ih2, hSw, hSi, List.append_assoc]
      congr 1
    · intro p hp
      rw [ih4 p (fun n b hn => hp n b (by rw [hSw] at hn; omega))]
      have hpne : p ≠ migrationsDir ++
          [migFileName s.w.migCounter (applyFilePrefixStr cfg (stripSqlExt (lastSeg f)))] :=
        hp _ _ (Nat.le_refl _)
      show ((s.w.scaffoldMigration (applyFilePrefixStr cfg (stripSqlExt (lastSeg f)))).2.setFile (migrationsDir ++ [(s.w.scaffoldMigration (applyFilePrefixStr cfg (stripSqlExt (lastSeg f)))).1]) c).getFile p = s.w.getFile p
      rw [getFile_setFile_other (by rw [hartifact]; exact hpne)]
      exact getFile_scaffoldMigration_ne hpne

/-- `installMigrations` under no failure injection: the counter advances once
per template, the freshly numbered artifacts are recorded, and everything
outside the fresh-artifact range is untouched. -/
lemma installMigrations_ok {cfg : Config} {fp : Path} {s : InstallSt}
    (hfail : s.w.failPaths = []) (hfp : fp.head? = some "features") :
    ∃ ms, (installMigrations cfg fp s).w.migCounter = s.w.migCounter + ms.length ∧
      (installMigrations cfg fp s).installed = s.installed ++ migArtifacts cfg s.w.migCounter ms ∧
      (installMigrations cfg fp s).errors = s.errors ∧
      (∀ p, (∀ n b, s.w.migCounter ≤ n → p ≠ migrationsDir ++ [migFileName n b]) →
        (installMigrations cfg fp s).w.getFile p = s.w.getFile p) ∧
      (s.w.dirExists (fp ++ ["migrations"]) = true → ms = migTemplates s.w fp) := by
  by_cases hd : s.w.dirExists (fp ++ ["migrations"]) = true
  · have hstep : installMigrations cfg fp s = migLoop cfg (migTemplates s.w fp) s := by
      simp only [installMigrations]
      rw [if_pos hd]
      rfl
    have hsrc : ∀ f ∈ migTemplates s.w fp, f.head? = some "features" ∧ (s.w.getFile f).isSome := by
      intro f hf
      have hf2 : f ∈ s.w.filesUnder (fp ++ ["migrations"]) := List.mem_of_mem_filter hf
      exact ⟨filesUnder_head (head?_append_left hfp) hf2, (mem_filesUnder hf2).2.2⟩
    obtain ⟨h1, h2, h3, h4⟩ := @migLoop_ok cfg (migTemplates s.w fp) s hfail hsrc
    rw [hstep]
    exact ⟨migTemplates s.w fp, h1, h2, h3, h4, fun _ => rfl⟩
  · have hstep : installMigrations cfg fp s = s := by
      simp only [installMigrations]
      rw [if_neg hd]
    rw [hstep]
    exact ⟨[], by simp, by simp [migArtifacts], rfl, fun p hp => rfl,
      fun hc => absurd hc hd⟩

lemma filter_beq_tail_nil {t : String} : ∀ {l : List Path},
    (∀ p ∈ l, p.tail.head? ≠ some t) →
    l.filter (fun p => p.tail.head? == some t) = [] := by
  intro l
  induction l with
  | nil => intro h; rfl
  | cons x xs ih =>
    intro h
    rw [List.filter_cons]
    have hx : (x.tail.head? == some t) = false := by
      cases hb : x.tail.head? == some t
      · rfl
      · exact absurd (eq_of_beq hb) (h x (List.mem_cons_self _ _))
    rw [hx]
    rw [if_neg (by simp)]
    exact ih (fun p hp => h p (List.mem_cons_of_mem _ hp))

lemma filter_beq_tail_self {t : String} : ∀ {l : List Path},
    (∀ p ∈ l, p.tail.head? = some t) →
    l.filter (fun p => p.tail.head? == some t) = l := by
  intro l
  induction l with
  | nil => intro h; rfl
  | cons x xs ih =>
    intro h
    rw [List.filter_cons]
    have hx : (x.tail.head? == some t) = true := by
      rw [h x (List.mem_cons_self _ _)]
      simp
    rw [hx]
    rw [if_pos rfl]
    rw [ih (fun p hp => h p (List.mem_cons_of_mem _ hp))]

/-- Under no failure injection the schema stage always completes, preserves
the migration counter and the failure set, records only `supabase/schemas`
targets, and touches only `supabase/schemas` files. -/
lemma installSchemas_run {cfg : Config} {fid : String} {res : List ConflictingFile}
    {w : World} (hfail : w.failPaths = []) :
    ∃ st1, installSchemas cfg (featureDirOf fid) res ⟨w, [], [], []⟩ = .ok st1 ∧
      WriteFrame w st1.w ∧
      st1.w.migCounter = w.migCounter ∧
      st1.w.failPaths = [] ∧
      (∀ p ∈ st1.installed, p.tail.head? = some "schemas") ∧
      (∀ q, Untouched "schemas" q → st1.w.getFile q = w.getFile q) := by
  by_cases hd : w.dirExists (featureDirOf fid ++ ["schemas"]) = true
  · have hsrc : ∀ g ∈ w.filesUnder (featureDirOf fid ++ ["schemas"]),
        g.head? = some "features" ∧ (w.getFile g).isSome :=
      fun g hg => ⟨filesUnder_head (show (featureDirOf fid ++ ["schemas"] : Path).head? = some "features" from rfl) hg, (mem_filesUnder hg).2.2⟩
    obtain ⟨st1, hrun1, hframe1, hev1, hmig1, herr1, hskip1, hinst1, hfr1, hcontent1⟩ :=
      @schemasLoop_ok cfg (featureDirOf fid ++ ["schemas"]) res
        (w.filesUnder (featureDirOf fid ++ ["schemas"])) ⟨w, [], [], []⟩ hfail hsrc
    refine ⟨st1, ?_, hframe1, hmig1, by rw [hframe1.fails]; exact hfail, ?_, ?_⟩
    · simp only [installSchemas]
      rw [if_pos hd]
      exact hrun1
    · intro p hp
      rw [hinst1] at hp
      exact schemaWrites_tail (by simpa using hp)
    · intro q hq
      refine hfr1 q ?_
      intro hmem
      exact absurd rfl (untouched_ne hq (schemaWrites_head hmem) (schemaWrites_tail hmem))
  · refine ⟨⟨w, [], [], []⟩, ?_, WriteFrame.refl _, rfl, hfail, ?_, fun q hq => rfl⟩
    · simp only [installSchemas]
      rw [if_neg hd]
    · intro p hp
      cases hp

/-- The behaviours of one `installFeature` run needed to reason about a
second run over its result: the world frame, the fresh numbering of the
migration artifacts it records, preservation of older migrations and of the
whole feature-template tree, and the two seed-stage behaviours. -/
lemma installFeature_run {reg : Registry} {cfg : Config} {w : World} {featureId : String}
    {res : List ConflictingFile} {r : InstallationResult} {wA : World} {cfgA : Config}
    (hfail : w.failPaths = [])
    (hrun : installFeature reg cfg w featureId res = .ok (r, wA, cfgA)) :
    ∃ ms,
      WriteFrame w wA ∧
      (w.dirExists (featureDirOf featureId ++ ["migrations"]) = true →
        ms = migTemplates w (featureDirOf featureId)) ∧
      w.migCounter + ms.length ≤ wA.migCounter ∧
      r.installedFiles.filter (fun p => p.tail.head? == some "migrations") =
        migArtifacts cfg w.migCounter ms ∧
      (∀ n b, n < w.migCounter →
        wA.getFile (migrationsDir ++ [migFileName n b]) =
          w.getFile (migrationsDir ++ [migFileName n b])) ∧
      (∀ q, q.head? = some "features" → wA.getFile q = w.getFile q) ∧
      (beginMarker featureId ∈ (w.getFile seedPath).getD [] →
        wA.getFile seedPath = w.getFile seedPath) ∧
      (w.dirExists (featureDirOf featureId ++ ["seed"]) = true →
        (seedTemplates w (featureDirOf featureId)).isEmpty = false →
        beginMarker featureId ∉ (w.getFile seedPath).getD [] →
        wA.getFile seedPath = some (((w.getFile seedPath).getD []) ++
          ([""] ++ [beginMarker featureId] ++
            (seedLoop w (seedTemplates w (featureDirOf featureId)) ([], [])).1 ++
            [endMarker featureId]))) := by
  rcases hlf : lookupFeature reg featureId with _ | feat
  · unfold installFeature at hrun
    rw [hlf] at hrun
    cases hrun
  · unfold installFeature at hrun
    rw [hlf] at hrun
    dsimp only at hrun
    obtain ⟨st1, hsch, hframe1, hmig1, hfail1, htl1, hfr1⟩ :=
      @installSchemas_run cfg featureId res w hfail
    rw [hsch] at hrun
    dsimp only at hrun
    obtain ⟨ms, hc2, hin2, herr2, hfr2, hms⟩ :=
      @installMigrations_ok cfg (featureDirOf featureId) st1 hfail1 rfl
    obtain ⟨_, _, _, hwf2, _⟩ :=
      @installMigrations_effects cfg (featureDirOf featureId) st1
    obtain ⟨⟨as3, hsk3, has3⟩, ⟨ai3, hin3, hai3⟩, he3, hwf3, hfr3⟩ :=
      @installFunctions_effects cfg (featureDirOf featureId) res
        (installMigrations cfg (featureDirOf featureId) st1)
    obtain ⟨hsk4, ⟨ai4, hin4, hai4⟩, he4, hwf4, hfr4⟩ :=
      @installSeeds_effects featureId (featureDirOf featureId)
        (installFunctions cfg (featureDirOf featureId) res
          (installMigrations cfg (featureDirOf featureId) st1))
    have hfu3 : ∀ rt : Path, rt.head? = some "features" →
        (installFunctions cfg (featureDirOf featureId) res
          (installMigrations cfg (featureDirOf featureId) st1)).w.filesUnder rt =
          w.filesUnder rt :=
      fun rt hrt => ((hwf3.fu rt hrt).trans ((hwf2.fu rt hrt).trans (hframe1.fu rt hrt)))
    have hde3 : ∀ q : Path, q.head? = some "features" →
        (installFunctions cfg (featureDirOf featureId) res
          (installMigrations cfg (featureDirOf featureId) st1)).w.dirExists q =
          w.dirExists q :=
      fun q hq => ((hwf3.de q hq).trans ((hwf2.de q hq).trans (hframe1.de q hq)))
    have hgfeat3 : ∀ q : Path, q.head? = some "features" →
        (installFunctions cfg (featureDirOf featureId) res
          (installMigrations cfg (featureDirOf featureId) st1)).w.getFile q =
          w.getFile q := by
      intro q hq
      rw [hfr3 q (untouched_of_head hq (by decide))]
      rw [hfr2 q (fun n b _ => ne_of_head_ne hq rfl (by decide))]
      exact hfr1 q (untouched_of_head hq (by decide))
    have hgseed3 : (installFunctions cfg (featureDirOf featureId) res
        (installMigrations cfg (featureDirOf featureId) st1)).w.getFile seedPath =
        w.getFile seedPath := by
      rw [hfr3 seedPath (untouched_of_tail rfl (by decide))]
      rw [hfr2 seedPath (fun n b _ => ne_of_tail_head_target (by rw [show (seedPath : Path).tail.head? = some "seed.sql" from rfl]; decide) rfl)]
      exact hfr1 seedPath (untouched_of_tail rfl (by decide))
    have hseedTm : seedTemplates (installFunctions cfg (featureDirOf featureId) res
        (installMigrations cfg (featureDirOf featureId) st1)).w (featureDirOf featureId) =
        seedTemplates w (featureDirOf featureId) := by
      unfold seedTemplates
      rw [hfu3 (featureDirOf featureId ++ ["seed"]) rfl]
    have hkey : r.installedFiles =
        (installSeeds featureId (featureDirOf featureId)
          (installFunctions cfg (featureDirOf featureId) res
            (installMigrations cfg (featureDirOf featureId) st1))).installed ∧
        wA = (installSeeds featureId (featureDirOf featureId)
          (installFunctions cfg (featureDirOf featureId) res
            (installMigrations cfg (featureDirOf featureId) st1))).w := by
      split at hrun
      · cases hrun
        exact ⟨rfl, rfl⟩
      · cases hrun
        exact ⟨rfl, rfl⟩
    obtain ⟨hkey1, hkey2⟩ := hkey
    refine ⟨ms, ?_, ?_, ?_, ?_, ?_, ?_, ?_, ?_⟩
    · rw [hkey2]
      exact WriteFrame.trans hframe1 (WriteFrame.trans hwf2 (WriteFrame.trans hwf3 hwf4))
    · intro hd
      have hd1 : st1.w.dirExists (featureDirOf featureId ++ ["migrations"]) = true := by
        rw [hframe1.de (featureDirOf featureId ++ ["migrations"]) rfl]
        exact hd
      rw [hms hd1]
      unfold migTemplates
      rw [hframe1.fu (featureDirOf featureId ++ ["migrations"]) rfl]
    · rw [hkey2]
      calc w.migCounter + ms.length = st1.w.migCounter + ms.length := by rw [hmig1]
        _ = (installMigrations cfg (featureDirOf featureId) st1).w.migCounter := hc2.symm
        _ ≤ _ := Nat.le_trans hwf3.migLe hwf4.migLe
    · rw [hkey1, hin4, hin3, hin2, hmig1]
      rw [List.filter_append, List.filter_append, List.filter_append]
      rw [filter_beq_tail_nil (fun p hp => by rw [htl1 p hp]; decide)]
      rw [filter_beq_tail_self (fun p hp => migArtifacts_tail hp)]
      rw [filter_beq_tail_nil (fun p hp => by rw [hai3 p hp]; decide)]
      rw [filter_beq_tail_nil (fun p hp => by rw [hai4 p hp]; decide)]
      simp
    · intro n b hn
      rw [hkey2]
      have htlp : (migrationsDir ++ [migFileName n b] : Path).tail.head? =
          some "migrations" := rfl
      rw [hfr4 _ (untouched_of_tail htlp (by decide))]
      rw [hfr3 _ (untouched_of_tail htlp (by decide))]
      rw [hfr2 _ (fun m bm hm => by
        intro heq
        have hinj := migArtifact_path_inj heq
        rw [hmig1] at hm
        omega)]
      exact hfr1 _ (untouched_of_tail htlp (by decide))
    · intro q hq
      rw [hkey2]
      rw [hfr4 q (untouched_of_head hq (by decide))]
      exact hgfeat3 q hq
    · intro hm
      rw [hkey2]
      have hm3 : beginMarker featureId ∈
          ((installFunctions cfg (featureDirOf featureId) res
            (installMigrations cfg (featureDirOf featureId) st1)).w.getFile seedPath).getD [] := by
        rw [hgseed3]
        exact hm
      rw [installSeeds_marker_noop hm3]
      exact hgseed3
    · intro hd hne hm
      rw [hkey2]
      have hfail3 : (installFunctions cfg (featureDirOf featureId) res
          (installMigrations cfg (featureDirOf featureId) st1)).w.failPaths = [] := by
        rw [hwf3.fails, hwf2.fails]
        exact hfail1
      have hd3 : (installFunctions cfg (featureDirOf featureId) res
          (installMigrations cfg (featureDirOf featureId) st1)).w.dirExists
            (featureDirOf featureId ++ ["seed"]) = true := by
        rw [hde3 (featureDirOf featureId ++ ["seed"]) rfl]
        exact hd
      have hne3 : (((installFunctions cfg (featureDirOf featureId) res
          (installMigrations cfg (featureDirOf featureId) st1)).w.filesUnder
            (featureDirOf featureId ++ ["seed"])).filter
              (fun f => strEndsWith (lastSeg f) ".sql")).isEmpty = false := by
        show (seedTemplates (installFunctions cfg (featureDirOf featureId) res
          (installMigrations cfg (featureDirOf featureId) st1)).w
            (featureDirOf featureId)).isEmpty = false
        rw [hseedTm]
        exact hne
      have hm3 : beginMarker featureId ∉
          ((installFunctions cfg (featureDirOf featureId) res
            (installMigrations cfg (featureDirOf featureId) st1)).w.getFile seedPath).getD [] := by
        rw [hgseed3]
        exact hm
      rw [installSeeds_write hfail3 hd3 hne3 hm3, hgseed3]
      have hlist : ((installFunctions cfg (featureDirOf featureId) res
          (installMigrations cfg (featureDirOf featureId) st1)).w.filesUnder
            (featureDirOf featureId ++ ["seed"])).filter
              (fun f => strEndsWith (lastSeg f) ".sql") =
          seedTemplates w (featureDirOf featureId) := hseedTm
      rw [hlist]
      have hloops : seedLoop (installFunctions cfg (featureDirOf featureId) res
          (installMigrations cfg (featureDirOf featureId) st1)).w
            (seedTemplates w (featureDirOf featureId)) ([], []) =
          seedLoop w (seedTemplates w (featureDirOf featureId)) ([], []) := by
        refine seedLoop_congr _ _ ?_
        intro f hf
        exact hgfeat3 f (filesUnder_head (show (featureDirOf featureId ++ ["seed"] : Path).head? = some "features" from rfl) (List.mem_of_mem_filter hf))
      rw [hloops]

/-- Claim C5: across two consecutive `installFeature` runs of the same
feature (no failure injection), the migration stage records a freshly
numbered artifact per template on each run — the two runs' migration
artifacts are pairwise distinct, and artifacts existing before a run are
never edited or deleted — while the seed stage appends the feature's marker
block at most once: with the marker present the stage is a no-op, and under
the natural freshness side conditions the shared artifact holds exactly one
begin marker after both runs. -/
theorem C5_repeat_install :
    ∀ (reg : Registry) (cfg : Config) (w : World) (featureId : String)
      (res res₂ : List ConflictingFile) (r1 : InstallationResult) (w1 : World)
      (cfg1 : Config) (r2 : InstallationResult) (w2 : World) (cfg2 : Config),
      w.failPaths = [] →
      installFeature reg cfg w featureId res = .ok (r1, w1, cfg1) →
      installFeature reg cfg1 w1 featureId res₂ = .ok (r2, w2, cfg2) →
      (w.dirExists (featureDirOf featureId ++ ["migrations"]) = true →
        r1.installedFiles.filter (fun p => p.tail.head? == some "migrations") =
          migArtifacts cfg w.migCounter (migTemplates w (featureDirOf featureId)) ∧
        r2.installedFiles.filter (fun p => p.tail.head? == some "migrations") =
          migArtifacts cfg1 w1.migCounter (migTemplates w (featureDirOf featureId))) ∧
      (∀ p ∈ r1.installedFiles, ∀ q ∈ r2.installedFiles,
        p.tail.head? = some "migrations" → q.tail.head? = some "migrations" → p ≠ q) ∧
      (∀ n b, n < w.migCounter →
        w1.getFile (migrationsDir ++ [migFileName n b]) =
          w.getFile (migrationsDir ++ [migFileName n b])) ∧
      (∀ n b, n < w1.migCounter →
        w2.getFile (migrationsDir ++ [migFileName n b]) =
          w1.getFile (migrationsDir ++ [migFileName n b])) ∧
      (beginMarker featureId ∈ (w1.getFile seedPath).getD [] →
        w2.getFile seedPath = w1.getFile seedPath) ∧
      (w.dirExists (featureDirOf featureId ++ ["seed"]) = true →
        (seedTemplates w (featureDirOf featureId)).isEmpty = false →
        beginMarker featureId ∉ (w.getFile seedPath).getD [] →
        (∀ f ∈ w.filesUnder (featureDirOf featureId ++ ["seed"]),
          ∀ line ∈ (w.getFile f).getD [], line ≠ beginMarker featureId) →
        ((w1.getFile seedPath).getD []).count (beginMarker featureId) = 1 ∧
        ((w2.getFile seedPath).getD []).count (beginMarker featureId) = 1) := by
  intro reg cfg w featureId res res₂ r1 w1 cfg1 r2 w2 cfg2 hfail hrun1 hrun2
  obtain ⟨ms1, F1, hms1, hc1, hfilter1, hold1, hfeat1, hnoop1, hwrite1⟩ :=
    installFeature_run hfail hrun1
  have hfail1 : w1.failPaths = [] := by
    rw [F1.fails]
    exact hfail
  obtain ⟨ms2, F2, hms2, hc2, hfilter2, hold2, hfeat2, hnoop2, hwrite2⟩ :=
    installFeature_run hfail1 hrun2
  refine ⟨?_, ?_, hold1, hold2, hnoop2, ?_⟩
  · intro hdm
    constructor
    · rw [hfilter1, hms1 hdm]
    · have hdm1 : w1.dirExists (featureDirOf featureId ++ ["migrations"]) = true := by
        rw [F1.de (featureDirOf featureId ++ ["migrations"]) rfl]
        exact hdm
      rw [hfilter2, hms2 hdm1]
      unfold migTemplates
      rw [F1.fu (featureDirOf featureId ++ ["migrations"]) rfl]
  · intro p hp q hq hpt hqt
    have hp2 : p ∈ migArtifacts cfg w.migCounter ms1 := by
      rw [← hfilter1]
      exact List.mem_filter.mpr ⟨hp, by rw [hpt]; simp⟩
    have hq2 : q ∈ migArtifacts cfg1 w1.migCounter ms2 := by
      rw [← hfilter2]
      exact List.mem_filter.mpr ⟨hq, by rw [hqt]; simp⟩
    obtain ⟨n1, b1, hn1a, hn1b, rfl⟩ := migArtifacts_shape _ _ hp2
    obtain ⟨n2, b2, hn2a, hn2b, rfl⟩ := migArtifacts_shape _ _ hq2
    intro heq
    have hinj := migArtifact_path_inj heq
    omega
  · intro hd hne hm hcontent
    have hw1seed := hwrite1 hd hne hm
    have hbody : beginMarker featureId ∉
        (seedLoop w (seedTemplates w (featureDirOf featureId)) ([], [])).1 := by
      intro hmem
      rcases seedLoop_lines _ _ hmem with h | h | ⟨f, hf⟩ | ⟨f, hf1, hf2⟩
      · cases h
      · exact beginMarker_ne_empty featureId h
      · exact beginMarker_ne_fromLine featureId (lastSeg f) hf
      · exact hcontent f (List.mem_of_mem_filter hf1) _ hf2 rfl
    have hne1 : beginMarker featureId ∉ ([""] : List String) := by
      simpa using beginMarker_ne_empty featureId
    have hne2 : beginMarker featureId ∉ [endMarker featureId] := by
      simpa using beginMarker_ne_endMarker featureId featureId
    have hcount1 : ((w1.getFile seedPath).getD []).count (beginMarker featureId) = 1 := by
      rw [hw1seed]
      simp only [Option.getD_some]
      rw [List.count_append, List.count_append, List.count_append, List.count_append]
      rw [List.count_eq_zero.mpr hm, List.count_eq_zero.mpr hbody,
        List.count_eq_zero.mpr hne1, List.count_eq_zero.mpr hne2]
      simp
    have hmem1 : beginMarker featureId ∈ (w1.getFile seedPath).getD [] := by
      rw [hw1seed]
      simp only [Option.getD_some]
      refine List.mem_append_right _ ?_
      refine List.mem_append_left _ (List.mem_append_left _ (List.mem_append_right _ ?_))
      exact List.mem_singleton_self _
    have hw2 : w2.getFile seedPath = w1.getFile seedPath := hnoop2 hmem1
    exact ⟨hcount1, by rw [hw2]; exact hcount1⟩

/-! ### Concrete scenario worlds used by witnesses and counterexamples -/

/-- A single dependency-free feature `"f"`. -/
def soloRegistry : Registry := [("f", mkFeature [])]

def noPrefixConfig : Config := ⟨none, []⟩

def sbConfig : Config := ⟨some "sb_", []⟩

/-- Two schema templates and one migration template for `"f"`; copying the
first schema target is failure-injected. -/
def c2World : World :=
  { files := [(["features", "f", "schemas", "s1.sql"], ["s1"]),
              (["features", "f", "schemas", "s2.sql"], ["s2"]),
              (["features", "f", "migrations", "m1.sql"], ["m1"])],
    dirs := [["features", "f", "schemas"], ["features", "f", "migrations"]],
    failPaths := [["supabase", "schemas", "s1.sql"]],
    migCounter := 0, saveConfigFails := false, now := "T0", events := [] }

/-- One migration template and one seed template for `"f"`; writing the fresh
migration artifact is failure-injected. -/
def c2bWorld : World :=
  { files := [(["features", "f", "migrations", "m1.sql"], ["m1"]),
              (["features", "f", "seed", "x.sql"], ["insert 1;"])],
    dirs := [["features", "f", "migrations"], ["features", "f", "seed"]],
    failPaths := [["supabase", "migrations", "_m1.sql"]],
    migCounter := 0, saveConfigFails := false, now := "T0", events := [] }

/-- Claim C2 counterexample: in `c2World` the copy of the first schema
template fails, and contrary to the claim the remaining schema file and the
migration, function, seed and persist stages are NOT attempted: the outcome
records only the one error, the returned world is the unchanged input world —
no scaffold request was issued (`events = []`), the second schema target was
never written, and the returned config is the unchanged input config. -/
theorem C2_counterexample :
    installFeature soloRegistry noPrefixConfig c2World "f" [] =
      .ok (⟨false, [], [], ["Failed to copy file: supabase/schemas/s1.sql"]⟩,
        c2World, noPrefixConfig) ∧
    c2World.events = [] ∧
    c2World.getFile ["supabase", "schemas", "s2.sql"] = none ∧
    (soloRegistry.map (fun e => (e.1, e.2.dependencies))) = [("f", some [])] := by
  refine ⟨by decide, by decide, by decide, by decide⟩

/-- Claim C2, amended: an error thrown inside the schema stage (which has no
per-item try/catch) aborts `installFeature` through its outer catch — the
outcome carries the accumulators and world as they stood at the throw, with
the message appended to `errors`, and the remaining stages (including persist)
are not attempted since the input config is returned unchanged.  Stage-item
errors in the migration, function and seed stages, by contrast, are caught
per item: in `c2bWorld` the migration write fails, yet the seed stage still
appends its block, the persist stage still writes the record, and the outcome
reports `success = false` with the migration error. -/
theorem C2_schema_failure_aborts :
    (∀ (reg : Registry) (cfg : Config) (w : World) (featureId : String)
        (res : List ConflictingFile) (f : Feature) (m : String) (st : InstallSt),
      lookupFeature reg featureId = some f →
      installSchemas cfg (featureDirOf featureId) res ⟨w, [], [], []⟩ = .error (m, st) →
      installFeature reg cfg w featureId res =
        .ok (⟨false, st.installed, st.skipped, st.errors ++ [m]⟩, st.w, cfg)) ∧
    outcomeOf (installFeature soloRegistry noPrefixConfig c2bWorld "f" []) =
      some ⟨false, [seedPath], [],
        ["Failed to install migration from features/f/migrations/m1.sql: " ++
          "Failed to write file: supabase/migrations/_m1.sql"]⟩ ∧
    (worldOf (installFeature soloRegistry noPrefixConfig c2bWorld "f" [])).map
        (fun w => w.getFile seedPath) =
      some (some ["", "-- BEGIN: f seeds", "-- From: x.sql", "insert 1;", "",
        "-- END: f seeds"]) ∧
    (configOf (installFeature soloRegistry noPrefixConfig c2bWorld "f" [])).map
        (fun c => lookupRecord c "f") =
      some (some ⟨"1.0.0", "T0", [seedPath]⟩) := by
  refine ⟨?_, by rfl, by rfl, by rfl⟩
  intro reg cfg w featureId res f m st hf hs
  unfold installFeature
  rw [hf]
  dsimp only
  rw [hs]
  rfl

/-- Witness for the amended C2 at the concrete schema-failure world. -/
theorem C2_schema_failure_aborts_witness :
    installFeature soloRegistry noPrefixConfig c2World "f" [] =
      .ok (⟨false, [], [], [] ++ ["Failed to copy file: supabase/schemas/s1.sql"]⟩,
        c2World, noPrefixConfig) :=
  C2_schema_failure_aborts.1 soloRegistry noPrefixConfig c2World "f" [] (mkFeature [])
    "Failed to copy file: supabase/schemas/s1.sql" ⟨c2World, [], [], []⟩
    (by decide) (by decide)

/-- Claim C7: every outcome returned by `installFeature` has `success = true`
exactly when its `errors` list is empty (so a failed outcome always carries at
least one error); and — concretely, on the failing run over `c2bWorld` — the
`installedFiles` accumulator is still populated with what succeeded before
and despite the failure. -/
theorem C7_success_iff_no_errors :
    (∀ (reg : Registry) (cfg : Config) (w : World) (featureId : String)
        (res : List ConflictingFile) (r : InstallationResult) (w' : World) (cfg' : Config),
      installFeature reg cfg w featureId res = .ok (r, w', cfg') →
      (r.success = true ↔ r.errors = [])) ∧
    (outcomeOf (installFeature soloRegistry noPrefixConfig c2bWorld "f" [])).map
        (fun r => (r.success, r.installedFiles.isEmpty, r.errors.isEmpty)) =
      some (false, false, false) := by
  refine ⟨?_, by rfl⟩
  intro reg cfg w featureId res r w' cfg' h
  unfold installFeature at h
  split at h
  · cases h
  · dsimp only at h
    split at h
    · cases h
      simp [failResult]
    · split at h
      · cases h
        simp [failResult]
      · cases h
        simp

/-- Witness for C7: the failing `c2bWorld` run satisfies the equivalence. -/
theorem C7_success_iff_no_errors_witness :
    (false = true ↔
      (["Failed to install migration from features/f/migrations/m1.sql: " ++
        "Failed to write file: supabase/migrations/_m1.sql"] : List String) = []) :=
  C7_success_iff_no_errors.1 soloRegistry noPrefixConfig c2bWorld "f" []
    ⟨false, [seedPath], [],
      ["Failed to install migration from features/f/migrations/m1.sql: " ++
        "Failed to write file: supabase/migrations/_m1.sql"]⟩ _ _ (by rfl)

/-! ### Lemmas about `setRecord` and the persist stage -/

lemma find?_setRecord_self {l : List (String × InstalledFeature)} {k : String}
    {v : InstalledFeature} :
    (setRecord l k v).find? (fun e => e.1 == k) = some (k, v) := by
  unfold setRecord
  split
  · exact find?_map_replace (by assumption)
  · rename_i hany
    induction l with
    | nil => simp [List.find?]
    | cons e rest ih =>
      simp only [List.any_cons, Bool.or_eq_true, not_or] at hany
      have he : (e.1 == k) = false := by
        cases h : (e.1 == k) with
        | true => exact absurd h hany.1
        | false => rfl
      rw [List.cons_append]
      simp only [List.find?_cons, he]
      exact ih (by simpa using hany.2)

lemma find?_setRecord_other {l : List (String × InstalledFeature)} {k k' : String}
    {v : InstalledFeature} (hk : k' ≠ k) :
    (setRecord l k v).find? (fun e => e.1 == k') = l.find? (fun e => e.1 == k') := by
  have hkk : (k == k') = false := by
    simp only [beq_eq_false_iff_ne, ne_eq]
    exact fun h => hk h.symm
  unfold setRecord
  split
  · exact find?_map_replace_other hkk l
  · exact find?_append_single_other hkk l

lemma updateInstalledFeatures_ok {reg : Registry} {cfg : Config} {w : World}
    {featureId : String} {installed : List Path} {f : Feature} {cfg' : Config}
    (hf : lookupFeature reg featureId = some f)
    (h : updateInstalledFeatures reg cfg w featureId installed = .ok cfg') :
    cfg'.filePrefix = cfg.filePrefix ∧
      lookupRecord cfg' featureId = some ⟨f.version.getD "", w.now, installed⟩ ∧
      ∀ k, k ≠ featureId → lookupRecord cfg' k = lookupRecord cfg k := by
  unfold updateInstalledFeatures at h
  rw [hf] at h
  dsimp only at h
  split at h
  · cases h
  · cases h
    refine ⟨rfl, ?_, ?_⟩
    · unfold lookupRecord
      dsimp only
      rw [find?_setRecord_self]
      rfl
    · intro k hk
      unfold lookupRecord
      dsimp only
      rw [find?_setRecord_other hk]

/-- Claim C10: when the persist stage runs for feature `f` (equivalently,
whenever `updateInstalledFeatures` completes for a feature the registry
knows), the feature's stored record is replaced wholesale — its `files` list
is exactly this run's `installedFiles` (any paths from a prior record are
gone), its `version` is the registry descriptor's version, its `installedAt`
is the current clock — and the records of all other feature ids are
unchanged.  The second conjunct lifts this to a successful `installFeature`
run. -/
theorem C10_persist_record :
    (∀ (reg : Registry) (cfg : Config) (w : World) (featureId : String)
        (installed : List Path) (f : Feature) (cfg' : Config),
      lookupFeature reg featureId = some f →
      updateInstalledFeatures reg cfg w featureId installed = .ok cfg' →
      lookupRecord cfg' featureId = some ⟨f.version.getD "", w.now, installed⟩ ∧
        ∀ k, k ≠ featureId → lookupRecord cfg' k = lookupRecord cfg k) ∧
    (∀ (reg : Registry) (cfg : Config) (w : World) (featureId : String)
        (res : List ConflictingFile) (r : InstallationResult) (w' : World)
        (cfg' : Config) (f : Feature),
      lookupFeature reg featureId = some f →
      installFeature reg cfg w featureId res = .ok (r, w', cfg') →
      r.success = true →
      lookupRecord cfg' featureId = some ⟨f.version.getD "", w'.now, r.installedFiles⟩ ∧
        ∀ k, k ≠ featureId → lookupRecord cfg' k = lookupRecord cfg k) := by
  constructor
  · intro reg cfg w featureId installed f cfg' hf h
    exact (updateInstalledFeatures_ok hf h).2
  · intro reg cfg w featureId res r w' cfg' f hf h hsucc
    unfold installFeature at h
    rw [hf] at h
    dsimp only at h
    split at h
    · cases h
      cases hsucc
    · rename_i st1 hst1
      split at h
      · cases h
        cases hsucc
      · rename_i cfg'' hupd
        cases h
        exact (updateInstalledFeatures_ok hf hupd).2

/-- Witness for C10: persisting feature `"f"` over a config that already
holds a stale record for `"f"` (with a path this run did not produce) and a
record for another feature `"g"`: the stale path is pruned and `"g"` is
untouched. -/
theorem C10_persist_record_witness :
    lookupRecord
        (Config.mk none
          (setRecord [("f", ⟨"0.9", "T-1", [["old"]]⟩), ("g", ⟨"2.0", "T-1", [["gpath"]]⟩)]
            "f" ⟨"1.0.0", "T0", [seedPath]⟩))
        "f" = some ⟨"1.0.0", "T0", [seedPath]⟩ ∧
      ∀ k, k ≠ "f" →
        lookupRecord
            (Config.mk none
              (setRecord [("f", ⟨"0.9", "T-1", [["old"]]⟩), ("g", ⟨"2.0", "T-1", [["gpath"]]⟩)]
                "f" ⟨"1.0.0", "T0", [seedPath]⟩))
            k =
          lookupRecord
            (Config.mk none
              [("f", ⟨"0.9", "T-1", [["old"]]⟩), ("g", ⟨"2.0", "T-1", [["gpath"]]⟩)]) k :=
  C10_persist_record.1 soloRegistry
    (Config.mk none [("f", ⟨"0.9", "T-1", [["old"]]⟩), ("g", ⟨"2.0", "T-1", [["gpath"]]⟩)])
    { files := [], dirs := [], failPaths := [], migCounter := 0,
      saveConfigFails := false, now := "T0", events := [] }
    "f" [seedPath] (mkFeature []) _ (by decide) (by rfl)

/-! ### Unresolved conflict entries (C6) -/

/-- One schema template for `"f"` whose target already exists on disk. -/
def c6World : World :=
  { files := [(["features", "f", "schemas", "s.sql"], ["new"]),
              (["supabase", "schemas", "s.sql"], ["old"])],
    dirs := [["features", "f", "schemas"]],
    failPaths := [], migCounter := 0, saveConfigFails := false, now := "T0", events := [] }

/-- A conflict entry for the pre-existing schema target with no resolution. -/
def c6Res : List ConflictingFile :=
  [⟨["supabase", "schemas", "s.sql"], true, none⟩]

/-- An empty world whose function target directory `supabase/functions/g`
already exists. -/
def c6fnWorld : World :=
  { files := [], dirs := [["supabase", "functions", "g"]], failPaths := [],
    migCounter := 0, saveConfigFails := false, now := "T0", events := [] }

/-- Claim C6 counterexample: the conflict entry for the pre-existing schema
target `supabase/schemas/s.sql` carries no resolution, yet `installFeature`
does NOT treat it as skip: the target is overwritten (its content changes
from `["old"]` to the template's `["new"]`) and it is recorded in
`installedFiles`, with `skippedFiles` empty. -/
theorem C6_counterexample :
    resolutionFor c6Res ["supabase", "schemas", "s.sql"] = none ∧
    c6World.getFile ["supabase", "schemas", "s.sql"] = some ["old"] ∧
    outcomeOf (installFeature soloRegistry noPrefixConfig c6World "f" c6Res) =
      some ⟨true, [["supabase", "schemas", "s.sql"]], [], []⟩ ∧
    (worldOf (installFeature soloRegistry noPrefixConfig c6World "f" c6Res)).map
        (fun w => w.getFile ["supabase", "schemas", "s.sql"]) =
      some (some ["new"]) := by
  refine ⟨by decide, by decide, by rfl, by rfl⟩

/-- Claim C6, amended: only the function stage treats an absent resolution as
`skip`, and only when the target directory exists — the directory is recorded
in `skippedFiles` and nothing else changes.  The schema stage instead treats
an absent resolution as `overwrite`: the target is recorded in
`installedFiles` (never in the skips of the stage), and its content becomes
the template's. -/
theorem C6_unresolved_entries :
    (∀ (cfg : Config) (fp : Path) (res : List ConflictingFile) (name : String)
        (st : InstallSt),
      st.w.dirExists (functionsDir ++ [applyFilePrefixStr cfg name]) = true →
      resolutionFor res (functionsDir ++ [applyFilePrefixStr cfg name]) = none →
      fnLoop cfg fp res [name] st =
        { st with skipped :=
            st.skipped ++ [functionsDir ++ [applyFilePrefixStr cfg name]] }) ∧
    (∀ (cfg : Config) (root : Path) (res : List ConflictingFile) (fs : List Path)
        (s : InstallSt) (f : Path),
      s.w.failPaths = [] →
      (∀ g ∈ fs, g.head? = some "features" ∧ (s.w.getFile g).isSome) →
      (schemaWrites cfg root res fs).Nodup →
      f ∈ fs →
      resolutionFor res (schemaTargetOf cfg root f) = none →
      ∃ st', schemasLoop cfg root res fs s = .ok st' ∧
        schemaTargetOf cfg root f ∈ st'.installed ∧
        st'.skipped = s.skipped ++ schemaSkips cfg root res fs ∧
        schemaTargetOf cfg root f ∉ schemaSkips cfg root res fs ∧
        st'.w.getFile (schemaTargetOf cfg root f) = s.w.getFile f) := by
  constructor
  · intro cfg fp res name st hdir hres
    simp only [fnLoop]
    rw [if_neg (by simp [hres]), if_pos ⟨hdir, by simp [hres]⟩]
  · intro cfg root res fs s f hfail hsrc hnd hf hres
    obtain ⟨st', hrun, hframe, hev, hmig, herr, hskip, hinst, hfr, hcontent⟩ :=
      schemasLoop_ok hfail hsrc
    have hnoskip : ¬ resolutionFor res (schemaTargetOf cfg root f) = some ResAction.skip := by
      simp [hres]
    refine ⟨st', hrun, ?_, hskip, ?_, ?_⟩
    · rw [hinst]
      refine List.mem_append_right _ ?_
      simp only [schemaWrites, List.mem_map]
      exact ⟨f, List.mem_filter.mpr ⟨hf, by simp [hres]⟩, rfl⟩
    · intro hmem
      simp only [schemaSkips, List.mem_map] at hmem
      obtain ⟨g, hg, heq⟩ := hmem
      have hgskip := List.mem_filter.mp hg
      rw [heq] at hgskip
      rw [hres] at hgskip
      simpa using hgskip.2
    · exact hcontent hnd f hf hnoskip

/-- Witness for the amended C6: the function part at a world whose target
directory `supabase/functions/g` exists, the schema part at the `c6World`
scenario. -/
theorem C6_unresolved_entries_witness :
    (fnLoop noPrefixConfig ["features", "f"]
        [⟨["supabase", "functions", "g"], true, none⟩] ["g"] ⟨c6fnWorld, [], [], []⟩ =
      ⟨c6fnWorld, [], [["supabase", "functions", "g"]], []⟩) ∧
    (∃ st', schemasLoop noPrefixConfig ["features", "f", "schemas"] c6Res
        (c6World.filesUnder ["features", "f", "schemas"]) ⟨c6World, [], [], []⟩ =
          .ok st' ∧
      schemaTargetOf noPrefixConfig ["features", "f", "schemas"]
          ["features", "f", "schemas", "s.sql"] ∈ st'.installed ∧
      st'.skipped = [] ++ schemaSkips noPrefixConfig ["features", "f", "schemas"] c6Res
        (c6World.filesUnder ["features", "f", "schemas"]) ∧
      schemaTargetOf noPrefixConfig ["features", "f", "schemas"]
          ["features", "f", "schemas", "s.sql"] ∉
        schemaSkips noPrefixConfig ["features", "f", "schemas"] c6Res
          (c6World.filesUnder ["features", "f", "schemas"]) ∧
      st'.w.getFile (schemaTargetOf noPrefixConfig ["features", "f", "schemas"]
          ["features", "f", "schemas", "s.sql"]) =
        c6World.getFile ["features", "f", "schemas", "s.sql"]) := by
  constructor
  · exact (C6_unresolved_entries.1 noPrefixConfig ["features", "f"]
      [⟨["supabase", "functions", "g"], true, none⟩] "g" ⟨c6fnWorld, [], [], []⟩
      (by decide) (by decide)).trans (by decide)
  · exact C6_unresolved_entries.2 noPrefixConfig ["features", "f", "schemas"] c6Res
      (c6World.filesUnder ["features", "f", "schemas"]) ⟨c6World, [], [], []⟩
      ["features", "f", "schemas", "s.sql"]
      (by decide) (by decide) (by decide) (by decide) (by decide)

/-! ### The function-stage decision table (C4) -/

/-- The target directory `fnLoop` computes for a template directory `name`. -/
def fnTargetDir (cfg : Config) (name : String) : Path :=
  functionsDir ++ [applyFilePrefixStr cfg name]

/-- The template source directory `fnLoop` reads for `name`. -/
def fnSrcDir (fp : Path) (name : String) : Path := fp ++ ["functions", name]

/-- One function template `foo/index.ts` for `"f"`; the target directory
`supabase/functions/foo` does not exist. -/
def c4World : World :=
  { files := [(["features", "f", "functions", "foo", "index.ts"], ["code"])],
    dirs := [["features", "f", "functions"], ["features", "f", "functions", "foo"]],
    failPaths := [], migCounter := 0, saveConfigFails := false, now := "T0", events := [] }

/-- A conflict entry resolving the (absent) function target as `overwrite`. -/
def c4Res : List ConflictingFile :=
  [⟨["supabase", "functions", "foo"], true, some ResAction.overwrite⟩]

/-- Claim C4 counterexample: the function target directory does not exist,
yet because the entry is resolved `overwrite` no scaffold creation is ever
requested (the final world's event log is empty) — the template file is
simply copied and recorded.  This contradicts the claim's second row, which
ties scaffolding to the absence of the target directory alone. -/
theorem C4_counterexample :
    c4World.dirExists ["supabase", "functions", "foo"] = false ∧
    resolutionFor c4Res ["supabase", "functions", "foo"] = some ResAction.overwrite ∧
    outcomeOf (installFeature soloRegistry noPrefixConfig c4World "f" c4Res) =
      some ⟨true, [["supabase", "functions", "foo", "index.ts"]], [], []⟩ ∧
    (worldOf (installFeature soloRegistry noPrefixConfig c4World "f" c4Res)).map
        (fun w => w.events) = some [] := by
  refine ⟨by decide, by decide, by rfl, by rfl⟩

/-- Claim C4, amended decision table for one function template directory:
(1) a `skip` resolution records the target in `skippedFiles` and changes
nothing else; (2) when the target is absent AND the resolution is neither
`overwrite` nor `skip`, scaffold creation is requested exactly once and every
template file is copied into the target and recorded; (3) when the target
exists and the resolution is neither `overwrite` nor `skip`, the target is
recorded in `skippedFiles` without an error; (4) an `overwrite` resolution
copies the template files without invoking the scaffold tool — regardless of
whether the target directory exists. -/
theorem C4_function_decision_table :
    (∀ (cfg : Config) (fp : Path) (res : List ConflictingFile) (name : String)
        (st : InstallSt),
      resolutionFor res (fnTargetDir cfg name) = some ResAction.skip →
      fnLoop cfg fp res [name] st =
        { st with skipped := st.skipped ++ [fnTargetDir cfg name] }) ∧
    (∀ (cfg : Config) (fp : Path) (res : List ConflictingFile) (name : String)
        (st : InstallSt),
      st.w.dirExists (fnTargetDir cfg name) = true →
      resolutionFor res (fnTargetDir cfg name) ≠ some ResAction.overwrite →
      resolutionFor res (fnTargetDir cfg name) ≠ some ResAction.skip →
      fnLoop cfg fp res [name] st =
        { st with skipped := st.skipped ++ [fnTargetDir cfg name] }) ∧
    (∀ (cfg : Config) (fp : Path) (res : List ConflictingFile) (name : String)
        (st : InstallSt),
      st.w.failPaths = [] →
      (fnSrcDir fp name).head? = some "features" →
      st.w.dirExists (fnTargetDir cfg name) = false →
      resolutionFor res (fnTargetDir cfg name) ≠ some ResAction.overwrite →
      resolutionFor res (fnTargetDir cfg name) ≠ some ResAction.skip →
      ∃ st', fnLoop cfg fp res [name] st = st' ∧
        st'.w.events = st.w.events ++
          [Event.scaffoldFunction (applyFilePrefixStr cfg name)] ∧
        st'.installed = st.installed ++ fnTargets (fnSrcDir fp name) (fnTargetDir cfg name)
          (st.w.filesUnder (fnSrcDir fp name)) ∧
        st'.skipped = st.skipped ∧ st'.errors = st.errors ∧
        ((fnTargets (fnSrcDir fp name) (fnTargetDir cfg name)
            (st.w.filesUnder (fnSrcDir fp name))).Nodup →
          ∀ f ∈ st.w.filesUnder (fnSrcDir fp name),
            st'.w.getFile (fnTargetDir cfg name ++ f.drop (fnSrcDir fp name).length) =
              st.w.getFile f)) ∧
    (∀ (cfg : Config) (fp : Path) (res : List ConflictingFile) (name : String)
        (st : InstallSt),
      st.w.failPaths = [] →
      (fnSrcDir fp name).head? = some "features" →
      resolutionFor res (fnTargetDir cfg name) = some ResAction.overwrite →
      ∃ st', fnLoop cfg fp res [name] st = st' ∧
        st'.w.events = st.w.events ∧
        st'.installed = st.installed ++ fnTargets (fnSrcDir fp name) (fnTargetDir cfg name)
          (st.w.filesUnder (fnSrcDir fp name)) ∧
        st'.skipped = st.skipped ∧ st'.errors = st.errors ∧
        ((fnTargets (fnSrcDir fp name) (fnTargetDir cfg name)
            (st.w.filesUnder (fnSrcDir fp name))).Nodup →
          ∀ f ∈ st.w.filesUnder (fnSrcDir fp name),
            st'.w.getFile (fnTargetDir cfg name ++ f.drop (fnSrcDir fp name).length) =
              st.w.getFile f)) := by
  have htgth : ∀ (cfg : Config) (name : String),
      (fnTargetDir cfg name).head? = some "supabase" := fun _ _ => rfl
  have htgtl : ∀ (cfg : Config) (name : String), 2 ≤ (fnTargetDir cfg name).length := by
    intro cfg name
    show 2 ≤ (functionsDir ++ [applyFilePrefixStr cfg name]).length
    simp [functionsDir]
  have e1 : ∀ (cfg : Config) (name : String),
      (functionsDir ++ [applyFilePrefixStr cfg name] : Path) = fnTargetDir cfg name :=
    fun _ _ => rfl
  have e2 : ∀ (fp : Path) (name : String),
      fp ++ ["functions", name] = fnSrcDir fp name := fun _ _ => rfl
  refine ⟨?_, ?_, ?_, ?_⟩
  · intro cfg fp res name st hres
    simp only [fnLoop]
    rw [e1, e2, if_pos hres]
  · intro cfg fp res name st hdir hnov hnsk
    simp only [fnLoop]
    rw [e1, e2, if_neg hnsk, if_pos ⟨hdir, hnov⟩]
  · intro cfg fp res name st hfail hsrch hdir hnov hnsk
    simp only [fnLoop]
    rw [e1, e2, if_neg hnsk,
      if_neg (by rw [hdir]; exact fun hc => by simpa using hc.1),
      if_pos ⟨by rw [hdir]; simp, hnov⟩]
    have hfu : (st.w.scaffoldFunction (applyFilePrefixStr cfg name)).filesUnder
        (fnSrcDir fp name) = st.w.filesUnder (fnSrcDir fp name) :=
      (writeFrame_scaffoldFunction).fu _ hsrch
    have hsrc1 : ∀ f ∈ (st.w.scaffoldFunction (applyFilePrefixStr cfg name)).filesUnder
        (fnSrcDir fp name), f.head? = some "features" ∧
        ((st.w.scaffoldFunction (applyFilePrefixStr cfg name)).getFile f).isSome := by
      intro f hf
      rw [hfu] at hf
      have hfh := filesUnder_head hsrch hf
      refine ⟨hfh, ?_⟩
      rw [getFile_scaffoldFunction_other hfh]
      exact (mem_filesUnder hf).2.2
    obtain ⟨st', hrun, hframe, hev, hmig, herr, hskip, hinst, hfr, hcontent⟩ :=
      @fnCopyLoop_ok (fnSrcDir fp name) (fnTargetDir cfg name) (htgth cfg name)
        (htgtl cfg name)
        ((st.w.scaffoldFunction (applyFilePrefixStr cfg name)).filesUnder (fnSrcDir fp name))
        ⟨st.w.scaffoldFunction (applyFilePrefixStr cfg name), st.installed, st.skipped, st.errors⟩
        (by rw [failPaths_scaffoldFunction]; exact hfail) hsrc1
    rw [hfu] at hrun hinst hcontent ⊢
    rw [hrun]
    refine ⟨st', rfl, ?_, hinst, hskip, herr, ?_⟩
    · rw [hev]
      exact events_scaffoldFunction _ _
    · intro hnd f hf
      rw [hcontent hnd f hf]
      exact getFile_scaffoldFunction_other (filesUnder_head hsrch hf)
  · intro cfg fp res name st hfail hsrch hov
    simp only [fnLoop]
    rw [e1, e2, if_neg (by simp [hov]),
      if_neg (fun hc => hc.2 hov),
      if_neg (fun hc => hc.2 hov)]
    have hsrc1 : ∀ f ∈ st.w.filesUnder (fnSrcDir fp name), f.head? = some "features" ∧
        (st.w.getFile f).isSome := by
      intro f hf
      exact ⟨filesUnder_head hsrch hf, (mem_filesUnder hf).2.2⟩
    obtain ⟨st', hrun, hframe, hev, hmig, herr, hskip, hinst, hfr, hcontent⟩ :=
      @fnCopyLoop_ok (fnSrcDir fp name) (fnTargetDir cfg name) (htgth cfg name)
        (htgtl cfg name) (st.w.filesUnder (fnSrcDir fp name))
        ⟨st.w, st.installed, st.skipped, st.errors⟩ hfail hsrc1
    rw [hrun]
    exact ⟨st', rfl, hev, hinst, hskip, herr, hcontent⟩

/-- Witness for the amended C4: rows (1) and (2) of the decision table at the
`c4World` scenario — an explicit `skip` entry is recorded as skipped, and with
no conflict entry the absent target is scaffolded once and the template file
copied. -/
theorem C4_function_decision_table_witness :
    (fnLoop noPrefixConfig ["features", "f"]
        [⟨["supabase", "functions", "foo"], true, some ResAction.skip⟩] ["foo"]
        ⟨c4World, [], [], []⟩ =
      ⟨c4World, [], [["supabase", "functions", "foo"]], []⟩) ∧
    (∃ st', fnLoop noPrefixConfig ["features", "f"] [] ["foo"] ⟨c4World, [], [], []⟩ = st' ∧
      st'.w.events = c4World.events ++
        [Event.scaffoldFunction (applyFilePrefixStr noPrefixConfig "foo")] ∧
      st'.installed = [] ++ fnTargets (fnSrcDir ["features", "f"] "foo")
        (fnTargetDir noPrefixConfig "foo")
        (c4World.filesUnder (fnSrcDir ["features", "f"] "foo")) ∧
      st'.skipped = ([] : List Path) ∧ st'.errors = ([] : List String) ∧
      ((fnTargets (fnSrcDir ["features", "f"] "foo") (fnTargetDir noPrefixConfig "foo")
          (c4World.filesUnder (fnSrcDir ["features", "f"] "foo"))).Nodup →
        ∀ f ∈ c4World.filesUnder (fnSrcDir ["features", "f"] "foo"),
          st'.w.getFile (fnTargetDir noPrefixConfig "foo" ++
              f.drop (fnSrcDir ["features", "f"] "foo").length) =
            c4World.getFile f)) := by
  constructor
  · exact (C4_function_decision_table.1 noPrefixConfig ["features", "f"]
      [⟨["supabase", "functions", "foo"], true, some ResAction.skip⟩] "foo"
      ⟨c4World, [], [], []⟩ (by decide)).trans (by decide)
  · exact C4_function_decision_table.2.2.1 noPrefixConfig ["features", "f"] [] "foo"
      ⟨c4World, [], [], []⟩ (by decide) (by decide) (by decide) (by decide) (by decide)

/-! ### The schema conflict protocol across the whole pipeline (C8) -/

/-- Two schema templates for `"f"`, both of whose targets pre-exist; the first
is resolved `skip`, the second `overwrite`. -/
def c8World : World :=
  { files := [(["features", "f", "schemas", "a.sql"], ["A"]),
              (["features", "f", "schemas", "b.sql"], ["B"]),
              (["supabase", "schemas", "a.sql"], ["oldA"]),
              (["supabase", "schemas", "b.sql"], ["oldB"])],
    dirs := [["features", "f", "schemas"]],
    failPaths := [], migCounter := 0, saveConfigFails := false, now := "T0", events := [] }

def c8Res : List ConflictingFile :=
  [⟨["supabase", "schemas", "a.sql"], true, some ResAction.skip⟩,
   ⟨["supabase", "schemas", "b.sql"], true, some ResAction.overwrite⟩]

/-- Claim C8: across a whole (non-aborting) `installFeature` run, a schema
template whose target is resolved `skip` ends up in `skippedFiles`, not in
`installedFiles`, and the target file on disk is unchanged by the entire run;
one resolved `overwrite` ends up in `installedFiles`, not in `skippedFiles`,
and the target's final content is the template's.  In particular no schema
target appears in both lists. -/
theorem C8_schema_conflict_protocol :
    ∀ (reg : Registry) (cfg : Config) (w : World) (featureId : String)
      (res : List ConflictingFile) (r : InstallationResult) (w₂ : World) (cfg₂ : Config)
      (f : Path),
      w.failPaths = [] →
      w.dirExists (featureDirOf featureId ++ ["schemas"]) = true →
      f ∈ w.filesUnder (featureDirOf featureId ++ ["schemas"]) →
      (schemaWrites cfg (featureDirOf featureId ++ ["schemas"]) res
        (w.filesUnder (featureDirOf featureId ++ ["schemas"]))).Nodup →
      installFeature reg cfg w featureId res = .ok (r, w₂, cfg₂) →
      (resolutionFor res (schemaTargetOf cfg (featureDirOf featureId ++ ["schemas"]) f) =
          some ResAction.skip →
        schemaTargetOf cfg (featureDirOf featureId ++ ["schemas"]) f ∈ r.skippedFiles ∧
        schemaTargetOf cfg (featureDirOf featureId ++ ["schemas"]) f ∉ r.installedFiles ∧
        w₂.getFile (schemaTargetOf cfg (featureDirOf featureId ++ ["schemas"]) f) =
          w.getFile (schemaTargetOf cfg (featureDirOf featureId ++ ["schemas"]) f)) ∧
      (resolutionFor res (schemaTargetOf cfg (featureDirOf featureId ++ ["schemas"]) f) =
          some ResAction.overwrite →
        schemaTargetOf cfg (featureDirOf featureId ++ ["schemas"]) f ∈ r.installedFiles ∧
        schemaTargetOf cfg (featureDirOf featureId ++ ["schemas"]) f ∉ r.skippedFiles ∧
        w₂.getFile (schemaTargetOf cfg (featureDirOf featureId ++ ["schemas"]) f) =
          w.getFile f) := by
  intro reg cfg w featureId res r w₂ cfg₂ f hfail hdir hf hnd hrun
  rcases hlf : lookupFeature reg featureId with _ | feat
  · unfold installFeature at hrun
    rw [hlf] at hrun
    cases hrun
  · unfold installFeature at hrun
    rw [hlf] at hrun
    dsimp only at hrun
    have hroot : (featureDirOf featureId ++ ["schemas"]).head? = some "features" := rfl
    have hsrc : ∀ g ∈ w.filesUnder (featureDirOf featureId ++ ["schemas"]),
        g.head? = some "features" ∧ (w.getFile g).isSome :=
      fun g hg => ⟨filesUnder_head hroot hg, (mem_filesUnder hg).2.2⟩
    obtain ⟨st1, hrun1, hframe1, hev1, hmig1, herr1, hskip1, hinst1, hfr1, hcontent1⟩ :=
      @schemasLoop_ok cfg (featureDirOf featureId ++ ["schemas"]) res
        (w.filesUnder (featureDirOf featureId ++ ["schemas"])) ⟨w, [], [], []⟩ hfail hsrc
    have hsch : installSchemas cfg (featureDirOf featureId) res ⟨w, [], [], []⟩ = .ok st1 := by
      simp only [installSchemas]
      rw [if_pos hdir]
      exact hrun1
    rw [hsch] at hrun
    dsimp only at hrun
    obtain ⟨hsk2, ⟨ai2, hin2, hai2⟩, he2, hwf2, hfr2⟩ :=
      @installMigrations_effects cfg (featureDirOf featureId) st1
    obtain ⟨⟨as3, hsk3, has3⟩, ⟨ai3, hin3, hai3⟩, he3, hwf3, hfr3⟩ :=
      @installFunctions_effects cfg (featureDirOf featureId) res
        (installMigrations cfg (featureDirOf featureId) st1)
    obtain ⟨hsk4, ⟨ai4, hin4, hai4⟩, he4, hwf4, hfr4⟩ :=
      @installSeeds_effects featureId (featureDirOf featureId)
        (installFunctions cfg (featureDirOf featureId) res
          (installMigrations cfg (featureDirOf featureId) st1))
    have htt : (schemaTargetOf cfg (featureDirOf featureId ++ ["schemas"]) f).tail.head? =
        some "schemas" := rfl
    have hnsw : resolutionFor res (schemaTargetOf cfg (featureDirOf featureId ++ ["schemas"]) f) =
        some ResAction.skip →
        schemaTargetOf cfg (featureDirOf featureId ++ ["schemas"]) f ∉
          schemaWrites cfg (featureDirOf featureId ++ ["schemas"]) res
            (w.filesUnder (featureDirOf featureId ++ ["schemas"])) := by
      intro hres hmem
      simp only [schemaWrites, List.mem_map] at hmem
      obtain ⟨g, hg, heq⟩ := hmem
      have hgp := List.mem_filter.mp hg
      rw [heq, hres] at hgp
      simpa using hgp.2
    have hnsk : ∀ a : ResAction,
        resolutionFor res (schemaTargetOf cfg (featureDirOf featureId ++ ["schemas"]) f) =
          some a → a ≠ ResAction.skip →
        schemaTargetOf cfg (featureDirOf featureId ++ ["schemas"]) f ∉
          schemaSkips cfg (featureDirOf featureId ++ ["schemas"]) res
            (w.filesUnder (featureDirOf featureId ++ ["schemas"])) := by
      intro a hres hane hmem
      simp only [schemaSkips, List.mem_map] at hmem
      obtain ⟨g, hg, heq⟩ := hmem
      have hgp := List.mem_filter.mp hg
      rw [heq, hres] at hgp
      have := of_decide_eq_true hgp.2
      cases this
      exact hane rfl
    have main :
        (resolutionFor res (schemaTargetOf cfg (featureDirOf featureId ++ ["schemas"]) f) =
            some ResAction.skip →
          schemaTargetOf cfg (featureDirOf featureId ++ ["schemas"]) f ∈
            (installSeeds featureId (featureDirOf featureId)
              (installFunctions cfg (featureDirOf featureId) res
                (installMigrations cfg (featureDirOf featureId) st1))).skipped ∧
          schemaTargetOf cfg (featureDirOf featureId ++ ["schemas"]) f ∉
            (installSeeds featureId (featureDirOf featureId)
              (installFunctions cfg (featureDirOf featureId) res
                (installMigrations cfg (featureDirOf featureId) st1))).installed ∧
          (installSeeds featureId (featureDirOf featureId)
              (installFunctions cfg (featureDirOf featureId) res
                (installMigrations cfg (featureDirOf featureId) st1))).w.getFile
              (schemaTargetOf cfg (featureDirOf featureId ++ ["schemas"]) f) =
            w.getFile (schemaTargetOf cfg (featureDirOf featureId ++ ["schemas"]) f)) ∧
        (resolutionFor res (schemaTargetOf cfg (featureDirOf featureId ++ ["schemas"]) f) =
            some ResAction.overwrite →
          schemaTargetOf cfg (featureDirOf featureId ++ ["schemas"]) f ∈
            (installSeeds featureId (featureDirOf featureId)
              (installFunctions cfg (featureDirOf featureId) res
                (installMigrations cfg (featureDirOf featureId) st1))).installed ∧
          schemaTargetOf cfg (featureDirOf featureId ++ ["schemas"]) f ∉
            (installSeeds featureId (featureDirOf featureId)
              (installFunctions cfg (featureDirOf featureId) res
                (installMigrations cfg (featureDirOf featureId) st1))).skipped ∧
          (installSeeds featureId (featureDirOf featureId)
              (installFunctions cfg (featureDirOf featureId) res
                (installMigrations cfg (featureDirOf featureId) st1))).w.getFile
              (schemaTargetOf cfg (featureDirOf featureId ++ ["schemas"]) f) =
            w.getFile f) := by
      have hsk : (installSeeds featureId (featureDirOf featureId)
          (installFunctions cfg (featureDirOf featureId) res
            (installMigrations cfg (featureDirOf featureId) st1))).skipped =
          (schemaSkips cfg (featureDirOf featureId ++ ["schemas"]) res
            (w.filesUnder (featureDirOf featureId ++ ["schemas"]))) ++ as3 := by
        rw [hsk4, hsk3, hsk2, hskip1]
        rfl
      have hin : (installSeeds featureId (featureDirOf featureId)
          (installFunctions cfg (featureDirOf featureId) res
            (installMigrations cfg (featureDirOf featureId) st1))).installed =
          (schemaWrites cfg (featureDirOf featureId ++ ["schemas"]) res
            (w.filesUnder (featureDirOf featureId ++ ["schemas"]))) ++ ai2 ++ ai3 ++ ai4 := by
        rw [hin4, hin3, hin2, hinst1]
        rfl
      have hgf : ∀ q, q.tail.head? = some "schemas" →
          (installSeeds featureId (featureDirOf featureId)
            (installFunctions cfg (featureDirOf featureId) res
              (installMigrations cfg (featureDirOf featureId) st1))).w.getFile q =
            st1.w.getFile q :=
        fun q hq => ((hfr4 q (untouched_of_tail hq (by decide))).trans
          ((hfr3 q (untouched_of_tail hq (by decide))).trans
            (hfr2 q (untouched_of_tail hq (by decide)))))
      constructor
      · intro hres
        refine ⟨?_, ?_, ?_⟩
        · rw [hsk]
          refine List.mem_append_left _ ?_
          simp only [schemaSkips, List.mem_map]
          exact ⟨f, List.mem_filter.mpr ⟨hf, by simp [hres]⟩, rfl⟩
        · rw [hin]
          intro hmem
          rcases List.mem_append.mp hmem with hmem | hmem
          · rcases List.mem_append.mp hmem with hmem | hmem
            · rcases List.mem_append.mp hmem with hmem | hmem
              · exact hnsw hres hmem
              · have := hai2 _ hmem
                rw [htt] at this
                simp at this
            · have := hai3 _ hmem
              rw [htt] at this
              simp at this
          · have := hai4 _ hmem
            rw [htt] at this
            simp at this
        · rw [hgf _ htt]
          exact hfr1 _ (hnsw hres)
      · intro hres
        refine ⟨?_, ?_, ?_⟩
        · rw [hin]
          refine List.mem_append_left _ (List.mem_append_left _ (List.mem_append_left _ ?_))
          simp only [schemaWrites, List.mem_map]
          exact ⟨f, List.mem_filter.mpr ⟨hf, by simp [hres]⟩, rfl⟩
        · rw [hsk]
          intro hmem
          rcases List.mem_append.mp hmem with hmem | hmem
          · exact hnsk ResAction.overwrite hres (by decide) hmem
          · have := has3 _ hmem
            rw [htt] at this
            simp at this
        · rw [hgf _ htt]
          exact hcontent1 hnd f hf (by simp [hres])
    split at hrun
    · cases hrun
      exact main
    · cases hrun
      exact main

/-- The outcome of the `c8World` run. -/
def c8Result : InstallationResult :=
  ⟨true, [["supabase", "schemas", "b.sql"]], [["supabase", "schemas", "a.sql"]], []⟩

/-- The final world of the `c8World` run: `a.sql` untouched, `b.sql`
overwritten with the template content. -/
def c8FinalWorld : World :=
  { files := [(["features", "f", "schemas", "a.sql"], ["A"]),
              (["features", "f", "schemas", "b.sql"], ["B"]),
              (["supabase", "schemas", "a.sql"], ["oldA"]),
              (["supabase", "schemas", "b.sql"], ["B"])],
    dirs := [["features", "f", "schemas"]],
    failPaths := [], migCounter := 0, saveConfigFails := false, now := "T0", events := [] }

/-- The persisted config of the `c8World` run. -/
def c8FinalConfig : Config :=
  ⟨none, [("f", ⟨"1.0.0", "T0", [["supabase", "schemas", "b.sql"]]⟩)]⟩

/-- Witness for C8 at the `c8World` run, once for the skip-resolved template
`a.sql` and once for the overwrite-resolved template `b.sql`. -/
theorem C8_schema_conflict_protocol_witness :
    ((resolutionFor c8Res (schemaTargetOf noPrefixConfig (featureDirOf "f" ++ ["schemas"])
          ["features", "f", "schemas", "a.sql"]) = some ResAction.skip →
        schemaTargetOf noPrefixConfig (featureDirOf "f" ++ ["schemas"])
          ["features", "f", "schemas", "a.sql"] ∈ c8Result.skippedFiles ∧
        schemaTargetOf noPrefixConfig (featureDirOf "f" ++ ["schemas"])
          ["features", "f", "schemas", "a.sql"] ∉ c8Result.installedFiles ∧
        c8FinalWorld.getFile (schemaTargetOf noPrefixConfig (featureDirOf "f" ++ ["schemas"])
          ["features", "f", "schemas", "a.sql"]) =
          c8World.getFile (schemaTargetOf noPrefixConfig (featureDirOf "f" ++ ["schemas"])
            ["features", "f", "schemas", "a.sql"])) ∧
      (resolutionFor c8Res (schemaTargetOf noPrefixConfig (featureDirOf "f" ++ ["schemas"])
          ["features", "f", "schemas", "a.sql"]) = some ResAction.overwrite →
        schemaTargetOf noPrefixConfig (featureDirOf "f" ++ ["schemas"])
          ["features", "f", "schemas", "a.sql"] ∈ c8Result.installedFiles ∧
        schemaTargetOf noPrefixConfig (featureDirOf "f" ++ ["schemas"])
          ["features", "f", "schemas", "a.sql"] ∉ c8Result.skippedFiles ∧
        c8FinalWorld.getFile (schemaTargetOf noPrefixConfig (featureDirOf "f" ++ ["schemas"])
          ["features", "f", "schemas", "a.sql"]) =
          c8World.getFile ["features", "f", "schemas", "a.sql"])) ∧
    ((resolutionFor c8Res (schemaTargetOf noPrefixConfig (featureDirOf "f" ++ ["schemas"])
          ["features", "f", "schemas", "b.sql"]) = some ResAction.skip →
        schemaTargetOf noPrefixConfig (featureDirOf "f" ++ ["schemas"])
          ["features", "f", "schemas", "b.sql"] ∈ c8Result.skippedFiles ∧
        schemaTargetOf noPrefixConfig (featureDirOf "f" ++ ["schemas"])
          ["features", "f", "schemas", "b.sql"] ∉ c8Result.installedFiles ∧
        c8FinalWorld.getFile (schemaTargetOf noPrefixConfig (featureDirOf "f" ++ ["schemas"])
          ["features", "f", "schemas", "b.sql"]) =
          c8World.getFile (schemaTargetOf noPrefixConfig (featureDirOf "f" ++ ["schemas"])
            ["features", "f", "schemas", "b.sql"])) ∧
      (resolutionFor c8Res (schemaTargetOf noPrefixConfig (featureDirOf "f" ++ ["schemas"])
          ["features", "f", "schemas", "b.sql"]) = some ResAction.overwrite →
        schemaTargetOf noPrefixConfig (featureDirOf "f" ++ ["schemas"])
          ["features", "f", "schemas", "b.sql"] ∈ c8Result.installedFiles ∧
        schemaTargetOf noPrefixConfig (featureDirOf "f" ++ ["schemas"])
          ["features", "f", "schemas", "b.sql"] ∉ c8Result.skippedFiles ∧
        c8FinalWorld.getFile (schemaTargetOf noPrefixConfig (featureDirOf "f" ++ ["schemas"])
          ["features", "f", "schemas", "b.sql"]) =
          c8World.getFile ["features", "f", "schemas", "b.sql"])) :=
  ⟨C8_schema_conflict_protocol soloRegistry noPrefixConfig c8World "f" c8Res c8Result
      c8FinalWorld c8FinalConfig ["features", "f", "schemas", "a.sql"]
      (by decide) (by decide) (by decide) (by decide) (by rfl),
    C8_schema_conflict_protocol soloRegistry noPrefixConfig c8World "f" c8Res c8Result
      c8FinalWorld c8FinalConfig ["features", "f", "schemas", "b.sql"]
      (by decide) (by decide) (by decide) (by decide) (by rfl)⟩

/-! ### Prefix application (C9) -/

lemma extSplit_join (s : String) : (extSplit s).1 ++ (extSplit s).2 = s := by
  unfold extSplit
  rcases h : lastDotAux s.data 0 none with _ | i
  · simp
  · cases i with
    | zero => simp
    | succ n =>
      apply String.ext
      show ((⟨s.data.take (n + 1)⟩ : String) ++ ⟨s.data.drop (n + 1)⟩).data = s.data
      rw [String.data_append]
      exact List.take_append_drop _ _

lemma applyFilePrefixStr_none (l : List (String × InstalledFeature)) (s : String) :
    applyFilePrefixStr ⟨none, l⟩ s = s := rfl

lemma applyFilePrefixStr_some (pre : String) (l : List (String × InstalledFeature))
    (s : String) : applyFilePrefixStr ⟨some pre, l⟩ s = pre ++ s := by
  show pre ++ (extSplit s).1 ++ (extSplit s).2 = pre ++ s
  rw [String.append_assoc, extSplit_join]

lemma applyFilePrefixPath_ne_nil (cfg : Config) {p : Path} (h : p ≠ []) :
    applyFilePrefixPath cfg p = p.dropLast ++ [applyFilePrefixStr cfg (p.getLast h)] := by
  cases p with
  | nil => exact absurd rfl h
  | cons x xs => rfl

lemma getLast_append_single {α : Type} (l : List α) (a : α) (h : l ++ [a] ≠ []) :
    (l ++ [a]).getLast h = a := by
  induction l with
  | nil => rfl
  | cons x xs ih =>
    exact (List.getLast_cons (by simp)).trans (ih (by simp))

lemma applyFilePrefixPath_last (cfg : Config) (dir : Path) (name : String) :
    applyFilePrefixPath cfg (dir ++ [name]) = dir ++ [applyFilePrefixStr cfg name] := by
  rw [applyFilePrefixPath_ne_nil cfg (by simp : dir ++ [name] ≠ [])]
  rw [List.dropLast_concat]
  rw [getLast_append_single dir name (by simp)]

/-- One seed template for `"f"`, installed under a configured `sb_` prefix. -/
def c9World : World :=
  { files := [(["features", "f", "seed", "x.sql"], ["insert 1;"])],
    dirs := [["features", "f", "seed"]],
    failPaths := [], migCounter := 0, saveConfigFails := false, now := "T0", events := [] }

/-- Claim C9 counterexample: with prefix `sb_` configured, the run produces
the shared seed artifact `supabase/seed.sql` (it appears in
`installedFiles`), whose base filename does not carry the prefix — the
prefix is applied zero times to this artifact, not exactly once. -/
theorem C9_counterexample :
    sbConfig.filePrefix = some "sb_" ∧
    outcomeOf (installFeature soloRegistry sbConfig c9World "f" []) =
      some ⟨true, [seedPath], [], []⟩ ∧
    lastSeg seedPath = "seed.sql" ∧
    ("sb_".data.isPrefixOf (lastSeg seedPath).data) = false := by
  refine ⟨by decide, by rfl, by decide, by decide⟩

/-- Claim C9, amended: for schema, migration and function artifacts the
configured prefix is prepended exactly once to the final path segment, at the
single construction point (`applyFilePrefix` inside `getTargetPath` /
name construction), leaving the directory part untouched, and with no prefix
configured the name is unchanged.  The shared seed artifact is the exception:
`installSeeds` writes the fixed, unprefixed path `supabase/seed.sql` without
consulting the configuration at all. -/
theorem C9_prefix_application :
    (∀ (l : List (String × InstalledFeature)) (s : String),
      applyFilePrefixStr ⟨none, l⟩ s = s) ∧
    (∀ (pre : String) (l : List (String × InstalledFeature)) (s : String),
      applyFilePrefixStr ⟨some pre, l⟩ s = pre ++ s) ∧
    (∀ (cfg : Config) (dir : Path) (name : String),
      applyFilePrefixPath cfg (dir ++ [name]) = dir ++ [applyFilePrefixStr cfg name]) ∧
    (∀ (cfg : Config) (ty : String) (dir : Path) (name : String),
      getTargetPath cfg ty (dir ++ [name]) =
        supabaseDir ++ [ty] ++ dir ++ [applyFilePrefixStr cfg name]) ∧
    (∀ (featureId : String) (fp : Path) (s : InstallSt),
      (installSeeds featureId fp s).installed = s.installed ∨
      (installSeeds featureId fp s).installed = s.installed ++ [seedPath]) := by
  refine ⟨applyFilePrefixStr_none, applyFilePrefixStr_some, applyFilePrefixPath_last, ?_, ?_⟩
  · intro cfg ty dir name
    unfold getTargetPath
    rw [applyFilePrefixPath_last]
    simp [List.append_assoc]
  · intro featureId fp s
    by_cases hd : s.w.dirExists (fp ++ ["seed"]) = true
    · by_cases he : ((s.w.filesUnder (fp ++ ["seed"])).filter
          (fun f => strEndsWith (lastSeg f) ".sql")).isEmpty = true
      · left
        have hstep : installSeeds featureId fp s = s := by
          simp only [installSeeds]
          rw [if_pos hd, if_pos he]
        rw [hstep]
      · by_cases hm : beginMarker featureId ∈ (s.w.getFile seedPath).getD []
        · left
          have hstep : installSeeds featureId fp s = s := by
            simp only [installSeeds]
            rw [if_pos hd, if_neg (by simp [he]), if_pos hm]
          rw [hstep]
        · rcases hw : s.w.writeFile seedPath
              (((s.w.getFile seedPath).getD []) ++
                ([""] ++ [beginMarker featureId] ++
                  (seedLoop s.w ((s.w.filesUnder (fp ++ ["seed"])).filter
                    (fun f => strEndsWith (lastSeg f) ".sql")) ([], [])).1 ++
                  [endMarker featureId])) with m | w₂
          · left
            have hstep : installSeeds featureId fp s =
                { s with errors := (s.errors ++ (seedLoop s.w ((s.w.filesUnder (fp ++ ["seed"])).filter (fun f => strEndsWith (lastSeg f) ".sql")) ([], [])).2) ++ ["Failed to write seed file: " ++ m] } := by
              simp only [installSeeds]
              rw [if_pos hd, if_neg (by simp [he]), if_neg hm]
              rw [hw]
            rw [hstep]
          · right
            have hstep : installSeeds featureId fp s =
                { s with w := w₂,
                         errors := s.errors ++ (seedLoop s.w ((s.w.filesUnder (fp ++ ["seed"])).filter (fun f => strEndsWith (lastSeg f) ".sql")) ([], [])).2,
                         installed := s.installed ++ [seedPath] } := by
              simp only [installSeeds]
              rw [if_pos hd, if_neg (by simp [he]), if_neg hm]
              rw [hw]
            rw [hstep]
    · left
      have hstep : installSeeds featureId fp s = s := by
        simp only [installSeeds]
        rw [if_neg hd]
      rw [hstep]

/-! ### A concrete double install (C5 witness scenario) -/

/-- One migration template and one seed template for `"f"`. -/
def c5World : World :=
  { files := [(["features", "f", "migrations", "m1.sql"], ["m1"]),
              (["features", "f", "seed", "x.sql"], ["insert 1;"])],
    dirs := [["features", "f", "migrations"], ["features", "f", "seed"]],
    failPaths := [], migCounter := 0, saveConfigFails := false, now := "T0", events := [] }

/-- The world after the first install of `"f"` over `c5World`. -/
def c5w1 : World :=
  { files := [(["features", "f", "migrations", "m1.sql"], ["m1"]),
              (["features", "f", "seed", "x.sql"], ["insert 1;"]),
              (["supabase", "migrations", "_m1.sql"], ["m1"]),
              (["supabase", "seed.sql"],
               ["", "-- BEGIN: f seeds", "-- From: x.sql", "insert 1;", "", "-- END: f seeds"])],
    dirs := [["features", "f", "migrations"], ["features", "f", "seed"],
             ["supabase", "migrations"], ["supabase"]],
    failPaths := [], migCounter := 1, saveConfigFails := false, now := "T0",
    events := [Event.scaffoldMigration "m1"] }

def c5cfg1 : Config :=
  ⟨none, [("f", ⟨"1.0.0", "T0",
    [["supabase", "migrations", "_m1.sql"], ["supabase", "seed.sql"]]⟩)]⟩

def c5r1 : InstallationResult :=
  ⟨true, [["supabase", "migrations", "_m1.sql"], ["supabase", "seed.sql"]], [], []⟩

/-- The world after the second install of `"f"`: a second, freshly numbered
migration artifact, the seed artifact untouched. -/
def c5w2 : World :=
  { files := [(["features", "f", "migrations", "m1.sql"], ["m1"]),
              (["features", "f", "seed", "x.sql"], ["insert 1;"]),
              (["supabase", "migrations", "_m1.sql"], ["m1"]),
              (["supabase", "seed.sql"],
               ["", "-- BEGIN: f seeds", "-- From: x.sql", "insert 1;", "", "-- END: f seeds"]),
              (["supabase", "migrations", "0_m1.sql"], ["m1"])],
    dirs := [["features", "f", "migrations"], ["features", "f", "seed"],
             ["supabase", "migrations"], ["supabase"]],
    failPaths := [], migCounter := 2, saveConfigFails := false, now := "T0",
    events := [Event.scaffoldMigration "m1", Event.scaffoldMigration "m1"] }

def c5cfg2 : Config :=
  ⟨none, [("f", ⟨"1.0.0", "T0", [["supabase", "migrations", "0_m1.sql"]]⟩)]⟩

def c5r2 : InstallationResult :=
  ⟨true, [["supabase", "migrations", "0_m1.sql"]], [], []⟩

/-- Witness for C5 at the concrete double install over `c5World`. -/
theorem C5_repeat_install_witness :
    (c5World.dirExists (featureDirOf "f" ++ ["migrations"]) = true →
      c5r1.installedFiles.filter (fun p => p.tail.head? == some "migrations") =
        migArtifacts noPrefixConfig c5World.migCounter
          (migTemplates c5World (featureDirOf "f")) ∧
      c5r2.installedFiles.filter (fun p => p.tail.head? == some "migrations") =
        migArtifacts c5cfg1 c5w1.migCounter (migTemplates c5World (featureDirOf "f"))) ∧
    (∀ p ∈ c5r1.installedFiles, ∀ q ∈ c5r2.installedFiles,
      p.tail.head? = some "migrations" → q.tail.head? = some "migrations" → p ≠ q) ∧
    (∀ n b, n < c5World.migCounter →
      c5w1.getFile (migrationsDir ++ [migFileName n b]) =
        c5World.getFile (migrationsDir ++ [migFileName n b])) ∧
    (∀ n b, n < c5w1.migCounter →
      c5w2.getFile (migrationsDir ++ [migFileName n b]) =
        c5w1.getFile (migrationsDir ++ [migFileName n b])) ∧
    (beginMarker "f" ∈ (c5w1.getFile seedPath).getD [] →
      c5w2.getFile seedPath = c5w1.getFile seedPath) ∧
    (c5World.dirExists (featureDirOf "f" ++ ["seed"]) = true →
      (seedTemplates c5World (featureDirOf "f")).isEmpty = false →
      beginMarker "f" ∉ (c5World.getFile seedPath).getD [] →
      (∀ f ∈ c5World.filesUnder (featureDirOf "f" ++ ["seed"]),
        ∀ line ∈ (c5World.getFile f).getD [], line ≠ beginMarker "f") →
      ((c5w1.getFile seedPath).getD []).count (beginMarker "f") = 1 ∧
      ((c5w2.getFile seedPath).getD []).count (beginMarker "f") = 1) :=
  C5_repeat_install soloRegistry noPrefixConfig c5World "f" [] [] c5r1 c5w1 c5cfg1
    c5r2 c5w2 c5cfg2 (by decide) (by rfl) (by rfl)

end SupaBootstrap
